import Mathlib

/-!
Verification development for the schema-to-graph translation of
`openapi-viz.py` (class `OpenAPIGraphGenerator`).

The parsed OpenAPI document is modelled by a JSON-like value type.  The
translation routines (`_process_type`, `_properties_as_html_table`,
`_get_property_type_label`, `_add_schemas`, `generate_graph`) are embedded as
pure functions threading an explicit graph-builder state.  Operations that can
raise in Python (subscripting, attribute access on the wrong runtime type,
`str.join` over non-strings, exceeding the recursion limit) are modelled in
the `Except String` monad; the recursion limit is modelled by an explicit fuel
parameter whose exhaustion yields the `"RecursionError"` outcome.
-/

/-- A parsed YAML/JSON value.  Mappings are ordered association lists, matching
Python's insertion-ordered `dict`. -/
inductive Json where
  | null
  | bool (b : Bool)
  | num (n : Int)
  | str (s : String)
  | arr (elems : List Json)
  | obj (fields : List (String × Json))

namespace Json

/-- First-match lookup in an ordered field list (Python `dict` access). -/
def lookup (k : String) : List (String × Json) → Option Json
  | [] => none
  | (k', v) :: rest => if k' = k then some v else lookup k rest

def isStr : Json → Bool
  | .str _ => true
  | _ => false

def isObj : Json → Bool
  | .obj _ => true
  | _ => false

def isArr : Json → Bool
  | .arr _ => true
  | _ => false

end Json

/-- Python `==` comparison of an arbitrary value against a string literal:
`True` exactly when the value is that string (comparisons of a string with a
non-string value are `False`, never an error). -/
def pyEqStr (v : Json) (s : String) : Bool :=
  match v with
  | .str s' => s' = s
  | _ => false

/-- `pat` is a prefix of `hay` (character lists). -/
def startsWithChars : List Char → List Char → Bool
  | [], _ => true
  | _ :: _, [] => false
  | a :: as, b :: bs => a = b && startsWithChars as bs

/-- `pat` occurs as a contiguous substring of `hay` (character lists). -/
def hasSubChars (pat : List Char) : List Char → Bool
  | [] => startsWithChars pat []
  | c :: rest => startsWithChars pat (c :: rest) || hasSubChars pat rest

/-- Python `in` on two strings: substring containment. -/
def strContains (hay pat : String) : Bool :=
  hasSubChars pat.data hay.data

/-- Python `s.split('/')[-1]`: the text after the last `/` (the whole string
when no `/` occurs). -/
def lastSegChars : List Char → List Char → List Char
  | [], acc => acc.reverse
  | c :: rest, acc => if c = '/' then lastSegChars rest [] else lastSegChars rest (c :: acc)

def lastSegment (s : String) : String :=
  String.mk (lastSegChars s.data [])

/-- Python `sep.join` of strings. -/
def joinSep (sep : String) : List String → String
  | [] => ""
  | [x] => x
  | x :: y :: rest => x ++ sep ++ joinSep sep (y :: rest)

mutual

/-- Python `repr` for the modelled value types. -/
def pyRepr : Json → String
  | .null => "None"
  | .bool true => "True"
  | .bool false => "False"
  | .num n => toString n
  | .str s => "'" ++ s ++ "'"
  | .arr xs => "[" ++ joinSep ", " (pyReprList xs) ++ "]"
  | .obj kvs => "\x7b" ++ joinSep ", " (pyReprFields kvs) ++ "\x7d"

/-- `repr` of each list element. -/
def pyReprList : List Json → List String
  | [] => []
  | x :: xs => pyRepr x :: pyReprList xs

/-- `repr` of each dict entry. -/
def pyReprFields : List (String × Json) → List String
  | [] => []
  | (k, v) :: kvs => ("'" ++ k ++ "': " ++ pyRepr v) :: pyReprFields kvs

end

/-- Python `str()` of a value, as used by f-string interpolation: identity on
strings, `repr`-style text otherwise. -/
def pyStr : Json → String
  | .str s => s
  | v => pyRepr v

/-- Python `key in x` for a string key: key membership on a dict, substring
test on a string, `==`-membership on a list; `TypeError` on the remaining
(non-container) values. -/
def pyIn (k : String) : Json → Except String Bool
  | .obj kvs => .ok (Json.lookup k kvs).isSome
  | .str s => .ok (strContains s k)
  | .arr xs => .ok (xs.any (fun x => pyEqStr x k))
  | _ => .error "TypeError"

/-- Python `x[key]` subscripting with a string key: dict lookup (`KeyError`
when absent), `TypeError` on every other value. -/
def pyGetItem (x : Json) (k : String) : Except String Json :=
  match x with
  | .obj kvs =>
      match Json.lookup k kvs with
      | some v => .ok v
      | none => .error "KeyError"
  | _ => .error "TypeError"

/-- Python `x.get(key, default)`: only dicts have `.get`, every other value
raises `AttributeError`. -/
def pyGet (x : Json) (k : String) (dflt : Json) : Except String Json :=
  match x with
  | .obj kvs => .ok ((Json.lookup k kvs).getD dflt)
  | _ => .error "AttributeError"

/-- Python `x.items()`: only dicts have `.items`. -/
def pyItems (x : Json) : Except String (List (String × Json)) :=
  match x with
  | .obj kvs => .ok kvs
  | _ => .error "AttributeError"

/-- Python `x.split('/')[-1]`: only strings have `.split`. -/
def pySplitLast (x : Json) : Except String String :=
  match x with
  | .str s => .ok (lastSegment s)
  | _ => .error "AttributeError"

/-- Python `len(x)`: sized containers only. -/
def pyLen (x : Json) : Except String Nat :=
  match x with
  | .str s => .ok s.length
  | .arr xs => .ok xs.length
  | .obj kvs => .ok kvs.length
  | _ => .error "TypeError"

/-- Python `x[:5]`: sequence slicing (`TypeError` on dicts and scalars). -/
def pySlice5 (x : Json) : Except String Json :=
  match x with
  | .str s => .ok (.str (String.mk (s.data.take 5)))
  | .arr xs => .ok (.arr (xs.take 5))
  | _ => .error "TypeError"

/-- Python iteration `for v in x`: list elements, characters of a string
(each a 1-character string), keys of a dict; `TypeError` otherwise. -/
def pyIter (x : Json) : Except String (List Json) :=
  match x with
  | .arr xs => .ok xs
  | .str s => .ok (s.data.map (fun c => Json.str (String.mk [c])))
  | .obj kvs => .ok (kvs.map (fun kv => Json.str kv.1))
  | _ => .error "TypeError"

/-- Python truthiness `bool(x)` for the modelled values (never raises). -/
def pyTruthy : Json → Bool
  | .null => false
  | .bool b => b
  | .num n => n != 0
  | .str s => s ≠ ""
  | .arr xs => ¬ xs.isEmpty
  | .obj kvs => ¬ kvs.isEmpty

/-- Python `', '.join(xs)` over a list of values: `TypeError` as soon as a
non-string element is encountered. -/
def asStrList : List Json → Except String (List String)
  | [] => .ok []
  | .str s :: rest => (asStrList rest).map (fun l => s :: l)
  | _ :: _ => .error "TypeError"

def pyJoin (sep : String) (xs : List Json) : Except String String :=
  (asStrList xs).map (joinSep sep)

/-! ## The graph-builder state

`graphviz.Digraph` receives an ordered sequence of `node` and `edge` calls;
the builder also keeps the visited set `self.processed_refs`.  Node and edge
records store exactly the arguments the code passes: for table-row edges the
source string already carries the `:port_<name>` qualifier. -/

structure GNode where
  id : String
  label : String
  tooltip : Option String := none
deriving DecidableEq, Repr

structure GEdge where
  src : String
  tgt : String
  label : String
deriving DecidableEq, Repr

structure GState where
  visited : List String
  nodes : List GNode
  edges : List GEdge
deriving DecidableEq, Repr

/-- The builder state right after `__init__`: empty visited set, no graph
content. -/
def initState : GState := ⟨[], [], []⟩

def addNode (id label : String) (tooltip : Option String) (st : GState) : GState :=
  { st with nodes := st.nodes ++ [⟨id, label, tooltip⟩] }

def addEdge (src tgt label : String) (st : GState) : GState :=
  { st with edges := st.edges ++ [⟨src, tgt, label⟩] }

/-- `self.processed_refs.add(schema_id)`. -/
def markVisited (id : String) (st : GState) : GState :=
  { st with visited := id :: st.visited }

/-- The label shape `f"<{name}<BR/><FONT POINT-SIZE='10'>type: {text}</FONT>>"`
shared by every non-table node emitted by `_process_type`. -/
def nodeLabel (name text : String) : String :=
  "<" ++ name ++ "<BR/><FONT POINT-SIZE=\x27" ++ "10\x27>type: " ++ text ++ "</FONT>>"

/-- The fixed header rows of `_properties_as_html_table`. -/
def tableHeader (schemaName : String) : String :=
  "<TABLE BORDER=\x270\x27 CELLBORDER=\x271\x27 CELLSPACING=\x270\x27>"
    ++ "<TR><TD COLSPAN=\x272\x27><B>" ++ schemaName ++ "</B></TD></TR>"
    ++ "<TR><TD><B>Property</B></TD><TD><B>Type</B></TD></TR>"

/-- The degenerate table returned for an empty/falsy property mapping. -/
def noPropsTable : String :=
  "<TABLE><TR><TD>No properties</TD></TR></TABLE>"

/-- The types collected from `anyOf` alternatives in
`_get_property_type_label` (lines 141-148 and, identically, 158-165): the
reference's final path segment, the raw `type` value, or `"unknown"`. -/
def anyOfTypeNames : List Json → Except String (List Json)
  | [] => .ok []
  | item :: rest => do
    let b ← pyIn "$ref" item
    let t ←
      if b then do
        let r ← pyGetItem item "$ref"
        let seg ← pySplitLast r
        pure (Json.str seg)
      else do
        let b2 ← pyIn "type" item
        if b2 then pyGetItem item "type"
        else pure (Json.str "unknown")
    let ts ← anyOfTypeNames rest
    .ok (t :: ts)

/-- `_get_property_type_label` (lines 135-171): human-readable type text for a
property.  The raw values that Python returns into an f-string are rendered
with `pyStr`; the `', '.join` calls keep their Python failure mode. -/
def getPropertyTypeLabel (pd : Json) : Except String String := do
  let b1 ← pyIn "$ref" pd
  if b1 then do
    let r ← pyGetItem pd "$ref"
    let seg ← pySplitLast r
    .ok ("reference to " ++ seg)
  else do
    let b2 ← pyIn "anyOf" pd
    if b2 then do
      let a ← pyGetItem pd "anyOf"
      let alts ← pyIter a
      let ts ← anyOfTypeNames alts
      let joined ← pyJoin ", " ts
      .ok ("anyOf: " ++ joined)
    else do
      let b3 ← pyIn "type" pd
      if b3 then do
        let t ← pyGetItem pd "type"
        if pyEqStr t "array" then do
          let hi ← pyIn "items" pd
          if hi then do
            let its ← pyGetItem pd "items"
            let br ← pyIn "$ref" its
            if br then do
              let r ← pyGetItem its "$ref"
              let seg ← pySplitLast r
              .ok ("array of " ++ seg)
            else do
              let ba ← pyIn "anyOf" its
              if ba then do
                let a ← pyGetItem its "anyOf"
                let alts ← pyIter a
                let ts ← anyOfTypeNames alts
                let joined ← pyJoin ", " ts
                .ok ("array of anyOf: " ++ joined)
              else do
                let bt ← pyIn "type" its
                if bt then do
                  let tt ← pyGetItem its "type"
                  .ok ("array of " ++ pyStr tt)
                else .ok "array"
          else .ok "array"
        else .ok (pyStr t)
      else .ok "unknown"

/-- The PORT-cell condition of `_properties_as_html_table` line 72, with
Python's left-to-right short-circuit evaluation. -/
def portCond (pd : Json) : Except String Bool := do
  let c1 ← pyIn "$ref" pd
  if c1 then .ok true
  else do
    let c2 ← pyIn "anyOf" pd
    if c2 then .ok true
    else do
      let t ← pyGet pd "type" Json.null
      if pyEqStr t "array" then do
        let c3 ← pyIn "items" pd
        if c3 then .ok true
        else do
          let t2 ← pyGet pd "type" Json.null
          if pyEqStr t2 "object" then pyIn "properties" pd else .ok false
      else do
        let t2 ← pyGet pd "type" Json.null
        if pyEqStr t2 "object" then pyIn "properties" pd else .ok false

/-- The type of the recursive processor threaded into the table/loop helpers
(the `self._process_type` bound method): display name, schema node, target
identifier, state. -/
def ProcessFn : Type :=
  String → Json → String → GState → Except String GState

/-- The `anyOf` loop of `_properties_as_html_table` (lines 84-95): per
alternative, a reference edge or an inline-object recursion plus edge. -/
def propAnyOfLoop (pt : ProcessFn) (propName portName parentId : String) :
    Nat → List Json → GState → Except String GState
  | _, [], st => .ok st
  | i, item :: rest, st => do
    let b ← pyIn "$ref" item
    let st ←
      if b then do
        let r ← pyGetItem item "$ref"
        let seg ← pySplitLast r
        .ok (addEdge (parentId ++ ":" ++ portName) ("schema_" ++ seg)
              (propName ++ " (anyOf[" ++ toString i ++ "])") st)
      else do
        let b2 ← pyIn "type" item
        if b2 then do
          let t ← pyGetItem item "type"
          if pyEqStr t "object" then do
            let bp ← pyIn "properties" item
            if bp then do
              let p ← pyGetItem item "properties"
              let nestedId := parentId ++ "_" ++ propName ++ "_anyOf_" ++ toString i
              let st ← pt (propName ++ " anyOf " ++ toString i)
                (Json.obj [("type", Json.str "object"), ("properties", p)]) nestedId st
              .ok (addEdge (parentId ++ ":" ++ portName) nestedId
                    (propName ++ " (anyOf[" ++ toString i ++ "])") st)
            else .ok st
          else .ok st
        else .ok st
    propAnyOfLoop pt propName portName parentId (i + 1) rest st

/-- The array-items `anyOf` loop of `_properties_as_html_table`
(lines 103-114). -/
def propArrayAnyOfLoop (pt : ProcessFn) (propName portName parentId : String) :
    Nat → List Json → GState → Except String GState
  | _, [], st => .ok st
  | i, item :: rest, st => do
    let b ← pyIn "$ref" item
    let st ←
      if b then do
        let r ← pyGetItem item "$ref"
        let seg ← pySplitLast r
        .ok (addEdge (parentId ++ ":" ++ portName) ("schema_" ++ seg)
              (propName ++ " (array anyOf[" ++ toString i ++ "])") st)
      else do
        let b2 ← pyIn "type" item
        if b2 then do
          let t ← pyGetItem item "type"
          if pyEqStr t "object" then do
            let bp ← pyIn "properties" item
            if bp then do
              let p ← pyGetItem item "properties"
              let nestedId := parentId ++ "_" ++ propName ++ "_array_anyOf_" ++ toString i
              let st ← pt (propName ++ " array anyOf " ++ toString i)
                (Json.obj [("type", Json.str "object"), ("properties", p)]) nestedId st
              .ok (addEdge (parentId ++ ":" ++ portName) nestedId
                    (propName ++ " (array anyOf[" ++ toString i ++ "])") st)
            else .ok st
          else .ok st
        else .ok st
    propArrayAnyOfLoop pt propName portName parentId (i + 1) rest st

/-- The per-property edge/recursion chain of `_properties_as_html_table`
(lines 78-130). -/
def propEdges (pt : ProcessFn) (propName portName parentId : String) (pd : Json)
    (st : GState) : Except String GState := do
  let b1 ← pyIn "$ref" pd
  if b1 then do
    let r ← pyGetItem pd "$ref"
    let seg ← pySplitLast r
    .ok (addEdge (parentId ++ ":" ++ portName) ("schema_" ++ seg) propName st)
  else do
    let b2 ← pyIn "anyOf" pd
    if b2 then do
      let a ← pyGetItem pd "anyOf"
      let alts ← pyIter a
      propAnyOfLoop pt propName portName parentId 0 alts st
    else do
      let t ← pyGet pd "type" Json.null
      if pyEqStr t "array" then do
        let hi ← pyIn "items" pd
        if hi then do
          let its ← pyGetItem pd "items"
          let br ← pyIn "$ref" its
          if br then do
            let r ← pyGetItem its "$ref"
            let seg ← pySplitLast r
            .ok (addEdge (parentId ++ ":" ++ portName) ("schema_" ++ seg)
                  (propName ++ " (array)") st)
          else do
            let ba ← pyIn "anyOf" its
            if ba then do
              let a ← pyGetItem its "anyOf"
              let alts ← pyIter a
              propArrayAnyOfLoop pt propName portName parentId 0 alts st
            else do
              let bt ← pyIn "type" its
              if bt then do
                let tt ← pyGetItem its "type"
                if pyEqStr tt "object" then do
                  let bp ← pyIn "properties" its
                  if bp then do
                    let p ← pyGetItem its "properties"
                    let nestedId := parentId ++ "_" ++ propName ++ "_items"
                    let st ← pt (propName ++ " items")
                      (Json.obj [("type", Json.str "object"), ("properties", p)]) nestedId st
                    .ok (addEdge (parentId ++ ":" ++ portName) nestedId
                          (propName ++ " (array)") st)
                  else .ok st
                else .ok st
              else .ok st
        else .ok st
      else do
        if pyEqStr t "object" then do
          let bp ← pyIn "properties" pd
          if bp then do
            let p ← pyGetItem pd "properties"
            let nestedId := parentId ++ "_" ++ propName
            let st ← pt propName
              (Json.obj [("type", Json.str "object"), ("properties", p)]) nestedId st
            .ok (addEdge (parentId ++ ":" ++ portName) nestedId propName st)
          else .ok st
        else .ok st

/-- The property loop of `_properties_as_html_table` (lines 67-130): for each
property, a table row (with a PORT cell when the property can anchor an edge)
followed by its edges/nested recursion. -/
def propsRows (pt : ProcessFn) (parentId : String) :
    List (String × Json) → GState → Except String (String × GState)
  | [], st => .ok ("", st)
  | (propName, pd) :: rest, st => do
    let ptype ← getPropertyTypeLabel pd
    let portName := "port_" ++ propName
    let cond ← portCond pd
    let row :=
      if cond then
        "<TR><TD>" ++ propName ++ "</TD><TD PORT=\"" ++ portName ++ "\">"
          ++ ptype ++ "</TD></TR>"
      else
        "<TR><TD>" ++ propName ++ "</TD><TD>" ++ ptype ++ "</TD></TR>"
    let st ← propEdges pt propName portName parentId pd st
    let (rows, st) ← propsRows pt parentId rest st
    .ok (row ++ rows, st)

/-- `_properties_as_html_table` (lines 58-133). -/
def propsTable (pt : ProcessFn) (schemaName : String) (properties : Json)
    (parentId : String) (st : GState) : Except String (String × GState) :=
  if ¬ pyTruthy properties then .ok (noPropsTable, st)
  else do
    let pairs ← pyItems properties
    let (rows, st) ← propsRows pt parentId pairs st
    .ok (tableHeader schemaName ++ rows ++ "</TABLE>", st)

/-- The `anyOf` loop of `_process_type` (lines 194-210): collects the type
summaries (raw values, joined later) and emits reference / inline-object
edges. -/
def anyOfLoop (pt : ProcessFn) (schemaName schemaId : String) :
    Nat → List Json → GState → Except String (List Json × GState)
  | _, [], st => .ok ([], st)
  | i, item :: rest, st => do
    let b ← pyIn "$ref" item
    let (tEntry, st) ←
      if b then do
        let r ← pyGetItem item "$ref"
        let seg ← pySplitLast r
        .ok ((Json.str seg,
          addEdge schemaId ("schema_" ++ seg) ("anyOf[" ++ toString i ++ "]") st))
      else do
        let b2 ← pyIn "type" item
        if b2 then do
          let t ← pyGetItem item "type"
          if pyEqStr t "object" then do
            let bp ← pyIn "properties" item
            if bp then do
              let p ← pyGetItem item "properties"
              let nestedId := schemaId ++ "_anyOf_" ++ toString i
              let st ← pt (schemaName ++ " anyOf " ++ toString i)
                (Json.obj [("type", Json.str "object"), ("properties", p)]) nestedId st
              .ok ((t, addEdge schemaId nestedId ("anyOf[" ++ toString i ++ "]") st))
            else .ok ((t, st))
          else .ok ((t, st))
        else .ok ((Json.str "unknown", st))
    let (ts, st) ← anyOfLoop pt schemaName schemaId (i + 1) rest st
    .ok (tEntry :: ts, st)

/-- The array-items `anyOf` loop of `_process_type` (lines 249-265). -/
def itemsAnyOfLoop (pt : ProcessFn) (schemaName schemaId : String) :
    Nat → List Json → GState → Except String (List Json × GState)
  | _, [], st => .ok ([], st)
  | i, item :: rest, st => do
    let b ← pyIn "$ref" item
    let (tEntry, st) ←
      if b then do
        let r ← pyGetItem item "$ref"
        let seg ← pySplitLast r
        .ok ((Json.str seg,
          addEdge schemaId ("schema_" ++ seg) ("items anyOf[" ++ toString i ++ "]") st))
      else do
        let b2 ← pyIn "type" item
        if b2 then do
          let t ← pyGetItem item "type"
          if pyEqStr t "object" then do
            let bp ← pyIn "properties" item
            if bp then do
              let p ← pyGetItem item "properties"
              let nestedId := schemaId ++ "_items_anyOf_" ++ toString i
              let st ← pt (schemaName ++ " items anyOf " ++ toString i)
                (Json.obj [("type", Json.str "object"), ("properties", p)]) nestedId st
              .ok ((t, addEdge schemaId nestedId ("items anyOf[" ++ toString i ++ "]") st))
            else .ok ((t, st))
          else .ok ((t, st))
        else .ok ((Json.str "unknown", st))
    let (ts, st) ← itemsAnyOfLoop pt schemaName schemaId (i + 1) rest st
    .ok (tEntry :: ts, st)

/-- The body of `_process_type` (lines 173-300), with the recursive
`self._process_type` reference abstracted as `pt`.  A direct transcription of
the source. -/
def processTypeGo (pt : ProcessFn) (schemaName : String) (schema : Json)
    (schemaId : String) (st : GState) : Except String GState :=
  if schemaId ∈ st.visited then .ok st
    else do
      let st := markVisited schemaId st
      let b ← pyIn "$ref" schema
      if b then do
        let r ← pyGetItem schema "$ref"
        let seg ← pySplitLast r
        let st := addNode schemaId (nodeLabel schemaName "reference") none st
        .ok (addEdge schemaId ("schema_" ++ seg) "references" st)
      else do
        let b2 ← pyIn "anyOf" schema
        if b2 then do
          let a ← pyGetItem schema "anyOf"
          let alts ← pyIter a
          let (ts, st) ← anyOfLoop pt schemaName schemaId 0 alts st
          let joined ← pyJoin ", " ts
          .ok (addNode schemaId (nodeLabel schemaName ("anyOf: " ++ joined)) none st)
        else do
          let schemaType ← pyGet schema "type" (Json.str "object")
          if pyEqStr schemaType "object" then do
            let properties ← pyGet schema "properties" (Json.obj [])
            let (table, st) ← propsTable pt schemaName properties schemaId st
            let st := addNode schemaId ("<" ++ table ++ ">") none st
            let hasAP ← pyIn "additionalProperties" schema
            if hasAP then do
              let ap ← pyGetItem schema "additionalProperties"
              if ap.isObj then do
                let bref ← pyIn "$ref" ap
                if bref then do
                  let r ← pyGetItem ap "$ref"
                  let seg ← pySplitLast r
                  .ok (addEdge schemaId ("schema_" ++ seg) "additionalProperties" st)
                else do
                  let t ← pyGet ap "type" Json.null
                  if pyEqStr t "object" then do
                    let bp ← pyIn "properties" ap
                    if bp then do
                      let apId := schemaId ++ "_additionalProps"
                      let st ← pt "additionalProperties" ap apId st
                      .ok (addEdge schemaId apId "additionalProperties" st)
                    else .ok st
                  else .ok st
              else .ok st
            else .ok st
          else if pyEqStr schemaType "array" then do
            let hasItems ← pyIn "items" schema
            if hasItems then do
              let items ← pyGetItem schema "items"
              let bref ← pyIn "$ref" items
              if bref then do
                let r ← pyGetItem items "$ref"
                let seg ← pySplitLast r
                let st := addNode schemaId (nodeLabel schemaName ("array of " ++ seg)) none st
                .ok (addEdge schemaId ("schema_" ++ seg) "items" st)
              else do
                let bAny ← pyIn "anyOf" items
                if bAny then do
                  let a ← pyGetItem items "anyOf"
                  let alts ← pyIter a
                  let (ts, st) ← itemsAnyOfLoop pt schemaName schemaId 0 alts st
                  let joined ← pyJoin ", " ts
                  .ok (addNode schemaId
                        (nodeLabel schemaName ("array of anyOf: " ++ joined)) none st)
                else do
                  let bType ← pyIn "type" items
                  if bType then do
                    let itemType ← pyGetItem items "type"
                    let st := addNode schemaId
                      (nodeLabel schemaName ("array of " ++ pyStr itemType)) none st
                    if pyEqStr itemType "object" then do
                      let bp ← pyIn "properties" items
                      if bp then do
                        let p ← pyGetItem items "properties"
                        let itemsId := schemaId ++ "_items"
                        let st ← pt (schemaName ++ " items")
                          (Json.obj [("type", Json.str "object"), ("properties", p)]) itemsId st
                        .ok (addEdge schemaId itemsId "items" st)
                      else .ok st
                    else .ok st
                  else .ok (addNode schemaId (nodeLabel schemaName "array") none st)
            else .ok (addNode schemaId (nodeLabel schemaName "array") none st)
          else do
            let st := addNode schemaId (nodeLabel schemaName (pyStr schemaType)) none st
            let hasEnum ← pyIn "enum" schema
            if hasEnum then do
              let ev ← pyGetItem schema "enum"
              let len ← pyLen ev
              if len ≤ 5 then do
                let sliced ← pySlice5 ev
                let vals ← pyIter sliced
                let enumStr := joinSep ", " (vals.map pyStr)
                let enumStr := if len > 5 then enumStr ++ "..." else enumStr
                .ok (addNode schemaId
                      (nodeLabel schemaName (pyStr schemaType ++ "<BR/>enum: " ++ enumStr))
                      (some (pyStr ev)) st)
              else .ok st
            else .ok st

/-- `_process_type` as called at runtime.  The fuel parameter models Python's
bounded call stack: a call with no fuel left is the `RecursionError` outcome,
and every nested `_process_type` call runs with one unit less. -/
def processType : Nat → String → Json → String → GState → Except String GState
  | 0, _, _, _, _ => .error "RecursionError"
  | Nat.succ n, schemaName, schema, schemaId, st =>
    processTypeGo (processType n) schemaName schema schemaId st

/-- The per-schema loop of `_add_schemas` (lines 52-56). -/
def schemasLoop (fuel : Nat) : List (String × Json) → GState → Except String GState
  | [], st => .ok st
  | (name, schema) :: rest, st => do
    let st ← processType fuel name schema ("schema_" ++ name) st
    schemasLoop fuel rest st

/-- `_add_schemas` (lines 40-56): reads `components.schemas` and processes
each named schema (the `cluster_schemas` grouping is presentation only and has
no effect on the node/edge sequences). -/
def addSchemas (fuel : Nat) (spec : Json) (st : GState) : Except String GState := do
  let components ← pyGet spec "components" (Json.obj [])
  let schemas ← pyGet components "schemas" (Json.obj [])
  if ¬ pyTruthy schemas then .ok st
  else do
    let pairs ← pyItems schemas
    schemasLoop fuel pairs st

/-- `generate_graph` (lines 26-32): `_add_info_node`, `_add_paths` and
`_add_relationships` are `pass`, so a call is exactly `_add_schemas` on the
builder's current state. -/
def generateGraph (fuel : Nat) (spec : Json) (st : GState) : Except String GState :=
  addSchemas fuel spec st

/-! ## Builder-state monotonicity

Every routine only adds to the visited set and appends to the node/edge
sequences.  `GExt s t` states that `t` extends `s` in this sense. -/

def GExt (s t : GState) : Prop :=
  s.visited ⊆ t.visited ∧ s.nodes <+: t.nodes ∧ s.edges <+: t.edges

theorem GExt.rfl {s : GState} : GExt s s :=
  ⟨fun _ h => h, List.prefix_refl _, List.prefix_refl _⟩

theorem GExt.trans {a b c : GState} (h1 : GExt a b) (h2 : GExt b c) : GExt a c :=
  ⟨fun _ h => h2.1 (h1.1 h), h1.2.1.trans h2.2.1, h1.2.2.trans h2.2.2⟩

theorem GExt.addNode {st : GState} (id l : String) (tt : Option String) :
    GExt st (addNode id l tt st) :=
  ⟨fun _ h => h, ⟨[⟨id, l, tt⟩], Eq.refl _⟩, List.prefix_refl _⟩

theorem GExt.addEdge {st : GState} (src tgt l : String) :
    GExt st (addEdge src tgt l st) :=
  ⟨fun _ h => h, List.prefix_refl _, ⟨[⟨src, tgt, l⟩], Eq.refl _⟩⟩

theorem GExt.markVisited {st : GState} (id : String) :
    GExt st (markVisited id st) :=
  ⟨fun _ h => List.mem_cons_of_mem _ h, List.prefix_refl _, List.prefix_refl _⟩

/-- Inversion of a successful `Except` bind. -/
theorem bindOk {α β : Type} {x : Except String α} {f : α → Except String β} {b : β}
    (h : x >>= f = Except.ok b) : ∃ a, x = .ok a ∧ f a = .ok b := by
  cases x with
  | error e => exact absurd h (by simp [Bind.bind, Except.bind])
  | ok a => exact ⟨a, rfl, h⟩

/-- Combines the two facts a non-visited `_process_type` leaf provides: the
result extends the input state, and the target identifier was recorded. -/
theorem visChain {st st' : GState} {id : String} (h : GExt (markVisited id st) st') :
    GExt st st' ∧ id ∈ st'.visited :=
  ⟨GExt.trans (GExt.markVisited _) h, h.1 (List.mem_cons_self _ _)⟩

theorem okBind {α β : Type} (a : α) (f : α → Except String β) :
    (Except.ok a >>= f) = f a := Eq.refl _

theorem propAnyOfLoop_ext {pt : ProcessFn}
    (hpt : ∀ nm s i st st', pt nm s i st = .ok st' → GExt st st')
    (pn po pa : String) :
    ∀ (i : Nat) (alts : List Json) (st st' : GState),
      propAnyOfLoop pt pn po pa i alts st = .ok st' → GExt st st' := by
  intro i alts
  induction alts generalizing i with
  | nil =>
    intro st st' h
    simp only [propAnyOfLoop] at h
    cases h
    exact GExt.rfl
  | cons item rest ih =>
    intro st st' h
    simp only [propAnyOfLoop, okBind] at h
    obtain ⟨b, hb, h⟩ := bindOk h
    split at h
    · obtain ⟨r, hr, h⟩ := bindOk h
      obtain ⟨seg, hseg, h⟩ := bindOk h
      exact GExt.trans (GExt.addEdge _ _ _) (ih _ _ _ h)
    · obtain ⟨b2, hb2, h⟩ := bindOk h
      split at h
      · obtain ⟨t, ht, h⟩ := bindOk h
        split at h
        · obtain ⟨bp, hbp, h⟩ := bindOk h
          split at h
          · obtain ⟨p, hp, h⟩ := bindOk h
            obtain ⟨st1, hst1, h⟩ := bindOk h
            exact GExt.trans (hpt _ _ _ _ _ hst1)
              (GExt.trans (GExt.addEdge _ _ _) (ih _ _ _ h))
          · exact ih _ _ _ h
        · exact ih _ _ _ h
      · exact ih _ _ _ h

theorem propArrayAnyOfLoop_ext {pt : ProcessFn}
    (hpt : ∀ nm s i st st', pt nm s i st = .ok st' → GExt st st')
    (pn po pa : String) :
    ∀ (i : Nat) (alts : List Json) (st st' : GState),
      propArrayAnyOfLoop pt pn po pa i alts st = .ok st' → GExt st st' := by
  intro i alts
  induction alts generalizing i with
  | nil =>
    intro st st' h
    simp only [propArrayAnyOfLoop] at h
    cases h
    exact GExt.rfl
  | cons item rest ih =>
    intro st st' h
    simp only [propArrayAnyOfLoop, okBind] at h
    obtain ⟨b, hb, h⟩ := bindOk h
    split at h
    · obtain ⟨r, hr, h⟩ := bindOk h
      obtain ⟨seg, hseg, h⟩ := bindOk h
      exact GExt.trans (GExt.addEdge _ _ _) (ih _ _ _ h)
    · obtain ⟨b2, hb2, h⟩ := bindOk h
      split at h
      · obtain ⟨t, ht, h⟩ := bindOk h
        split at h
        · obtain ⟨bp, hbp, h⟩ := bindOk h
          split at h
          · obtain ⟨p, hp, h⟩ := bindOk h
            obtain ⟨st1, hst1, h⟩ := bindOk h
            exact GExt.trans (hpt _ _ _ _ _ hst1)
              (GExt.trans (GExt.addEdge _ _ _) (ih _ _ _ h))
          · exact ih _ _ _ h
        · exact ih _ _ _ h
      · exact ih _ _ _ h

theorem propEdges_ext {pt : ProcessFn}
    (hpt : ∀ nm s i st st', pt nm s i st = .ok st' → GExt st st')
    (pn po pa : String) (pd : Json) :
    ∀ (st st' : GState), propEdges pt pn po pa pd st = .ok st' → GExt st st' := by
  intro st st' h
  simp only [propEdges, okBind] at h
  obtain ⟨b1, hb1, h⟩ := bindOk h
  split at h
  · obtain ⟨r, hr, h⟩ := bindOk h
    obtain ⟨seg, hseg, h⟩ := bindOk h
    cases h
    exact GExt.addEdge _ _ _
  · obtain ⟨b2, hb2, h⟩ := bindOk h
    split at h
    · obtain ⟨a, ha, h⟩ := bindOk h
      obtain ⟨alts, halts, h⟩ := bindOk h
      exact propAnyOfLoop_ext hpt _ _ _ _ _ _ _ h
    · obtain ⟨t, ht, h⟩ := bindOk h
      split at h
      · obtain ⟨hi, hhi, h⟩ := bindOk h
        split at h
        · obtain ⟨its, hits, h⟩ := bindOk h
          obtain ⟨br, hbr, h⟩ := bindOk h
          split at h
          · obtain ⟨r, hr, h⟩ := bindOk h
            obtain ⟨seg, hseg, h⟩ := bindOk h
            cases h
            exact GExt.addEdge _ _ _
          · obtain ⟨ba, hba, h⟩ := bindOk h
            split at h
            · obtain ⟨a, ha, h⟩ := bindOk h
              obtain ⟨alts, halts, h⟩ := bindOk h
              exact propArrayAnyOfLoop_ext hpt _ _ _ _ _ _ _ h
            · obtain ⟨bt, hbt, h⟩ := bindOk h
              split at h
              · obtain ⟨tt, htt, h⟩ := bindOk h
                split at h
                · obtain ⟨bp, hbp, h⟩ := bindOk h
                  split at h
                  · obtain ⟨p, hp, h⟩ := bindOk h
                    obtain ⟨st1, hst1, h⟩ := bindOk h
                    cases h
                    exact GExt.trans (hpt _ _ _ _ _ hst1) (GExt.addEdge _ _ _)
                  · cases h
                    exact GExt.rfl
                · cases h
                  exact GExt.rfl
              · cases h
                exact GExt.rfl
        · cases h
          exact GExt.rfl
      · split at h
        · obtain ⟨bp, hbp, h⟩ := bindOk h
          split at h
          · obtain ⟨p, hp, h⟩ := bindOk h
            obtain ⟨st1, hst1, h⟩ := bindOk h
            cases h
            exact GExt.trans (hpt _ _ _ _ _ hst1) (GExt.addEdge _ _ _)
          · cases h
            exact GExt.rfl
        · cases h
          exact GExt.rfl

theorem propsRows_ext {pt : ProcessFn}
    (hpt : ∀ nm s i st st', pt nm s i st = .ok st' → GExt st st')
    (pa : String) :
    ∀ (props : List (String × Json)) (st : GState) (pr : String × GState),
      propsRows pt pa props st = .ok pr → GExt st pr.2 := by
  intro props
  induction props with
  | nil =>
    intro st pr h
    simp only [propsRows] at h
    cases h
    exact GExt.rfl
  | cons kv rest ih =>
    intro st pr h
    obtain ⟨propName, pd⟩ := kv
    simp only [propsRows, okBind] at h
    obtain ⟨ptype, hptype, h⟩ := bindOk h
    obtain ⟨cond, hcond, h⟩ := bindOk h
    obtain ⟨st1, hst1, h⟩ := bindOk h
    obtain ⟨pr2, hpr2, h⟩ := bindOk h
    obtain ⟨rows, st2⟩ := pr2
    cases h
    exact GExt.trans (propEdges_ext hpt _ _ _ _ _ _ hst1) (ih _ ⟨rows, st2⟩ hpr2)

theorem propsTable_ext {pt : ProcessFn}
    (hpt : ∀ nm s i st st', pt nm s i st = .ok st' → GExt st st')
    (nm : String) (properties : Json) (pa : String) :
    ∀ (st : GState) (pr : String × GState),
      propsTable pt nm properties pa st = .ok pr → GExt st pr.2 := by
  intro st pr h
  simp only [propsTable, okBind] at h
  split at h
  · cases h
    exact GExt.rfl
  · obtain ⟨pairs, hpairs, h⟩ := bindOk h
    obtain ⟨pr2, hpr2, h⟩ := bindOk h
    obtain ⟨rows, st2⟩ := pr2
    cases h
    exact propsRows_ext hpt _ _ _ ⟨rows, st2⟩ hpr2

theorem anyOfLoop_ext {pt : ProcessFn}
    (hpt : ∀ nm s i st st', pt nm s i st = .ok st' → GExt st st')
    (nm sid : String) :
    ∀ (i : Nat) (alts : List Json) (st : GState) (pr : List Json × GState),
      anyOfLoop pt nm sid i alts st = .ok pr → GExt st pr.2 := by
  intro i alts
  induction alts generalizing i with
  | nil =>
    intro st pr h
    simp only [anyOfLoop] at h
    cases h
    exact GExt.rfl
  | cons item rest ih =>
    intro st pr h
    simp only [anyOfLoop, okBind] at h
    obtain ⟨b, hb, h⟩ := bindOk h
    split at h
    · obtain ⟨r, hr, h⟩ := bindOk h
      obtain ⟨seg, hseg, h⟩ := bindOk h
      obtain ⟨pr2, hpr2, h⟩ := bindOk h
      obtain ⟨ts, st2⟩ := pr2
      cases h
      exact GExt.trans (GExt.addEdge _ _ _) (ih (i + 1) _ ⟨ts, st2⟩ hpr2)
    · obtain ⟨b2, hb2, h⟩ := bindOk h
      split at h
      · obtain ⟨t, ht, h⟩ := bindOk h
        split at h
        · obtain ⟨bp, hbp, h⟩ := bindOk h
          split at h
          · obtain ⟨p, hp, h⟩ := bindOk h
            obtain ⟨st1, hst1, h⟩ := bindOk h
            obtain ⟨pr2, hpr2, h⟩ := bindOk h
            obtain ⟨ts, st2⟩ := pr2
            cases h
            exact GExt.trans (hpt _ _ _ _ _ hst1)
              (GExt.trans (GExt.addEdge _ _ _) (ih (i + 1) _ ⟨ts, st2⟩ hpr2))
          · obtain ⟨pr2, hpr2, h⟩ := bindOk h
            obtain ⟨ts, st2⟩ := pr2
            cases h
            exact ih (i + 1) _ ⟨ts, st2⟩ hpr2
        · obtain ⟨pr2, hpr2, h⟩ := bindOk h
          obtain ⟨ts, st2⟩ := pr2
          cases h
          exact ih (i + 1) _ ⟨ts, st2⟩ hpr2
      · obtain ⟨pr2, hpr2, h⟩ := bindOk h
        obtain ⟨ts, st2⟩ := pr2
        cases h
        exact ih (i + 1) _ ⟨ts, st2⟩ hpr2

theorem itemsAnyOfLoop_ext {pt : ProcessFn}
    (hpt : ∀ nm s i st st', pt nm s i st = .ok st' → GExt st st')
    (nm sid : String) :
    ∀ (i : Nat) (alts : List Json) (st : GState) (pr : List Json × GState),
      itemsAnyOfLoop pt nm sid i alts st = .ok pr → GExt st pr.2 := by
  intro i alts
  induction alts generalizing i with
  | nil =>
    intro st pr h
    simp only [itemsAnyOfLoop] at h
    cases h
    exact GExt.rfl
  | cons item rest ih =>
    intro st pr h
    simp only [itemsAnyOfLoop, okBind] at h
    obtain ⟨b, hb, h⟩ := bindOk h
    split at h
    · obtain ⟨r, hr, h⟩ := bindOk h
      obtain ⟨seg, hseg, h⟩ := bindOk h
      obtain ⟨pr2, hpr2, h⟩ := bindOk h
      obtain ⟨ts, st2⟩ := pr2
      cases h
      exact GExt.trans (GExt.addEdge _ _ _) (ih (i + 1) _ ⟨ts, st2⟩ hpr2)
    · obtain ⟨b2, hb2, h⟩ := bindOk h
      split at h
      · obtain ⟨t, ht, h⟩ := bindOk h
        split at h
        · obtain ⟨bp, hbp, h⟩ := bindOk h
          split at h
          · obtain ⟨p, hp, h⟩ := bindOk h
            obtain ⟨st1, hst1, h⟩ := bindOk h
            obtain ⟨pr2, hpr2, h⟩ := bindOk h
            obtain ⟨ts, st2⟩ := pr2
            cases h
            exact GExt.trans (hpt _ _ _ _ _ hst1)
              (GExt.trans (GExt.addEdge _ _ _) (ih (i + 1) _ ⟨ts, st2⟩ hpr2))
          · obtain ⟨pr2, hpr2, h⟩ := bindOk h
            obtain ⟨ts, st2⟩ := pr2
            cases h
            exact ih (i + 1) _ ⟨ts, st2⟩ hpr2
        · obtain ⟨pr2, hpr2, h⟩ := bindOk h
          obtain ⟨ts, st2⟩ := pr2
          cases h
          exact ih (i + 1) _ ⟨ts, st2⟩ hpr2
      · obtain ⟨pr2, hpr2, h⟩ := bindOk h
        obtain ⟨ts, st2⟩ := pr2
        cases h
        exact ih (i + 1) _ ⟨ts, st2⟩ hpr2

theorem boolIfFalse {α : Sort u} {b : Bool} (h : b = false) (x y : α) :
    (if b = true then x else y) = y := by
  rw [h]
  exact if_neg Bool.false_ne_true

theorem processType_ext :
    ∀ (fuel : Nat) (nm : String) (s : Json) (id : String) (st st' : GState),
      processType fuel nm s id st = .ok st' → GExt st st' ∧ id ∈ st'.visited := by
  intro fuel
  induction fuel with
  | zero =>
    intro nm s id st st' h
    exact absurd h (by simp [processType])
  | succ n ih =>
    have hpt : ∀ nm s i st st', processType n nm s i st = .ok st' → GExt st st' :=
      fun nm s i st st' h => (ih nm s i st st' h).1
    intro nm s id st st' h
    simp only [processType] at h
    delta processTypeGo at h
    by_cases hmem : id ∈ st.visited
    · rw [if_pos hmem] at h
      cases h
      exact ⟨GExt.rfl, hmem⟩
    · rw [if_neg hmem] at h
      obtain ⟨b, hb, h⟩ := bindOk h
      cases b with
      | true =>
        rw [if_pos rfl] at h
        obtain ⟨r, hr, h⟩ := bindOk h
        obtain ⟨seg, hseg, h⟩ := bindOk h
        cases h
        exact visChain (GExt.trans (GExt.addNode _ _ _) (GExt.addEdge _ _ _))
      | false =>
        rw [boolIfFalse rfl] at h
        obtain ⟨b2, hb2, h⟩ := bindOk h
        cases b2 with
        | true =>
          rw [if_pos rfl] at h
          obtain ⟨a, ha, h⟩ := bindOk h
          obtain ⟨alts, halts, h⟩ := bindOk h
          obtain ⟨pr, hpr, h⟩ := bindOk h
          obtain ⟨ts, st2⟩ := pr
          obtain ⟨joined, hj, h⟩ := bindOk h
          cases h
          exact visChain (GExt.trans (anyOfLoop_ext hpt _ _ _ _ _ ⟨ts, st2⟩ hpr)
            (GExt.addNode _ _ _))
        | false =>
          rw [boolIfFalse rfl] at h
          obtain ⟨schemaType, hst0, h⟩ := bindOk h
          cases hq : pyEqStr schemaType "object" with
          | true =>
            rw [hq, if_pos rfl] at h
            obtain ⟨properties, hprops, h⟩ := bindOk h
            obtain ⟨pr, hpr, h⟩ := bindOk h
            obtain ⟨table, st2⟩ := pr
            obtain ⟨hasAP, hAP, h⟩ := bindOk h
            have htab : GExt (markVisited id st) (addNode id ("<" ++ table ++ ">") none st2) :=
              GExt.trans (propsTable_ext hpt _ _ _ _ ⟨table, st2⟩ hpr) (GExt.addNode _ _ _)
            cases hasAP with
            | true =>
              rw [if_pos rfl] at h
              obtain ⟨ap, hap, h⟩ := bindOk h
              cases hobj : ap.isObj with
              | true =>
                rw [hobj, if_pos rfl] at h
                obtain ⟨bref, hbref, h⟩ := bindOk h
                cases bref with
                | true =>
                  rw [if_pos rfl] at h
                  obtain ⟨r, hr, h⟩ := bindOk h
                  obtain ⟨seg, hseg, h⟩ := bindOk h
                  cases h
                  exact visChain (GExt.trans htab (GExt.addEdge _ _ _))
                | false =>
                  rw [boolIfFalse rfl] at h
                  obtain ⟨t, ht, h⟩ := bindOk h
                  cases hq2 : pyEqStr t "object" with
                  | true =>
                    rw [hq2, if_pos rfl] at h
                    obtain ⟨bp, hbp, h⟩ := bindOk h
                    cases bp with
                    | true =>
                      rw [if_pos rfl] at h
                      obtain ⟨st3, hst3, h⟩ := bindOk h
                      cases h
                      exact visChain (GExt.trans htab
                        (GExt.trans (hpt _ _ _ _ _ hst3) (GExt.addEdge _ _ _)))
                    | false =>
                      rw [boolIfFalse rfl] at h
                      cases h
                      exact visChain htab
                  | false =>
                    rw [hq2, boolIfFalse rfl] at h
                    cases h
                    exact visChain htab
              | false =>
                rw [hobj, boolIfFalse rfl] at h
                cases h
                exact visChain htab
            | false =>
              rw [boolIfFalse rfl] at h
              cases h
              exact visChain htab
          | false =>
            rw [hq, boolIfFalse rfl] at h
            cases hq2 : pyEqStr schemaType "array" with
            | true =>
              rw [hq2, if_pos rfl] at h
              obtain ⟨hasItems, hhi, h⟩ := bindOk h
              cases hasItems with
              | true =>
                rw [if_pos rfl] at h
                obtain ⟨items, hitems, h⟩ := bindOk h
                obtain ⟨bref, hbref, h⟩ := bindOk h
                cases bref with
                | true =>
                  rw [if_pos rfl] at h
                  obtain ⟨r, hr, h⟩ := bindOk h
                  obtain ⟨seg, hseg, h⟩ := bindOk h
                  cases h
                  exact visChain (GExt.trans (GExt.addNode _ _ _) (GExt.addEdge _ _ _))
                | false =>
                  rw [boolIfFalse rfl] at h
                  obtain ⟨bAny, hbAny, h⟩ := bindOk h
                  cases bAny with
                  | true =>
                    rw [if_pos rfl] at h
                    obtain ⟨a, ha, h⟩ := bindOk h
                    obtain ⟨alts, halts, h⟩ := bindOk h
                    obtain ⟨pr, hpr, h⟩ := bindOk h
                    obtain ⟨ts, st2⟩ := pr
                    obtain ⟨joined, hj, h⟩ := bindOk h
                    cases h
                    exact visChain (GExt.trans (itemsAnyOfLoop_ext hpt _ _ _ _ _ ⟨ts, st2⟩ hpr)
                      (GExt.addNode _ _ _))
                  | false =>
                    rw [boolIfFalse rfl] at h
                    obtain ⟨bType, hbType, h⟩ := bindOk h
                    cases bType with
                    | true =>
                      rw [if_pos rfl] at h
                      obtain ⟨itemType, hit, h⟩ := bindOk h
                      cases hq3 : pyEqStr itemType "object" with
                      | true =>
                        rw [hq3, if_pos rfl] at h
                        obtain ⟨bp, hbp, h⟩ := bindOk h
                        cases bp with
                        | true =>
                          rw [if_pos rfl] at h
                          obtain ⟨p, hp, h⟩ := bindOk h
                          obtain ⟨st3, hst3, h⟩ := bindOk h
                          cases h
                          exact visChain (GExt.trans (GExt.addNode _ _ _)
                            (GExt.trans (hpt _ _ _ _ _ hst3) (GExt.addEdge _ _ _)))
                        | false =>
                          rw [boolIfFalse rfl] at h
                          cases h
                          exact visChain (GExt.addNode _ _ _)
                      | false =>
                        rw [hq3, boolIfFalse rfl] at h
                        cases h
                        exact visChain (GExt.addNode _ _ _)
                    | false =>
                      rw [boolIfFalse rfl] at h
                      cases h
                      exact visChain (GExt.addNode _ _ _)
              | false =>
                rw [boolIfFalse rfl] at h
                cases h
                exact visChain (GExt.addNode _ _ _)
            | false =>
              rw [hq2, boolIfFalse rfl] at h
              obtain ⟨hasEnum, hhe, h⟩ := bindOk h
              cases hasEnum with
              | true =>
                rw [if_pos rfl] at h
                obtain ⟨ev, hev, h⟩ := bindOk h
                obtain ⟨len, hlen, h⟩ := bindOk h
                by_cases hle : len ≤ 5
                · rw [if_pos hle] at h
                  obtain ⟨sliced, hsl, h⟩ := bindOk h
                  obtain ⟨vals, hvals, h⟩ := bindOk h
                  cases h
                  exact visChain (GExt.trans (GExt.addNode _ _ _) (GExt.addNode _ _ _))
                · rw [if_neg hle] at h
                  cases h
                  exact visChain (GExt.addNode _ _ _)
              | false =>
                rw [boolIfFalse rfl] at h
                cases h
                exact visChain (GExt.addNode _ _ _)

theorem schemasLoop_ext (fuel : Nat) :
    ∀ (pairs : List (String × Json)) (st st' : GState),
      schemasLoop fuel pairs st = .ok st' → GExt st st' := by
  intro pairs
  induction pairs with
  | nil =>
    intro st st' h
    simp only [schemasLoop] at h
    cases h
    exact GExt.rfl
  | cons kv rest ih =>
    intro st st' h
    obtain ⟨nm, s⟩ := kv
    simp only [schemasLoop] at h
    obtain ⟨st1, hst1, h⟩ := bindOk h
    exact GExt.trans (processType_ext fuel _ _ _ _ _ hst1).1 (ih _ _ h)

theorem addSchemas_ext (fuel : Nat) (spec : Json) :
    ∀ (st st' : GState), addSchemas fuel spec st = .ok st' → GExt st st' := by
  intro st st' h
  simp only [addSchemas, okBind] at h
  obtain ⟨components, hc, h⟩ := bindOk h
  obtain ⟨schemas, hs, h⟩ := bindOk h
  split at h
  · cases h
    exact GExt.rfl
  · obtain ⟨pairs, hpairs, h⟩ := bindOk h
    exact schemasLoop_ext fuel _ _ _ h

/-- With any fuel left, `_process_type` on an already-visited identifier
returns immediately with the state untouched (lines 176-177). -/
theorem processType_visited {fuel : Nat} (hf : 1 ≤ fuel) (nm : String) (s : Json)
    {id : String} {st : GState} (hmem : id ∈ st.visited) :
    processType fuel nm s id st = .ok st := by
  cases fuel with
  | zero => exact absurd hf (by simp)
  | succ n =>
    simp only [processType]
    delta processTypeGo
    rw [if_pos hmem]

/-! ## Determinism frame lemmas

The emitted node/edge output of every routine is independent of the graph
content already accumulated in the builder: running any routine on a state
whose node/edge lists carry an arbitrary prefix produces exactly the result
of the run without that prefix, with the prefix re-attached in front.
shiftSt is that prefix attachment. -/

def shiftSt (ns : List GNode) (es : List GEdge) (st : GState) : GState :=
  ⟨st.visited, ns ++ st.nodes, es ++ st.edges⟩

def shiftPr {α : Type} (ns : List GNode) (es : List GEdge) (p : α × GState) :
    α × GState :=
  (p.1, shiftSt ns es p.2)

theorem shiftPr_mk {α : Type} (ns : List GNode) (es : List GEdge) (a : α)
    (st : GState) : shiftPr ns es (a, st) = (a, shiftSt ns es st) := rfl

theorem shift_visited (ns : List GNode) (es : List GEdge) (st : GState) :
    (shiftSt ns es st).visited = st.visited := rfl

theorem shift_markVisited (i : String) (ns : List GNode) (es : List GEdge)
    (st : GState) :
    markVisited i (shiftSt ns es st) = shiftSt ns es (markVisited i st) := rfl

theorem shift_addNode (i l : String) (tt : Option String) (ns : List GNode)
    (es : List GEdge) (st : GState) :
    addNode i l tt (shiftSt ns es st) = shiftSt ns es (addNode i l tt st) := by
  simp [addNode, shiftSt]

theorem shift_addEdge (a b l : String) (ns : List GNode) (es : List GEdge)
    (st : GState) :
    addEdge a b l (shiftSt ns es st) = shiftSt ns es (addEdge a b l st) := by
  simp [addEdge, shiftSt]

theorem exMap_ok {α β : Type} (f : α → β) (a : α) :
    Except.map f (Except.ok a : Except String α) = .ok (f a) := rfl

theorem exMap_err {α β : Type} (f : α → β) (e : String) :
    Except.map f (Except.error e : Except String α) = .error e := rfl

theorem propAnyOfLoop_frame {pt : ProcessFn}
    (hpt : ∀ (nm : String) (s : Json) (i : String) (ns : List GNode)
      (es : List GEdge) (st : GState),
      pt nm s i (shiftSt ns es st) = Except.map (shiftSt ns es) (pt nm s i st))
    (pn po pa : String) :
    ∀ (i : Nat) (alts : List Json) (ns : List GNode) (es : List GEdge)
      (st : GState),
      propAnyOfLoop pt pn po pa i alts (shiftSt ns es st)
        = Except.map (shiftSt ns es) (propAnyOfLoop pt pn po pa i alts st) := by
  intro i alts
  induction alts generalizing i with
  | nil =>
    intro ns es st
    simp only [propAnyOfLoop]
    rfl
  | cons item rest ih =>
    intro ns es st
    simp only [propAnyOfLoop]
    cases hb : pyIn "$ref" item with
    | error e => rfl
    | ok b =>
      simp only [okBind]
      cases b with
      | true =>
        rw [if_pos rfl, if_pos rfl]
        cases hr : pyGetItem item "$ref" with
        | error e => rfl
        | ok r =>
          simp only [okBind]
          cases hseg : pySplitLast r with
          | error e => rfl
          | ok seg =>
            simp only [okBind, shift_addEdge]
            exact ih (i + 1) ns es _
      | false =>
        rw [boolIfFalse rfl, boolIfFalse rfl]
        cases hb2 : pyIn "type" item with
        | error e => rfl
        | ok b2 =>
          simp only [okBind]
          cases b2 with
          | true =>
            rw [if_pos rfl, if_pos rfl]
            cases ht : pyGetItem item "type" with
            | error e => rfl
            | ok t =>
              simp only [okBind]
              cases hq : pyEqStr t "object" with
              | true =>
                rw [if_pos rfl, if_pos rfl]
                cases hbp : pyIn "properties" item with
                | error e => rfl
                | ok bp =>
                  simp only [okBind]
                  cases bp with
                  | true =>
                    rw [if_pos rfl, if_pos rfl]
                    cases hp : pyGetItem item "properties" with
                    | error e => rfl
                    | ok p =>
                      simp only [okBind]
                      rw [hpt]
                      cases hst1 : pt (pn ++ " anyOf " ++ toString i)
                          (Json.obj [("type", Json.str "object"), ("properties", p)])
                          (pa ++ "_" ++ pn ++ "_anyOf_" ++ toString i) st with
                      | error e => rfl
                      | ok st1 =>
                        simp only [exMap_ok, okBind, shift_addEdge]
                        exact ih (i + 1) ns es _
                  | false =>
                    rw [boolIfFalse rfl, boolIfFalse rfl]
                    exact ih (i + 1) ns es st
              | false =>
                rw [boolIfFalse rfl, boolIfFalse rfl]
                exact ih (i + 1) ns es st
          | false =>
            rw [boolIfFalse rfl, boolIfFalse rfl]
            exact ih (i + 1) ns es st

theorem propArrayAnyOfLoop_frame {pt : ProcessFn}
    (hpt : ∀ (nm : String) (s : Json) (i : String) (ns : List GNode)
      (es : List GEdge) (st : GState),
      pt nm s i (shiftSt ns es st) = Except.map (shiftSt ns es) (pt nm s i st))
    (pn po pa : String) :
    ∀ (i : Nat) (alts : List Json) (ns : List GNode) (es : List GEdge)
      (st : GState),
      propArrayAnyOfLoop pt pn po pa i alts (shiftSt ns es st)
        = Except.map (shiftSt ns es) (propArrayAnyOfLoop pt pn po pa i alts st) := by
  intro i alts
  induction alts generalizing i with
  | nil =>
    intro ns es st
    simp only [propArrayAnyOfLoop]
    rfl
  | cons item rest ih =>
    intro ns es st
    simp only [propArrayAnyOfLoop]
    cases hb : pyIn "$ref" item with
    | error e => rfl
    | ok b =>
      simp only [okBind]
      cases b with
      | true =>
        rw [if_pos rfl, if_pos rfl]
        cases hr : pyGetItem item "$ref" with
        | error e => rfl
        | ok r =>
          simp only [okBind]
          cases hseg : pySplitLast r with
          | error e => rfl
          | ok seg =>
            simp only [okBind, shift_addEdge]
            exact ih (i + 1) ns es _
      | false =>
        rw [boolIfFalse rfl, boolIfFalse rfl]
        cases hb2 : pyIn "type" item with
        | error e => rfl
        | ok b2 =>
          simp only [okBind]
          cases b2 with
          | true =>
            rw [if_pos rfl, if_pos rfl]
            cases ht : pyGetItem item "type" with
            | error e => rfl
            | ok t =>
              simp only [okBind]
              cases hq : pyEqStr t "object" with
              | true =>
                rw [if_pos rfl, if_pos rfl]
                cases hbp : pyIn "properties" item with
                | error e => rfl
                | ok bp =>
                  simp only [okBind]
                  cases bp with
                  | true =>
                    rw [if_pos rfl, if_pos rfl]
                    cases hp : pyGetItem item "properties" with
                    | error e => rfl
                    | ok p =>
                      simp only [okBind]
                      rw [hpt]
                      cases hst1 : pt (pn ++ " array anyOf " ++ toString i)
                          (Json.obj [("type", Json.str "object"), ("properties", p)])
                          (pa ++ "_" ++ pn ++ "_array_anyOf_" ++ toString i) st with
                      | error e => rfl
                      | ok st1 =>
                        simp only [exMap_ok, okBind, shift_addEdge]
                        exact ih (i + 1) ns es _
                  | false =>
                    rw [boolIfFalse rfl, boolIfFalse rfl]
                    exact ih (i + 1) ns es st
              | false =>
                rw [boolIfFalse rfl, boolIfFalse rfl]
                exact ih (i + 1) ns es st
          | false =>
            rw [boolIfFalse rfl, boolIfFalse rfl]
            exact ih (i + 1) ns es st

theorem propEdges_frame {pt : ProcessFn}
    (hpt : ∀ (nm : String) (s : Json) (i : String) (ns : List GNode)
      (es : List GEdge) (st : GState),
      pt nm s i (shiftSt ns es st) = Except.map (shiftSt ns es) (pt nm s i st))
    (pn po pa : String) (pd : Json) :
    ∀ (ns : List GNode) (es : List GEdge) (st : GState),
      propEdges pt pn po pa pd (shiftSt ns es st)
        = Except.map (shiftSt ns es) (propEdges pt pn po pa pd st) := by
  intro ns es st
  simp only [propEdges]
  cases hb1 : pyIn "$ref" pd with
  | error e => rfl
  | ok b1 =>
    simp only [okBind]
    cases b1 with
    | true =>
      rw [if_pos rfl, if_pos rfl]
      cases hr : pyGetItem pd "$ref" with
      | error e => rfl
      | ok r =>
        simp only [okBind]
        cases hseg : pySplitLast r with
        | error e => rfl
        | ok seg => simp only [okBind, shift_addEdge]; rfl
    | false =>
      rw [boolIfFalse rfl, boolIfFalse rfl]
      cases hb2 : pyIn "anyOf" pd with
      | error e => rfl
      | ok b2 =>
        simp only [okBind]
        cases b2 with
        | true =>
          rw [if_pos rfl, if_pos rfl]
          cases ha : pyGetItem pd "anyOf" with
          | error e => rfl
          | ok a =>
            simp only [okBind]
            cases halts : pyIter a with
            | error e => rfl
            | ok alts =>
              simp only [okBind]
              exact propAnyOfLoop_frame hpt pn po pa 0 alts ns es st
        | false =>
          rw [boolIfFalse rfl, boolIfFalse rfl]
          cases ht : pyGet pd "type" Json.null with
          | error e => rfl
          | ok t =>
            simp only [okBind]
            cases hq : pyEqStr t "array" with
            | true =>
              rw [if_pos rfl, if_pos rfl]
              cases hhi : pyIn "items" pd with
              | error e => rfl
              | ok hi =>
                simp only [okBind]
                cases hi with
                | true =>
                  rw [if_pos rfl, if_pos rfl]
                  cases hits : pyGetItem pd "items" with
                  | error e => rfl
                  | ok its =>
                    simp only [okBind]
                    cases hbr : pyIn "$ref" its with
                    | error e => rfl
                    | ok br =>
                      simp only [okBind]
                      cases br with
                      | true =>
                        rw [if_pos rfl, if_pos rfl]
                        cases hr : pyGetItem its "$ref" with
                        | error e => rfl
                        | ok r =>
                          simp only [okBind]
                          cases hseg : pySplitLast r with
                          | error e => rfl
                          | ok seg => simp only [okBind, shift_addEdge]; rfl
                      | false =>
                        rw [boolIfFalse rfl, boolIfFalse rfl]
                        cases hba : pyIn "anyOf" its with
                        | error e => rfl
                        | ok ba =>
                          simp only [okBind]
                          cases ba with
                          | true =>
                            rw [if_pos rfl, if_pos rfl]
                            cases ha : pyGetItem its "anyOf" with
                            | error e => rfl
                            | ok a =>
                              simp only [okBind]
                              cases halts : pyIter a with
                              | error e => rfl
                              | ok alts =>
                                simp only [okBind]
                                exact propArrayAnyOfLoop_frame hpt pn po pa 0 alts ns es st
                          | false =>
                            rw [boolIfFalse rfl, boolIfFalse rfl]
                            cases hbt : pyIn "type" its with
                            | error e => rfl
                            | ok bt =>
                              simp only [okBind]
                              cases bt with
                              | true =>
                                rw [if_pos rfl, if_pos rfl]
                                cases htt : pyGetItem its "type" with
                                | error e => rfl
                                | ok tt =>
                                  simp only [okBind]
                                  cases hq2 : pyEqStr tt "object" with
                                  | true =>
                                    rw [if_pos rfl, if_pos rfl]
                                    cases hbp : pyIn "properties" its with
                                    | error e => rfl
                                    | ok bp =>
                                      simp only [okBind]
                                      cases bp with
                                      | true =>
                                        rw [if_pos rfl, if_pos rfl]
                                        cases hp : pyGetItem its "properties" with
                                        | error e => rfl
                                        | ok p =>
                                          simp only [okBind]
                                          rw [hpt]
                                          cases hst1 : pt (pn ++ " items")
                                              (Json.obj [("type", Json.str "object"),
                                                ("properties", p)])
                                              (pa ++ "_" ++ pn ++ "_items") st with
                                          | error e => rfl
                                          | ok st1 =>
                                            simp only [exMap_ok, okBind, shift_addEdge]
                                      | false =>
                                        rw [boolIfFalse rfl, boolIfFalse rfl]
                                        rfl
                                  | false =>
                                    rw [boolIfFalse rfl, boolIfFalse rfl]
                                    rfl
                              | false =>
                                rw [boolIfFalse rfl, boolIfFalse rfl]
                                rfl
                | false =>
                  rw [boolIfFalse rfl, boolIfFalse rfl]
                  rfl
            | false =>
              rw [boolIfFalse rfl, boolIfFalse rfl]
              cases hq3 : pyEqStr t "object" with
              | true =>
                rw [if_pos rfl, if_pos rfl]
                cases hbp : pyIn "properties" pd with
                | error e => rfl
                | ok bp =>
                  simp only [okBind]
                  cases bp with
                  | true =>
                    rw [if_pos rfl, if_pos rfl]
                    cases hp : pyGetItem pd "properties" with
                    | error e => rfl
                    | ok p =>
                      simp only [okBind]
                      rw [hpt]
                      cases hst1 : pt pn
                          (Json.obj [("type", Json.str "object"), ("properties", p)])
                          (pa ++ "_" ++ pn) st with
                      | error e => rfl
                      | ok st1 =>
                        simp only [exMap_ok, okBind, shift_addEdge]
                  | false =>
                    rw [boolIfFalse rfl, boolIfFalse rfl]
                    rfl
              | false =>
                rw [boolIfFalse rfl, boolIfFalse rfl]
                rfl

theorem propsRows_frame {pt : ProcessFn}
    (hpt : ∀ (nm : String) (s : Json) (i : String) (ns : List GNode)
      (es : List GEdge) (st : GState),
      pt nm s i (shiftSt ns es st) = Except.map (shiftSt ns es) (pt nm s i st))
    (pa : String) :
    ∀ (props : List (String × Json)) (ns : List GNode) (es : List GEdge)
      (st : GState),
      propsRows pt pa props (shiftSt ns es st)
        = Except.map (shiftPr ns es) (propsRows pt pa props st) := by
  intro props
  induction props with
  | nil =>
    intro ns es st
    simp only [propsRows]
    rfl
  | cons kv rest ih =>
    intro ns es st
    obtain ⟨propName, pd⟩ := kv
    simp only [propsRows]
    cases hptype : getPropertyTypeLabel pd with
    | error e => rfl
    | ok ptype =>
      simp only [okBind]
      cases hcond : portCond pd with
      | error e => rfl
      | ok cond =>
        simp only [okBind]
        rw [propEdges_frame hpt]
        cases hst1 : propEdges pt propName ("port_" ++ propName) pa pd st with
        | error e => rfl
        | ok st1 =>
          simp only [exMap_ok, okBind]
          rw [ih ns es st1]
          cases hpr : propsRows pt pa rest st1 with
          | error e => rfl
          | ok pr =>
            obtain ⟨rows, st2⟩ := pr
            rfl

theorem propsTable_frame {pt : ProcessFn}
    (hpt : ∀ (nm : String) (s : Json) (i : String) (ns : List GNode)
      (es : List GEdge) (st : GState),
      pt nm s i (shiftSt ns es st) = Except.map (shiftSt ns es) (pt nm s i st))
    (nm : String) (properties : Json) (pa : String) :
    ∀ (ns : List GNode) (es : List GEdge) (st : GState),
      propsTable pt nm properties pa (shiftSt ns es st)
        = Except.map (shiftPr ns es) (propsTable pt nm properties pa st) := by
  intro ns es st
  simp only [propsTable]
  by_cases hc : ¬ pyTruthy properties = true
  · rw [if_pos hc, if_pos hc]
    rfl
  · rw [if_neg hc, if_neg hc]
    cases hpairs : pyItems properties with
    | error e => rfl
    | ok pairs =>
      simp only [okBind]
      rw [propsRows_frame hpt]
      cases hpr : propsRows pt pa pairs st with
      | error e => rfl
      | ok pr =>
        obtain ⟨rows, st2⟩ := pr
        rfl

theorem anyOfLoop_frame {pt : ProcessFn}
    (hpt : ∀ (nm : String) (s : Json) (i : String) (ns : List GNode)
      (es : List GEdge) (st : GState),
      pt nm s i (shiftSt ns es st) = Except.map (shiftSt ns es) (pt nm s i st))
    (nm sid : String) :
    ∀ (i : Nat) (alts : List Json) (ns : List GNode) (es : List GEdge)
      (st : GState),
      anyOfLoop pt nm sid i alts (shiftSt ns es st)
        = Except.map (shiftPr ns es) (anyOfLoop pt nm sid i alts st) := by
  intro i alts
  induction alts generalizing i with
  | nil =>
    intro ns es st
    simp only [anyOfLoop]
    rfl
  | cons item rest ih =>
    intro ns es st
    simp only [anyOfLoop]
    cases hb : pyIn "$ref" item with
    | error e => rfl
    | ok b =>
      simp only [okBind]
      cases b with
      | true =>
        rw [if_pos rfl, if_pos rfl]
        cases hr : pyGetItem item "$ref" with
        | error e => rfl
        | ok r =>
          simp only [okBind]
          cases hseg : pySplitLast r with
          | error e => rfl
          | ok seg =>
            simp only [okBind, shift_addEdge]
            rw [ih (i + 1) ns es _]
            cases hrec : anyOfLoop pt nm sid (i + 1) rest
                (addEdge sid ("schema_" ++ seg) ("anyOf[" ++ toString i ++ "]") st) with
            | error e => rfl
            | ok pr =>
              obtain ⟨ts, st2⟩ := pr
              rfl
      | false =>
        rw [boolIfFalse rfl, boolIfFalse rfl]
        cases hb2 : pyIn "type" item with
        | error e => rfl
        | ok b2 =>
          simp only [okBind]
          cases b2 with
          | true =>
            rw [if_pos rfl, if_pos rfl]
            cases ht : pyGetItem item "type" with
            | error e => rfl
            | ok t =>
              simp only [okBind]
              cases hq : pyEqStr t "object" with
              | true =>
                rw [if_pos rfl, if_pos rfl]
                cases hbp : pyIn "properties" item with
                | error e => rfl
                | ok bp =>
                  simp only [okBind]
                  cases bp with
                  | true =>
                    rw [if_pos rfl, if_pos rfl]
                    cases hp : pyGetItem item "properties" with
                    | error e => rfl
                    | ok p =>
                      simp only [okBind]
                      rw [hpt]
                      cases hst1 : pt (nm ++ " anyOf " ++ toString i)
                          (Json.obj [("type", Json.str "object"), ("properties", p)])
                          (sid ++ "_anyOf_" ++ toString i) st with
                      | error e => rfl
                      | ok st1 =>
                        simp only [exMap_ok, okBind, shift_addEdge]
                        rw [ih (i + 1) ns es _]
                        cases hrec : anyOfLoop pt nm sid (i + 1) rest
                            (addEdge sid (sid ++ "_anyOf_" ++ toString i)
                              ("anyOf[" ++ toString i ++ "]") st1) with
                        | error e => rfl
                        | ok pr =>
                          obtain ⟨ts, st2⟩ := pr
                          rfl
                  | false =>
                    rw [boolIfFalse rfl, boolIfFalse rfl]
                    rw [ih (i + 1) ns es st]
                    cases hrec : anyOfLoop pt nm sid (i + 1) rest st with
                    | error e => rfl
                    | ok pr =>
                      obtain ⟨ts, st2⟩ := pr
                      rfl
              | false =>
                rw [boolIfFalse rfl, boolIfFalse rfl]
                rw [ih (i + 1) ns es st]
                cases hrec : anyOfLoop pt nm sid (i + 1) rest st with
                | error e => rfl
                | ok pr =>
                  obtain ⟨ts, st2⟩ := pr
                  rfl
          | false =>
            rw [boolIfFalse rfl, boolIfFalse rfl]
            rw [ih (i + 1) ns es st]
            cases hrec : anyOfLoop pt nm sid (i + 1) rest st with
            | error e => rfl
            | ok pr =>
              obtain ⟨ts, st2⟩ := pr
              rfl

theorem itemsAnyOfLoop_frame {pt : ProcessFn}
    (hpt : ∀ (nm : String) (s : Json) (i : String) (ns : List GNode)
      (es : List GEdge) (st : GState),
      pt nm s i (shiftSt ns es st) = Except.map (shiftSt ns es) (pt nm s i st))
    (nm sid : String) :
    ∀ (i : Nat) (alts : List Json) (ns : List GNode) (es : List GEdge)
      (st : GState),
      itemsAnyOfLoop pt nm sid i alts (shiftSt ns es st)
        = Except.map (shiftPr ns es) (itemsAnyOfLoop pt nm sid i alts st) := by
  intro i alts
  induction alts generalizing i with
  | nil =>
    intro ns es st
    simp only [itemsAnyOfLoop]
    rfl
  | cons item rest ih =>
    intro ns es st
    simp only [itemsAnyOfLoop]
    cases hb : pyIn "$ref" item with
    | error e => rfl
    | ok b =>
      simp only [okBind]
      cases b with
      | true =>
        rw [if_pos rfl, if_pos rfl]
        cases hr : pyGetItem item "$ref" with
        | error e => rfl
        | ok r =>
          simp only [okBind]
          cases hseg : pySplitLast r with
          | error e => rfl
          | ok seg =>
            simp only [okBind, shift_addEdge]
            rw [ih (i + 1) ns es _]
            cases hrec : itemsAnyOfLoop pt nm sid (i + 1) rest
                (addEdge sid ("schema_" ++ seg)
                  ("items anyOf[" ++ toString i ++ "]") st) with
            | error e => rfl
            | ok pr =>
              obtain ⟨ts, st2⟩ := pr
              rfl
      | false =>
        rw [boolIfFalse rfl, boolIfFalse rfl]
        cases hb2 : pyIn "type" item with
        | error e => rfl
        | ok b2 =>
          simp only [okBind]
          cases b2 with
          | true =>
            rw [if_pos rfl, if_pos rfl]
            cases ht : pyGetItem item "type" with
            | error e => rfl
            | ok t =>
              simp only [okBind]
              cases hq : pyEqStr t "object" with
              | true =>
                rw [if_pos rfl, if_pos rfl]
                cases hbp : pyIn "properties" item with
                | error e => rfl
                | ok bp =>
                  simp only [okBind]
                  cases bp with
                  | true =>
                    rw [if_pos rfl, if_pos rfl]
                    cases hp : pyGetItem item "properties" with
                    | error e => rfl
                    | ok p =>
                      simp only [okBind]
                      rw [hpt]
                      cases hst1 : pt (nm ++ " items anyOf " ++ toString i)
                          (Json.obj [("type", Json.str "object"), ("properties", p)])
                          (sid ++ "_items_anyOf_" ++ toString i) st with
                      | error e => rfl
                      | ok st1 =>
                        simp only [exMap_ok, okBind, shift_addEdge]
                        rw [ih (i + 1) ns es _]
                        cases hrec : itemsAnyOfLoop pt nm sid (i + 1) rest
                            (addEdge sid (sid ++ "_items_anyOf_" ++ toString i)
                              ("items anyOf[" ++ toString i ++ "]") st1) with
                        | error e => rfl
                        | ok pr =>
                          obtain ⟨ts, st2⟩ := pr
                          rfl
                  | false =>
                    rw [boolIfFalse rfl, boolIfFalse rfl]
                    rw [ih (i + 1) ns es st]
                    cases hrec : itemsAnyOfLoop pt nm sid (i + 1) rest st with
                    | error e => rfl
                    | ok pr =>
                      obtain ⟨ts, st2⟩ := pr
                      rfl
              | false =>
                rw [boolIfFalse rfl, boolIfFalse rfl]
                rw [ih (i + 1) ns es st]
                cases hrec : itemsAnyOfLoop pt nm sid (i + 1) rest st with
                | error e => rfl
                | ok pr =>
                  obtain ⟨ts, st2⟩ := pr
                  rfl
          | false =>
            rw [boolIfFalse rfl, boolIfFalse rfl]
            rw [ih (i + 1) ns es st]
            cases hrec : itemsAnyOfLoop pt nm sid (i + 1) rest st with
            | error e => rfl
            | ok pr =>
              obtain ⟨ts, st2⟩ := pr
              rfl

theorem processTypeGo_frame {pt : ProcessFn}
    (hpt : ∀ (nm : String) (s : Json) (i : String) (ns : List GNode)
      (es : List GEdge) (st : GState),
      pt nm s i (shiftSt ns es st) = Except.map (shiftSt ns es) (pt nm s i st))
    (nm : String) (schema : Json) (id : String) :
    ∀ (ns : List GNode) (es : List GEdge) (st : GState),
      processTypeGo pt nm schema id (shiftSt ns es st)
        = Except.map (shiftSt ns es) (processTypeGo pt nm schema id st) := by
  intro ns es st
  delta processTypeGo
  simp only [shift_visited]
  by_cases hmem : id ∈ st.visited
  · rw [if_pos hmem, if_pos hmem]
    rfl
  · rw [if_neg hmem, if_neg hmem]
    simp only [shift_markVisited]
    cases hb : pyIn "$ref" schema with
    | error e => rfl
    | ok b =>
      simp only [exMap_ok, shiftPr_mk, okBind, shift_addNode, shift_addEdge]
      cases b with
      | true =>
        rw [if_pos rfl, if_pos rfl]
        cases hr : pyGetItem schema "$ref" with
        | error e => rfl
        | ok r =>
          simp only [exMap_ok, shiftPr_mk, okBind, shift_addNode, shift_addEdge]
          cases hseg : pySplitLast r with
          | error e => rfl
          | ok seg =>
            simp only [exMap_ok, shiftPr_mk, okBind, shift_addNode, shift_addEdge]
      | false =>
        rw [boolIfFalse rfl, boolIfFalse rfl]
        cases hb2 : pyIn "anyOf" schema with
        | error e => rfl
        | ok b2 =>
          simp only [exMap_ok, shiftPr_mk, okBind, shift_addNode, shift_addEdge]
          cases b2 with
          | true =>
            rw [if_pos rfl, if_pos rfl]
            cases ha : pyGetItem schema "anyOf" with
            | error e => rfl
            | ok a =>
              simp only [exMap_ok, shiftPr_mk, okBind, shift_addNode, shift_addEdge]
              cases halts : pyIter a with
              | error e => rfl
              | ok alts =>
                simp only [exMap_ok, shiftPr_mk, okBind, shift_addNode, shift_addEdge]
                rw [anyOfLoop_frame hpt]
                cases hpr : anyOfLoop pt nm id 0 alts (markVisited id st) with
                | error e => rfl
                | ok pr =>
                  obtain ⟨ts, st2⟩ := pr
                  simp only [exMap_ok, shiftPr_mk, okBind, shift_addNode, shift_addEdge]
                  cases hj : pyJoin ", " ts with
                  | error e => rfl
                  | ok joined =>
                    simp only [exMap_ok, shiftPr_mk, okBind, shift_addNode, shift_addEdge]
          | false =>
            rw [boolIfFalse rfl, boolIfFalse rfl]
            cases hst0 : pyGet schema "type" (Json.str "object") with
            | error e => rfl
            | ok schemaType =>
              simp only [exMap_ok, shiftPr_mk, okBind, shift_addNode, shift_addEdge]
              cases hq : pyEqStr schemaType "object" with
              | true =>
                rw [if_pos rfl, if_pos rfl]
                cases hprops : pyGet schema "properties" (Json.obj []) with
                | error e => rfl
                | ok properties =>
                  simp only [exMap_ok, shiftPr_mk, okBind, shift_addNode, shift_addEdge]
                  rw [propsTable_frame hpt]
                  cases hpr : propsTable pt nm properties id (markVisited id st) with
                  | error e => rfl
                  | ok pr =>
                    obtain ⟨table, st2⟩ := pr
                    simp only [exMap_ok, shiftPr_mk, okBind, shift_addNode, shift_addEdge]
                    cases hAP : pyIn "additionalProperties" schema with
                    | error e => rfl
                    | ok hasAP =>
                      simp only [exMap_ok, shiftPr_mk, okBind, shift_addNode, shift_addEdge]
                      cases hasAP with
                      | true =>
                        rw [if_pos rfl, if_pos rfl]
                        cases hap : pyGetItem schema "additionalProperties" with
                        | error e => rfl
                        | ok ap =>
                          simp only [exMap_ok, shiftPr_mk, okBind, shift_addNode, shift_addEdge]
                          cases hobj : ap.isObj with
                          | true =>
                            rw [if_pos rfl, if_pos rfl]
                            cases hbref : pyIn "$ref" ap with
                            | error e => rfl
                            | ok bref =>
                              simp only [exMap_ok, shiftPr_mk, okBind, shift_addNode, shift_addEdge]
                              cases bref with
                              | true =>
                                rw [if_pos rfl, if_pos rfl]
                                cases hr : pyGetItem ap "$ref" with
                                | error e => rfl
                                | ok r =>
                                  simp only [exMap_ok, shiftPr_mk, okBind, shift_addNode, shift_addEdge]
                                  cases hseg : pySplitLast r with
                                  | error e => rfl
                                  | ok seg =>
                                    simp only [exMap_ok, shiftPr_mk, okBind, shift_addNode, shift_addEdge]
                              | false =>
                                rw [boolIfFalse rfl, boolIfFalse rfl]
                                cases ht : pyGet ap "type" Json.null with
                                | error e => rfl
                                | ok t =>
                                  simp only [exMap_ok, shiftPr_mk, okBind, shift_addNode, shift_addEdge]
                                  cases hq2 : pyEqStr t "object" with
                                  | true =>
                                    rw [if_pos rfl, if_pos rfl]
                                    cases hbp : pyIn "properties" ap with
                                    | error e => rfl
                                    | ok bp =>
                                      simp only [exMap_ok, shiftPr_mk, okBind, shift_addNode, shift_addEdge]
                                      cases bp with
                                      | true =>
                                        rw [if_pos rfl, if_pos rfl]
                                        rw [hpt]
                                        cases hst3 : pt "additionalProperties" ap
                                            (id ++ "_additionalProps")
                                            (addNode id ("<" ++ table ++ ">") none st2) with
                                        | error e => rfl
                                        | ok st3 =>
                                          simp only [exMap_ok, shiftPr_mk, okBind, shift_addNode, shift_addEdge]
                                      | false =>
                                        rw [boolIfFalse rfl, boolIfFalse rfl]
                                        rfl
                                  | false =>
                                    rw [boolIfFalse rfl, boolIfFalse rfl]
                                    rfl
                          | false =>
                            rw [boolIfFalse rfl, boolIfFalse rfl]
                            rfl
                      | false =>
                        rw [boolIfFalse rfl, boolIfFalse rfl]
                        rfl
              | false =>
                rw [boolIfFalse rfl, boolIfFalse rfl]
                cases hq2 : pyEqStr schemaType "array" with
                | true =>
                  rw [if_pos rfl, if_pos rfl]
                  cases hhi : pyIn "items" schema with
                  | error e => rfl
                  | ok hasItems =>
                    simp only [exMap_ok, shiftPr_mk, okBind, shift_addNode, shift_addEdge]
                    cases hasItems with
                    | true =>
                      rw [if_pos rfl, if_pos rfl]
                      cases hitems : pyGetItem schema "items" with
                      | error e => rfl
                      | ok items =>
                        simp only [exMap_ok, shiftPr_mk, okBind, shift_addNode, shift_addEdge]
                        cases hbref : pyIn "$ref" items with
                        | error e => rfl
                        | ok bref =>
                          simp only [exMap_ok, shiftPr_mk, okBind, shift_addNode, shift_addEdge]
                          cases bref with
                          | true =>
                            rw [if_pos rfl, if_pos rfl]
                            cases hr : pyGetItem items "$ref" with
                            | error e => rfl
                            | ok r =>
                              simp only [exMap_ok, shiftPr_mk, okBind, shift_addNode, shift_addEdge]
                              cases hseg : pySplitLast r with
                              | error e => rfl
                              | ok seg =>
                                simp only [exMap_ok, shiftPr_mk, okBind, shift_addNode, shift_addEdge]
                          | false =>
                            rw [boolIfFalse rfl, boolIfFalse rfl]
                            cases hbAny : pyIn "anyOf" items with
                            | error e => rfl
                            | ok bAny =>
                              simp only [exMap_ok, shiftPr_mk, okBind, shift_addNode, shift_addEdge]
                              cases bAny with
                              | true =>
                                rw [if_pos rfl, if_pos rfl]
                                cases ha : pyGetItem items "anyOf" with
                                | error e => rfl
                                | ok a =>
                                  simp only [exMap_ok, shiftPr_mk, okBind, shift_addNode, shift_addEdge]
                                  cases halts : pyIter a with
                                  | error e => rfl
                                  | ok alts =>
                                    simp only [exMap_ok, shiftPr_mk, okBind, shift_addNode, shift_addEdge]
                                    rw [itemsAnyOfLoop_frame hpt]
                                    cases hpr : itemsAnyOfLoop pt nm id 0 alts
                                        (markVisited id st) with
                                    | error e => rfl
                                    | ok pr =>
                                      obtain ⟨ts, st2⟩ := pr
                                      simp only [exMap_ok, shiftPr_mk, okBind, shift_addNode, shift_addEdge]
                                      cases hj : pyJoin ", " ts with
                                      | error e => rfl
                                      | ok joined =>
                                        simp only [exMap_ok, shiftPr_mk, okBind, shift_addNode, shift_addEdge]
                              | false =>
                                rw [boolIfFalse rfl, boolIfFalse rfl]
                                cases hbType : pyIn "type" items with
                                | error e => rfl
                                | ok bType =>
                                  simp only [exMap_ok, shiftPr_mk, okBind, shift_addNode, shift_addEdge]
                                  cases bType with
                                  | true =>
                                    rw [if_pos rfl, if_pos rfl]
                                    cases hit : pyGetItem items "type" with
                                    | error e => rfl
                                    | ok itemType =>
                                      simp only [exMap_ok, shiftPr_mk, okBind, shift_addNode, shift_addEdge]
                                      cases hq3 : pyEqStr itemType "object" with
                                      | true =>
                                        rw [if_pos rfl, if_pos rfl]
                                        cases hbp : pyIn "properties" items with
                                        | error e => rfl
                                        | ok bp =>
                                          simp only [exMap_ok, shiftPr_mk, okBind, shift_addNode, shift_addEdge]
                                          cases bp with
                                          | true =>
                                            rw [if_pos rfl, if_pos rfl]
                                            cases hp : pyGetItem items "properties" with
                                            | error e => rfl
                                            | ok p =>
                                              simp only [exMap_ok, shiftPr_mk, okBind, shift_addNode, shift_addEdge]
                                              rw [hpt]
                                              cases hst3 : pt (nm ++ " items")
                                                  (Json.obj [("type", Json.str "object"),
                                                    ("properties", p)])
                                                  (id ++ "_items")
                                                  (addNode id
                                                    (nodeLabel nm
                                                      ("array of " ++ pyStr itemType))
                                                    none (markVisited id st)) with
                                              | error e => rfl
                                              | ok st3 =>
                                                simp only [exMap_ok, shiftPr_mk, okBind, shift_addNode, shift_addEdge]
                                          | false =>
                                            rw [boolIfFalse rfl, boolIfFalse rfl]
                                            rfl
                                      | false =>
                                        rw [boolIfFalse rfl, boolIfFalse rfl]
                                        rfl
                                  | false =>
                                    rw [boolIfFalse rfl, boolIfFalse rfl]
                                    rfl
                    | false =>
                      rw [boolIfFalse rfl, boolIfFalse rfl]
                      rfl
                | false =>
                  rw [boolIfFalse rfl, boolIfFalse rfl]
                  cases hhe : pyIn "enum" schema with
                  | error e => rfl
                  | ok hasEnum =>
                    simp only [exMap_ok, shiftPr_mk, okBind, shift_addNode, shift_addEdge]
                    cases hasEnum with
                    | true =>
                      rw [if_pos rfl, if_pos rfl]
                      cases hev : pyGetItem schema "enum" with
                      | error e => rfl
                      | ok ev =>
                        simp only [exMap_ok, shiftPr_mk, okBind, shift_addNode, shift_addEdge]
                        cases hlen : pyLen ev with
                        | error e => rfl
                        | ok len =>
                          simp only [exMap_ok, shiftPr_mk, okBind, shift_addNode, shift_addEdge]
                          by_cases hle : len ≤ 5
                          · rw [if_pos hle, if_pos hle]
                            cases hsl : pySlice5 ev with
                            | error e => rfl
                            | ok sliced =>
                              simp only [exMap_ok, shiftPr_mk, okBind, shift_addNode, shift_addEdge]
                              cases hvals : pyIter sliced with
                              | error e => rfl
                              | ok vals =>
                                simp only [exMap_ok, shiftPr_mk, okBind, shift_addNode, shift_addEdge]
                          · rw [if_neg hle, if_neg hle]
                            rfl
                    | false =>
                      rw [boolIfFalse rfl, boolIfFalse rfl]
                      rfl

theorem processType_frame :
    ∀ (fuel : Nat) (nm : String) (s : Json) (id : String) (ns : List GNode)
      (es : List GEdge) (st : GState),
      processType fuel nm s id (shiftSt ns es st)
        = Except.map (shiftSt ns es) (processType fuel nm s id st) := by
  intro fuel
  induction fuel with
  | zero => intro nm s id ns es st; rfl
  | succ n ih =>
    intro nm s id ns es st
    simp only [processType]
    exact processTypeGo_frame (fun nm s i ns es st => ih nm s i ns es st) nm s id ns es st

theorem schemasLoop_frame (fuel : Nat) :
    ∀ (pairs : List (String × Json)) (ns : List GNode) (es : List GEdge)
      (st : GState),
      schemasLoop fuel pairs (shiftSt ns es st)
        = Except.map (shiftSt ns es) (schemasLoop fuel pairs st) := by
  intro pairs
  induction pairs with
  | nil =>
    intro ns es st
    simp only [schemasLoop]
    rfl
  | cons kv rest ih =>
    intro ns es st
    obtain ⟨nm, s⟩ := kv
    simp only [schemasLoop]
    rw [processType_frame fuel nm s ("schema_" ++ nm) ns es st]
    cases hst1 : processType fuel nm s ("schema_" ++ nm) st with
    | error e => rfl
    | ok st1 =>
      simp only [exMap_ok, okBind]
      exact ih ns es st1

theorem addSchemas_frame (fuel : Nat) (spec : Json) :
    ∀ (ns : List GNode) (es : List GEdge) (st : GState),
      addSchemas fuel spec (shiftSt ns es st)
        = Except.map (shiftSt ns es) (addSchemas fuel spec st) := by
  intro ns es st
  simp only [addSchemas]
  cases hc : pyGet spec "components" (Json.obj []) with
  | error e => rfl
  | ok components =>
    simp only [okBind]
    cases hs : pyGet components "schemas" (Json.obj []) with
    | error e => rfl
    | ok schemas =>
      simp only [okBind]
      by_cases ht : ¬ pyTruthy schemas = true
      · rw [if_pos ht, if_pos ht]
        rfl
      · rw [if_neg ht, if_neg ht]
        cases hpairs : pyItems schemas with
        | error e => rfl
        | ok pairs =>
          simp only [okBind]
          exact schemasLoop_frame fuel pairs ns es st

theorem generateGraph_frame (fuel : Nat) (spec : Json) (ns : List GNode)
    (es : List GEdge) (st : GState) :
    generateGraph fuel spec (shiftSt ns es st)
      = Except.map (shiftSt ns es) (generateGraph fuel spec st) :=
  addSchemas_frame fuel spec ns es st

/-- A builder state whose traversal state is fresh is exactly the initial
state with its accumulated node/edge content attached in front. -/
theorem freshState_eq_shift (st : GState) (h : st.visited = []) :
    st = shiftSt st.nodes st.edges initState := by
  cases st with
  | mk v n e =>
    simp only at h
    subst h
    simp [shiftSt, initState]

/-- C5: the translation is deterministic.  A translation run over a document
from any state with fresh traversal state (empty visited set) produces
exactly the node/edge output of the canonical run from the pristine initial
state, appended in order after whatever graph content the state already
held — so two runs over the same document, each with fresh traversal state,
emit identical node identifier sequences and identical edge lists, in the
same order (and on malformed documents both runs fail with the identical
error). -/
theorem c5_deterministic_translation (fuel : Nat) (doc : Json)
    (st1 st2 : GState) (h1 : st1.visited = []) (h2 : st2.visited = []) :
    generateGraph fuel doc st1
        = Except.map (shiftSt st1.nodes st1.edges) (generateGraph fuel doc initState)
      ∧ generateGraph fuel doc st2
        = Except.map (shiftSt st2.nodes st2.edges) (generateGraph fuel doc initState) := by
  constructor
  · conv_lhs => rw [freshState_eq_shift st1 h1]
    exact generateGraph_frame fuel doc st1.nodes st1.edges initState
  · conv_lhs => rw [freshState_eq_shift st2 h2]
    exact generateGraph_frame fuel doc st2.nodes st2.edges initState

/-- Witness for C5: two fresh-traversal-state runs over a one-schema document
— one from the pristine builder, one from a builder that already accumulated
a node and an edge — both reduce to the canonical output shifted by the
pre-existing content. -/
theorem c5_witness :
    generateGraph 2
        (Json.obj [("components", Json.obj [("schemas", Json.obj
          [("A", Json.obj [("type", Json.str "string")])])])])
        ⟨[], [⟨"x", "lx", none⟩], [⟨"a", "b", "l"⟩]⟩
      = Except.map (shiftSt [⟨"x", "lx", none⟩] [⟨"a", "b", "l"⟩])
          (generateGraph 2
            (Json.obj [("components", Json.obj [("schemas", Json.obj
              [("A", Json.obj [("type", Json.str "string")])])])])
            initState)
    ∧ generateGraph 2
        (Json.obj [("components", Json.obj [("schemas", Json.obj
          [("A", Json.obj [("type", Json.str "string")])])])])
        initState
      = Except.map (shiftSt ([] : List GNode) ([] : List GEdge))
          (generateGraph 2
            (Json.obj [("components", Json.obj [("schemas", Json.obj
              [("A", Json.obj [("type", Json.str "string")])])])])
            initState) :=
  c5_deterministic_translation 2
    (Json.obj [("components", Json.obj [("schemas", Json.obj
      [("A", Json.obj [("type", Json.str "string")])])])])
    ⟨[], [⟨"x", "lx", none⟩], [⟨"a", "b", "l"⟩]⟩ initState rfl rfl

/-- C1: a `_process_type` invocation whose identifier has already been
processed is a no-op.  After any successful invocation recorded the
identifier, a second invocation with the same identifier — with any display
name, any schema, and any remaining fuel — returns the state exactly
unchanged: no node and no edge is emitted again, which is what makes the
emission of each identifier's node/edge set at-most-once per document. -/
theorem c1_processType_second_invocation_noop
    (fuel : Nat) (nm : String) (s : Json) (id : String) (st st' : GState)
    (fuel' : Nat) (nm' : String) (s' : Json)
    (h : processType fuel nm s id st = .ok st') (hf' : 1 ≤ fuel') :
    processType fuel' nm' s' id st' = .ok st' :=
  processType_visited hf' nm' s' (processType_ext fuel nm s id st st' h).2

/-- Witness for C1 at a concrete input: processing `{"type": "string"}` as
`schema_X` from the fresh builder state, then invoking the processor again on
`schema_X`. -/
theorem c1_witness :
    processType 1 "Y" Json.null "schema_X"
      ⟨["schema_X"],
       [⟨"schema_X", "<X<BR/><FONT POINT-SIZE=\x2710\x27>type: string</FONT>>", none⟩],
       []⟩ =
    .ok ⟨["schema_X"],
       [⟨"schema_X", "<X<BR/><FONT POINT-SIZE=\x2710\x27>type: string</FONT>>", none⟩],
       []⟩ :=
  c1_processType_second_invocation_noop 2 "X" (Json.obj [("type", Json.str "string")])
    "schema_X" initState _ 1 "Y" Json.null (by rfl) (by decide)

/-- C3: for a schema node containing `$ref` (regardless of any other fields),
`_process_type` emits exactly one node, labelled with type `reference`, and
exactly one edge labelled `references` whose target is `schema_<segment>`,
`<segment>` being the final `/`-separated segment of the reference string —
and nothing else: the final state shows no recursion into the referenced
schema took place (the theorem holds even with zero remaining recursion
budget, `fuel = 0`). -/
theorem c3_reference_node_and_edge
    (fuel : Nat) (nm : String) (kvs : List (String × Json)) (r id : String) (st : GState)
    (href : Json.lookup "$ref" kvs = some (Json.str r)) (hmem : id ∉ st.visited) :
    processType (fuel + 1) nm (Json.obj kvs) id st =
      .ok ⟨id :: st.visited,
           st.nodes ++ [⟨id, nodeLabel nm "reference", none⟩],
           st.edges ++ [⟨id, "schema_" ++ lastSegment r, "references"⟩]⟩ := by
  simp only [processType]
  delta processTypeGo
  rw [if_neg hmem]
  simp only [pyIn, href, Option.isSome, okBind, pyGetItem, pySplitLast,
    addNode, addEdge, markVisited, if_pos]

/-- Witness for C3: the spec's own example,
`ReferenceType = {$ref: "#/components/schemas/SimpleType"}`. -/
theorem c3_witness :
    Json.lookup "$ref" [("$ref", Json.str "#/components/schemas/SimpleType")] =
      some (Json.str "#/components/schemas/SimpleType") ∧
    ("schema_ReferenceType" ∉ initState.visited) ∧
    processType 1 "ReferenceType"
      (Json.obj [("$ref", Json.str "#/components/schemas/SimpleType")])
      "schema_ReferenceType" initState =
    .ok ⟨["schema_ReferenceType"],
         [⟨"schema_ReferenceType",
           "<ReferenceType<BR/><FONT POINT-SIZE=\x2710\x27>type: reference</FONT>>", none⟩],
         [⟨"schema_ReferenceType", "schema_SimpleType", "references"⟩]⟩ :=
  ⟨by rfl, by decide,
   c3_reference_node_and_edge 0 "ReferenceType" _ "#/components/schemas/SimpleType"
     "schema_ReferenceType" initState (by rfl) (by decide)⟩

/-- C2 counterexample: a primitive schema with a 7-value enum.  The guard
`if len(enum_values) <= 5` (line 295) skips the whole enum block for more
than 5 values, so the node keeps the plain `type: string` label — no enum
values, no ellipsis — and no tooltip is attached, contradicting the claim
that the label shows the first 5 values plus an ellipsis and that the full
list is retained as tooltip metadata. -/
theorem c2_counterexample :
    processType 1 "EnumType"
      (Json.obj [("type", Json.str "string"),
        ("enum", Json.arr [Json.str "a", Json.str "b", Json.str "c", Json.str "d",
          Json.str "e", Json.str "f", Json.str "g"])])
      "schema_EnumType" initState =
    .ok ⟨["schema_EnumType"],
         [⟨"schema_EnumType",
           "<EnumType<BR/><FONT POINT-SIZE=\x2710\x27>type: string</FONT>>", none⟩],
         []⟩ ∧
    ([Json.str "a", Json.str "b", Json.str "c", Json.str "d",
      Json.str "e", Json.str "f", Json.str "g"] : List Json).length = 7 := by
  exact ⟨by rfl, by rfl⟩

/-- C2 (amended): enum handling of `_process_type` (lines 293-300).  For a
primitive schema carrying an enum of at most 5 values, the node is emitted a
second time with all enum values appended to the label and the full value
list attached as tooltip metadata; with more than 5 values the enum block is
skipped entirely (the ellipsis branch is dead code): the label keeps only the
plain type line and no tooltip is attached. -/
theorem c2_amended_enum_label
    (fuel : Nat) (nm : String) (kvs : List (String × Json)) (t id : String)
    (vals : List Json) (st : GState)
    (href : Json.lookup "$ref" kvs = none)
    (hanyof : Json.lookup "anyOf" kvs = none)
    (htype : Json.lookup "type" kvs = some (Json.str t))
    (hobj : t ≠ "object") (harr : t ≠ "array")
    (henum : Json.lookup "enum" kvs = some (Json.arr vals))
    (hmem : id ∉ st.visited) :
    processType (fuel + 1) nm (Json.obj kvs) id st =
      .ok ⟨id :: st.visited,
           st.nodes ++
             (if vals.length ≤ 5 then
               [⟨id, nodeLabel nm t, none⟩,
                ⟨id, nodeLabel nm (t ++ "<BR/>enum: " ++ joinSep ", " (vals.map pyStr)),
                 some (pyStr (Json.arr vals))⟩]
              else [⟨id, nodeLabel nm t, none⟩]),
           st.edges⟩ := by
  simp only [processType]
  delta processTypeGo
  rw [if_neg hmem]
  have h1 : pyEqStr (Json.str t) "object" = false := by simp [pyEqStr, hobj]
  have h2 : pyEqStr (Json.str t) "array" = false := by simp [pyEqStr, harr]
  simp only [pyIn, href, hanyof, henum, htype, Option.isSome, okBind, pyGet, pyGetItem,
    pyLen, pySlice5, pyIter, Option.getD, h1, h2, Bool.false_eq_true, if_false, if_true,
    pyStr]
  by_cases hle : vals.length ≤ 5
  · rw [if_pos hle, if_pos hle, if_neg (by omega : ¬ vals.length > 5),
      List.take_of_length_le hle]
    simp [addNode, markVisited]
  · rw [if_neg hle, if_neg hle]
    simp [addNode, markVisited]

/-- Witness for C2 (amended), exercising both sides: a 3-value enum gets the
full value list in the label and as tooltip; a 7-value enum keeps the plain
label with no tooltip. -/
theorem c2_witness :
    processType 1 "E3"
      (Json.obj [("type", Json.str "string"),
        ("enum", Json.arr [Json.str "a", Json.str "b", Json.str "c"])])
      "schema_E3" initState =
    .ok ⟨["schema_E3"],
         [⟨"schema_E3", "<E3<BR/><FONT POINT-SIZE=\x2710\x27>type: string</FONT>>", none⟩,
          ⟨"schema_E3",
           "<E3<BR/><FONT POINT-SIZE=\x2710\x27>type: string<BR/>enum: a, b, c</FONT>>",
           some "[\x27a\x27, \x27b\x27, \x27c\x27]"⟩],
         []⟩ ∧
    processType 1 "E7"
      (Json.obj [("type", Json.str "string"),
        ("enum", Json.arr [Json.str "a", Json.str "b", Json.str "c", Json.str "d",
          Json.str "e", Json.str "f", Json.str "g"])])
      "schema_E7" initState =
    .ok ⟨["schema_E7"],
         [⟨"schema_E7", "<E7<BR/><FONT POINT-SIZE=\x2710\x27>type: string</FONT>>", none⟩],
         []⟩ :=
  ⟨(c2_amended_enum_label 0 "E3" _ "string" "schema_E3"
     [Json.str "a", Json.str "b", Json.str "c"] initState
     (by rfl) (by rfl) (by rfl) (by decide) (by decide) (by rfl) (by decide)).trans
     (by rfl),
   (c2_amended_enum_label 0 "E7" _ "string" "schema_E7"
     [Json.str "a", Json.str "b", Json.str "c", Json.str "d",
      Json.str "e", Json.str "f", Json.str "g"] initState
     (by rfl) (by rfl) (by rfl) (by decide) (by decide) (by rfl) (by decide)).trans
     (by rfl)⟩

/-- Second runs of the per-schema loop on a state produced by a completed
first run are no-ops: every identifier the loop would process is already in
the visited set. -/
theorem schemasLoop_idem (fuel : Nat) :
    ∀ (pairs : List (String × Json)) (st st' : GState),
      schemasLoop fuel pairs st = .ok st' → schemasLoop fuel pairs st' = .ok st' := by
  intro pairs
  induction pairs with
  | nil =>
    intro st st' h
    simp only [schemasLoop]
  | cons kv rest ih =>
    intro st st' h
    obtain ⟨nm, s⟩ := kv
    simp only [schemasLoop] at h ⊢
    obtain ⟨st1, h1, h2⟩ := bindOk h
    cases fuel with
    | zero => exact absurd h1 (by simp [processType])
    | succ n =>
      have hmem1 : ("schema_" ++ nm) ∈ st1.visited :=
        (processType_ext (Nat.succ n) _ _ _ _ _ h1).2
      have hmem : ("schema_" ++ nm) ∈ st'.visited :=
        (schemasLoop_ext (Nat.succ n) rest st1 st' h2).1 hmem1
      rw [processType_visited (by simp) nm s hmem, okBind]
      exact ih st1 st' h2

/-- C7 counterexample: on a document with one schema `A`, a first
`generate_graph` call from the freshly constructed builder emits the node for
`schema_A`; a second call on the same builder returns the state exactly
unchanged — it emits no node and no edge at all, because
`self.processed_refs` is created in `__init__` (line 16) and never reset in
`generate_graph`.  This contradicts the claim that the Visited Set's lifetime
is one translation call and that each of two successive calls emits the full
output. -/
theorem c7_counterexample :
    generateGraph 5
      (Json.obj [("components", Json.obj [("schemas",
        Json.obj [("A", Json.obj [("type", Json.str "string")])])])])
      initState =
    .ok ⟨["schema_A"],
         [⟨"schema_A", "<A<BR/><FONT POINT-SIZE=\x2710\x27>type: string</FONT>>", none⟩],
         []⟩ ∧
    generateGraph 5
      (Json.obj [("components", Json.obj [("schemas",
        Json.obj [("A", Json.obj [("type", Json.str "string")])])])])
      ⟨["schema_A"],
       [⟨"schema_A", "<A<BR/><FONT POINT-SIZE=\x2710\x27>type: string</FONT>>", none⟩],
       []⟩ =
    .ok ⟨["schema_A"],
         [⟨"schema_A", "<A<BR/><FONT POINT-SIZE=\x2710\x27>type: string</FONT>>", none⟩],
         []⟩ ∧
    ([⟨"schema_A", "<A<BR/><FONT POINT-SIZE=\x2710\x27>type: string</FONT>>", none⟩] :
      List GNode) ≠ [] :=
  ⟨by rfl, by rfl, by decide⟩

/-- C7 (amended): the Visited Set's lifetime is the builder instance, not one
translation call — `processed_refs` is created empty in `__init__` and never
reset by `generate_graph`, so a second top-level translation call on the same
builder state is a complete no-op (it emits no further node or edge), while
each call made on a freshly constructed builder emits the full output. -/
theorem c7_amended_second_call_noop (fuel : Nat) (doc : Json) (st st' : GState)
    (h : generateGraph fuel doc st = .ok st') :
    generateGraph fuel doc st' = .ok st' := by
  simp only [generateGraph, addSchemas, okBind] at h ⊢
  obtain ⟨components, hc, h⟩ := bindOk h
  rw [hc, okBind]
  obtain ⟨schemas, hs, h⟩ := bindOk h
  rw [hs, okBind]
  split at h
  · cases h
    split
    · rfl
    · exact absurd (by assumption : ¬ pyTruthy schemas = true) (by assumption)
  · obtain ⟨pairs, hpairs, h⟩ := bindOk h
    split
    · exact absurd (by assumption : ¬ pyTruthy schemas = true) (by assumption)
    · rw [hpairs, okBind]
      exact schemasLoop_idem fuel pairs st st' h

/-- Witness for C7 (amended): the second call on the builder state left by a
successful first call over a two-schema document changes nothing. -/
theorem c7_witness :
    generateGraph 3
      (Json.obj [("components", Json.obj [("schemas",
        Json.obj [("A", Json.obj [("type", Json.str "string")]),
                  ("B", Json.obj [("$ref", Json.str "#/components/schemas/A")])])])])
      ⟨["schema_B", "schema_A"],
       [⟨"schema_A", "<A<BR/><FONT POINT-SIZE=\x2710\x27>type: string</FONT>>", none⟩,
        ⟨"schema_B", "<B<BR/><FONT POINT-SIZE=\x2710\x27>type: reference</FONT>>", none⟩],
       [⟨"schema_B", "schema_A", "references"⟩]⟩ =
    .ok ⟨["schema_B", "schema_A"],
       [⟨"schema_A", "<A<BR/><FONT POINT-SIZE=\x2710\x27>type: string</FONT>>", none⟩,
        ⟨"schema_B", "<B<BR/><FONT POINT-SIZE=\x2710\x27>type: reference</FONT>>", none⟩],
       [⟨"schema_B", "schema_A", "references"⟩]⟩ :=
  c7_amended_second_call_noop 3
    (Json.obj [("components", Json.obj [("schemas",
      Json.obj [("A", Json.obj [("type", Json.str "string")]),
                ("B", Json.obj [("$ref", Json.str "#/components/schemas/A")])])])])
    initState _ (by rfl)

/-! ## Depth behavior on purely inline nesting (claim C9)

`nestSchema n` is an inline-object chain of depth `n` with no `$ref`
indirection: `nestSchema 0 = {type: string}` and
`nestSchema (n+1) = {type: object, properties: {p: nestSchema n}}`.
`_process_type` recurses through such a chain one level of call stack per
inline-object level; `nestId id k` is the identifier minted at level `k`. -/

def nestSchema : Nat → Json
  | 0 => Json.obj [("type", Json.str "string")]
  | n + 1 => Json.obj [("type", Json.str "object"),
      ("properties", Json.obj [("p", nestSchema n)])]

def nestId (id : String) : Nat → String
  | 0 => id
  | k + 1 => nestId id k ++ "_p"

theorem nestId_shift (id : String) : ∀ k, nestId (id ++ "_p") k = nestId id (k + 1) := by
  intro k
  induction k with
  | zero => rfl
  | succ k ih => simp only [nestId, ih]

theorem nestId_length (id : String) : ∀ k, (nestId id k).length = id.length + 2 * k := by
  intro k
  induction k with
  | zero => rfl
  | succ k ih =>
    simp only [nestId, String.length_append, ih,
      show ("_p" : String).length = 2 from rfl]
    omega

theorem gptl_nest (m : Nat) : getPropertyTypeLabel (nestSchema (m + 1)) = .ok "object" := by
  simp [nestSchema, getPropertyTypeLabel, pyIn, pyGetItem, Json.lookup, pyEqStr, pyStr,
    Option.isSome, okBind]

theorem portCond_nest (m : Nat) : portCond (nestSchema (m + 1)) = .ok true := by
  simp [nestSchema, portCond, pyIn, pyGet, pyIn, pyGetItem, Json.lookup, pyEqStr,
    Option.isSome, Option.getD, okBind]

theorem wrapperFold (m : Nat) :
    Json.obj [("type", Json.str "object"),
      ("properties", Json.obj [("p", nestSchema m)])] = nestSchema (m + 1) := rfl

theorem nest_success :
    ∀ (n f : Nat) (nm id : String) (st : GState), Nat.max 1 n ≤ f →
      (∀ k, nestId id k ∉ st.visited) →
      ∃ st', processType f nm (nestSchema n) id st = .ok st' ∧
        st'.nodes.length = st.nodes.length + Nat.max 1 n := by
  intro n
  induction n with
  | zero =>
    intro f nm id st hf hfresh
    match f, hf with
    | g + 1, _ =>
      simp only [processType]
      delta processTypeGo
      rw [if_neg (show id ∉ st.visited from hfresh 0)]
      simp [nestSchema, pyIn, pyGetItem, pyGet, Json.lookup, pyEqStr, pyStr,
        Option.isSome, Option.getD, okBind, addNode, markVisited]
  | succ n ihn =>
    intro f nm id st hf hfresh
    cases n with
    | zero =>
      match f, hf with
      | g + 1, _ =>
        simp only [processType]
        delta processTypeGo
        rw [if_neg (show id ∉ st.visited from hfresh 0)]
        simp [nestSchema, pyIn, pyGetItem, pyGet, pyItems, pyTruthy, Json.lookup,
          pyEqStr, pyStr, Option.isSome, Option.getD, okBind, propsTable, propsRows,
          propEdges, portCond, getPropertyTypeLabel, addNode, markVisited]
    | succ m =>
      have hf1 : 1 ≤ f := le_trans (Nat.le_max_left _ _) hf
      match f, hf1 with
      | g + 1, _ =>
        have hmax1 : Nat.max 1 (m + 1) = m + 1 := Nat.max_eq_right (by omega)
        have hmax2 : Nat.max 1 (m + 1 + 1) = m + 1 + 1 := Nat.max_eq_right (by omega)
        have hg : Nat.max 1 (m + 1) ≤ g := by
          rw [hmax2] at hf
          rw [hmax1]
          omega
        have hfresh' : ∀ k, nestId (id ++ "_p") k ∉ (markVisited id st).visited := by
          intro k
          rw [nestId_shift]
          simp only [markVisited, List.mem_cons, not_or]
          refine ⟨?_, hfresh (k + 1)⟩
          intro heq
          have hl := congrArg String.length heq
          rw [nestId_length] at hl
          omega
        obtain ⟨st2, hst2, hlen⟩ := ihn g "p" (id ++ "_p") (markVisited id st) hg hfresh'
        simp only [processType]
        delta processTypeGo
        rw [if_neg (show id ∉ st.visited from hfresh 0)]
        rw [show nestSchema (m + 1 + 1) = Json.obj [("type", Json.str "object"),
              ("properties", Json.obj [("p",
                Json.obj [("type", Json.str "object"),
                  ("properties", Json.obj [("p", nestSchema m)])])])] from rfl]
        simp [pyIn, pyGetItem, pyGet, pyItems, pyTruthy, Json.lookup,
          pyEqStr, pyStr, Option.isSome, Option.getD, okBind, propsTable, propsRows,
          propEdges, portCond, getPropertyTypeLabel]
        rw [show id ++ "_" ++ "p" = id ++ "_p" from (String.append_assoc id "_" "p").trans rfl]
        rw [wrapperFold m, hst2]
        simp only [okBind]
        refine ⟨_, rfl, ?_⟩
        simp only [addNode, addEdge, markVisited, List.length_append] at hlen ⊢
        rw [hmax1] at hlen
        simp only [List.length_cons, List.length_nil]
        omega

theorem errBind {α β : Type} (e : String) (f : α → Except String β) :
    (Except.error e >>= f) = Except.error e := Eq.refl _

theorem nest_error :
    ∀ (f n : Nat) (nm id : String) (st : GState), f + 1 ≤ n →
      (∀ k, nestId id k ∉ st.visited) →
      processType f nm (nestSchema n) id st = .error "RecursionError" := by
  intro f
  induction f with
  | zero =>
    intro n nm id st _ _
    simp [processType]
  | succ g ihg =>
    intro n nm id st hn hfresh
    cases n with
    | zero => omega
    | succ n1 =>
      cases n1 with
      | zero => omega
      | succ m =>
        have hfresh' : ∀ k, nestId (id ++ "_p") k ∉ (markVisited id st).visited := by
          intro k
          rw [nestId_shift]
          simp only [markVisited, List.mem_cons, not_or]
          refine ⟨?_, hfresh (k + 1)⟩
          intro heq
          have hl := congrArg String.length heq
          rw [nestId_length] at hl
          omega
        have hrec := ihg (m + 1) "p" (id ++ "_p") (markVisited id st) (by omega) hfresh'
        simp only [processType]
        delta processTypeGo
        rw [if_neg (show id ∉ st.visited from hfresh 0)]
        rw [show nestSchema (m + 1 + 1) = Json.obj [("type", Json.str "object"),
              ("properties", Json.obj [("p",
                Json.obj [("type", Json.str "object"),
                  ("properties", Json.obj [("p", nestSchema m)])])])] from rfl]
        simp [pyIn, pyGetItem, pyGet, pyItems, pyTruthy, Json.lookup,
          pyEqStr, pyStr, Option.isSome, Option.getD, okBind, propsTable, propsRows,
          propEdges, portCond, getPropertyTypeLabel]
        rw [show id ++ "_" ++ "p" = id ++ "_p" from (String.append_assoc id "_" "p").trans rfl]
        rw [wrapperFold m, hrec]
        rfl

set_option maxRecDepth 4000

/-- C9 counterexample: a 12-deep inline-object chain.  With stack budget
available, the translation processes every level (12 nodes emitted, one per
inline-object level) and reports no "structure too deep" condition — there is
no depth ceiling in the code; and when the recursion limit does bite (budget
5 on the same input), the failure is a `RecursionError` that aborts the whole
translation, not a recoverable per-subtree condition. -/
theorem c9_counterexample :
    (processType 13 "D" (nestSchema 12) "schema_D" initState).map
      (fun st => st.nodes.length) = .ok 12 ∧
    processType 5 "D" (nestSchema 12) "schema_D" initState = .error "RecursionError" :=
  ⟨by rfl, by rfl⟩

/-- C9 (amended): recursion into nested inline structures is not
depth-guarded.  For every depth `n`, when the remaining recursion budget
covers the nesting (`max 1 n ≤ fuel`) the translation processes the whole
chain, emitting one node per inline-object level and reporting no "structure
too deep" condition; and whenever the nesting exceeds the budget
(`fuel + 1 ≤ n`, the modelled Python recursion limit), the entire invocation
fails with `RecursionError` — the abort is not confined to the offending
subtree. -/
theorem c9_amended_no_depth_guard :
    (∀ (n f : Nat) (nm id : String) (st : GState), Nat.max 1 n ≤ f →
      (∀ k, nestId id k ∉ st.visited) →
      ∃ st', processType f nm (nestSchema n) id st = .ok st' ∧
        st'.nodes.length = st.nodes.length + Nat.max 1 n) ∧
    (∀ (f n : Nat) (nm id : String) (st : GState), f + 1 ≤ n →
      (∀ k, nestId id k ∉ st.visited) →
      processType f nm (nestSchema n) id st = .error "RecursionError") :=
  ⟨nest_success, nest_error⟩

/-- Witness for C9 (amended): depth 4 succeeds in full with budget 4 and
fails as a whole with budget 3. -/
theorem c9_witness :
    (∃ st', processType 4 "D" (nestSchema 4) "schema_D" initState = .ok st' ∧
       st'.nodes.length = initState.nodes.length + 4) ∧
    processType 3 "D" (nestSchema 4) "schema_D" initState = .error "RecursionError" :=
  ⟨c9_amended_no_depth_guard.1 4 4 "D" "schema_D" initState (by decide)
     (fun k h => absurd h (List.not_mem_nil _)),
   c9_amended_no_depth_guard.2 3 4 "D" "schema_D" initState (by decide)
     (fun k h => absurd h (List.not_mem_nil _))⟩

/-- C4: shape classification of `_process_type` is first-match-wins with the
precedence `$ref` > `anyOf` > (explicit or defaulted) `object` > `array` >
Primitive.  Part 1: a schema holding both `$ref` and `anyOf` (and anything
else) is handled purely as a Reference.  Part 2: without `$ref`, a schema
with `anyOf` is processed identically whatever its `type` (or other) fields
say — `anyOf` wins over `type`.  Part 3: without `$ref`/`anyOf`, a missing
`type` defaults to `object`, and with no properties the node label degrades
to the one-row "No properties" placeholder with zero edges (explicit
`type: object` behaves identically).  Part 4: `type: array` (here with no
`items`) is handled by the array branch.  Part 5: any other declared type
falls through to the Primitive branch. -/
theorem c4_shape_precedence :
    (∀ (fuel : Nat) (nm : String) (kvs : List (String × Json)) (r id : String)
       (x : Json) (st : GState),
       Json.lookup "$ref" kvs = some (Json.str r) →
       Json.lookup "anyOf" kvs = some x →
       id ∉ st.visited →
       processType (fuel + 1) nm (Json.obj kvs) id st =
         .ok ⟨id :: st.visited,
              st.nodes ++ [⟨id, nodeLabel nm "reference", none⟩],
              st.edges ++ [⟨id, "schema_" ++ lastSegment r, "references"⟩]⟩) ∧
    (∀ (fuel : Nat) (nm : String) (kvs kvs' : List (String × Json)) (a : Json)
       (id : String) (st : GState),
       Json.lookup "$ref" kvs = none → Json.lookup "$ref" kvs' = none →
       Json.lookup "anyOf" kvs = some a → Json.lookup "anyOf" kvs' = some a →
       processType (fuel + 1) nm (Json.obj kvs) id st =
         processType (fuel + 1) nm (Json.obj kvs') id st) ∧
    (∀ (fuel : Nat) (nm : String) (kvs : List (String × Json)) (id : String) (st : GState),
       Json.lookup "$ref" kvs = none → Json.lookup "anyOf" kvs = none →
       (Json.lookup "type" kvs = none ∨ Json.lookup "type" kvs = some (Json.str "object")) →
       Json.lookup "properties" kvs = none →
       Json.lookup "additionalProperties" kvs = none →
       id ∉ st.visited →
       processType (fuel + 1) nm (Json.obj kvs) id st =
         .ok ⟨id :: st.visited,
              st.nodes ++ [⟨id, "<" ++ noPropsTable ++ ">", none⟩],
              st.edges⟩) ∧
    (∀ (fuel : Nat) (nm : String) (kvs : List (String × Json)) (id : String) (st : GState),
       Json.lookup "$ref" kvs = none → Json.lookup "anyOf" kvs = none →
       Json.lookup "type" kvs = some (Json.str "array") →
       Json.lookup "items" kvs = none →
       id ∉ st.visited →
       processType (fuel + 1) nm (Json.obj kvs) id st =
         .ok ⟨id :: st.visited,
              st.nodes ++ [⟨id, nodeLabel nm "array", none⟩],
              st.edges⟩) ∧
    (∀ (fuel : Nat) (nm : String) (kvs : List (String × Json)) (t id : String) (st : GState),
       Json.lookup "$ref" kvs = none → Json.lookup "anyOf" kvs = none →
       Json.lookup "type" kvs = some (Json.str t) →
       t ≠ "object" → t ≠ "array" →
       Json.lookup "enum" kvs = none →
       id ∉ st.visited →
       processType (fuel + 1) nm (Json.obj kvs) id st =
         .ok ⟨id :: st.visited,
              st.nodes ++ [⟨id, nodeLabel nm t, none⟩],
              st.edges⟩) := by
  refine ⟨?_, ?_, ?_, ?_, ?_⟩
  · intro fuel nm kvs r id x st href hany hmem
    simp only [processType]
    delta processTypeGo
    rw [if_neg hmem]
    simp only [pyIn, href, Option.isSome, okBind, pyGetItem, pySplitLast,
      addNode, addEdge, markVisited, if_pos]
  · intro fuel nm kvs kvs' a id st href href' hany hany'
    simp only [processType]
    delta processTypeGo
    by_cases hmem : id ∈ st.visited
    · rw [if_pos hmem, if_pos hmem]
    · rw [if_neg hmem, if_neg hmem]
      simp only [pyIn, href, href', hany, hany', Option.isSome, okBind, pyGetItem,
        Bool.false_eq_true, if_false, if_true]
  · intro fuel nm kvs id st href hany htype hprops hap hmem
    simp only [processType]
    delta processTypeGo
    rw [if_neg hmem]
    cases htype with
    | inl h =>
      simp [pyIn, href, hany, h, hprops, hap, Option.isSome, okBind, pyGet, pyGetItem,
        Option.getD, pyEqStr, pyTruthy, propsTable, noPropsTable, addNode, markVisited]
    | inr h =>
      simp [pyIn, href, hany, h, hprops, hap, Option.isSome, okBind, pyGet, pyGetItem,
        Option.getD, pyEqStr, pyTruthy, propsTable, noPropsTable, addNode, markVisited]
  · intro fuel nm kvs id st href hany htype hitems hmem
    simp only [processType]
    delta processTypeGo
    rw [if_neg hmem]
    simp [pyIn, href, hany, htype, hitems, Option.isSome, okBind, pyGet, pyGetItem,
      Option.getD, pyEqStr, addNode, markVisited]
  · intro fuel nm kvs t id st href hany htype hto hta henum hmem
    simp only [processType]
    delta processTypeGo
    rw [if_neg hmem]
    have h1 : pyEqStr (Json.str t) "object" = false := by simp [pyEqStr, hto]
    have h2 : pyEqStr (Json.str t) "array" = false := by simp [pyEqStr, hta]
    simp [pyIn, href, hany, htype, henum, Option.isSome, okBind, pyGet, pyGetItem,
      Option.getD, h1, h2, pyStr, addNode, markVisited]

/-- Witness for C4: all five precedence facts at concrete inputs. -/
theorem c4_witness :
    processType 1 "W"
      (Json.obj [("$ref", Json.str "#/components/schemas/T"),
        ("anyOf", Json.arr []), ("type", Json.str "array")]) "schema_W" initState =
      .ok ⟨["schema_W"],
           [⟨"schema_W", "<W<BR/><FONT POINT-SIZE=\x2710\x27>type: reference</FONT>>", none⟩],
           [⟨"schema_W", "schema_T", "references"⟩]⟩ ∧
    processType 1 "W"
      (Json.obj [("anyOf", Json.arr [Json.obj [("type", Json.str "string")]]),
        ("type", Json.str "integer")]) "schema_W" initState =
      processType 1 "W"
        (Json.obj [("anyOf", Json.arr [Json.obj [("type", Json.str "string")]]),
          ("type", Json.str "object")]) "schema_W" initState ∧
    processType 1 "W" (Json.obj []) "schema_W" initState =
      .ok ⟨["schema_W"],
           [⟨"schema_W", "<<TABLE><TR><TD>No properties</TD></TR></TABLE>>", none⟩],
           []⟩ ∧
    processType 1 "W" (Json.obj [("type", Json.str "array")]) "schema_W" initState =
      .ok ⟨["schema_W"],
           [⟨"schema_W", "<W<BR/><FONT POINT-SIZE=\x2710\x27>type: array</FONT>>", none⟩],
           []⟩ ∧
    processType 1 "W" (Json.obj [("type", Json.str "number")]) "schema_W" initState =
      .ok ⟨["schema_W"],
           [⟨"schema_W", "<W<BR/><FONT POINT-SIZE=\x2710\x27>type: number</FONT>>", none⟩],
           []⟩ :=
  ⟨(c4_shape_precedence.1 0 "W" _ "#/components/schemas/T" "schema_W" (Json.arr [])
      initState (by rfl) (by rfl) (by decide)).trans (by rfl),
   c4_shape_precedence.2.1 0 "W" _ _ (Json.arr [Json.obj [("type", Json.str "string")]])
      "schema_W" initState (by rfl) (by rfl) (by rfl) (by rfl),
   (c4_shape_precedence.2.2.1 0 "W" [] "schema_W" initState (by rfl) (by rfl)
      (Or.inl (by rfl)) (by rfl) (by rfl) (by decide)).trans (by rfl),
   (c4_shape_precedence.2.2.2.1 0 "W" _ "schema_W" initState (by rfl) (by rfl)
      (by rfl) (by rfl) (by decide)).trans (by rfl),
   (c4_shape_precedence.2.2.2.2 0 "W" _ "number" "schema_W" initState (by rfl) (by rfl)
      (by rfl) (by decide) (by decide) (by rfl) (by decide)).trans (by rfl)⟩

/-- C6: `anyOf` processing in `_process_type` (lines 192-214) walks the
alternatives in original zero-indexed order.  Part 1: a Reference alternative
at index `i` contributes an edge labelled `anyOf[i]` to `schema_<segment>`
and its resolved name to the label summaries.  Part 2: an inline
object-with-properties alternative is recursively processed into
`<id>_anyOf_<i>` (receiving only its `type`/`properties`) with an `anyOf[i]`
edge, contributing summary `object`.  Parts 3-5: every other alternative —
non-object type, object without properties, or no type at all — contributes
no edge and no state change, only its declared type (or `unknown`) summary.
Final part: the spec's example
`{anyOf: [{type: string}, {$ref: .../SimpleType}]}` emits exactly one edge,
labelled `anyOf[1]`, to `schema_SimpleType`, and the node label's type text
is `anyOf: string, SimpleType`. -/
theorem c6_anyof_alternatives :
    (∀ (pt : ProcessFn) (nm sid : String) (i : Nat) (alt : Json)
       (kvs : List (String × Json)) (rest : List Json) (r : String) (st : GState),
       alt = Json.obj kvs → Json.lookup "$ref" kvs = some (Json.str r) →
       anyOfLoop pt nm sid i (alt :: rest) st =
         (anyOfLoop pt nm sid (i + 1) rest
             (addEdge sid ("schema_" ++ lastSegment r)
               ("anyOf[" ++ toString i ++ "]") st)).map
           (fun pr => (Json.str (lastSegment r) :: pr.1, pr.2))) ∧
    (∀ (pt : ProcessFn) (nm sid : String) (i : Nat) (alt : Json)
       (kvs : List (String × Json)) (rest : List Json) (p : Json) (st : GState),
       alt = Json.obj kvs → Json.lookup "$ref" kvs = none →
       Json.lookup "type" kvs = some (Json.str "object") →
       Json.lookup "properties" kvs = some p →
       anyOfLoop pt nm sid i (alt :: rest) st =
         (pt (nm ++ " anyOf " ++ toString i)
             (Json.obj [("type", Json.str "object"), ("properties", p)])
             (sid ++ "_anyOf_" ++ toString i) st) >>= (fun st1 =>
           (anyOfLoop pt nm sid (i + 1) rest
               (addEdge sid (sid ++ "_anyOf_" ++ toString i)
                 ("anyOf[" ++ toString i ++ "]") st1)).map
             (fun pr => (Json.str "object" :: pr.1, pr.2)))) ∧
    (∀ (pt : ProcessFn) (nm sid : String) (i : Nat) (alt : Json)
       (kvs : List (String × Json)) (rest : List Json) (t : Json) (st : GState),
       alt = Json.obj kvs → Json.lookup "$ref" kvs = none →
       Json.lookup "type" kvs = some t → pyEqStr t "object" = false →
       anyOfLoop pt nm sid i (alt :: rest) st =
         (anyOfLoop pt nm sid (i + 1) rest st).map
           (fun pr => (t :: pr.1, pr.2))) ∧
    (∀ (pt : ProcessFn) (nm sid : String) (i : Nat) (alt : Json)
       (kvs : List (String × Json)) (rest : List Json) (st : GState),
       alt = Json.obj kvs → Json.lookup "$ref" kvs = none →
       Json.lookup "type" kvs = some (Json.str "object") →
       Json.lookup "properties" kvs = none →
       anyOfLoop pt nm sid i (alt :: rest) st =
         (anyOfLoop pt nm sid (i + 1) rest st).map
           (fun pr => (Json.str "object" :: pr.1, pr.2))) ∧
    (∀ (pt : ProcessFn) (nm sid : String) (i : Nat) (alt : Json)
       (kvs : List (String × Json)) (rest : List Json) (st : GState),
       alt = Json.obj kvs → Json.lookup "$ref" kvs = none →
       Json.lookup "type" kvs = none →
       anyOfLoop pt nm sid i (alt :: rest) st =
         (anyOfLoop pt nm sid (i + 1) rest st).map
           (fun pr => (Json.str "unknown" :: pr.1, pr.2))) ∧
    processType 2 "A"
      (Json.obj [("anyOf", Json.arr [Json.obj [("type", Json.str "string")],
        Json.obj [("$ref", Json.str "#/components/schemas/SimpleType")]])])
      "schema_A" initState =
      .ok ⟨["schema_A"],
           [⟨"schema_A",
             "<A<BR/><FONT POINT-SIZE=\x2710\x27>type: anyOf: string, SimpleType</FONT>>",
             none⟩],
           [⟨"schema_A", "schema_SimpleType", "anyOf[1]"⟩]⟩ := by
  refine ⟨?_, ?_, ?_, ?_, ?_, by rfl⟩
  · intro pt nm sid i alt kvs rest r st halt href
    subst halt
    simp only [anyOfLoop, okBind, pyIn, href, Option.isSome, pyGetItem, pySplitLast,
      if_pos]
    cases hl : anyOfLoop pt nm sid (i + 1) rest
        (addEdge sid ("schema_" ++ lastSegment r) ("anyOf[" ++ toString i ++ "]") st) with
    | error e => simp [hl, Except.map, okBind, errBind]
    | ok pr => obtain ⟨ts, st2⟩ := pr; simp [hl, Except.map, okBind, errBind]
  · intro pt nm sid i alt kvs rest p st halt href htype hprops
    subst halt
    simp only [anyOfLoop, okBind, pyIn, href, htype, hprops, Option.isSome, pyGetItem,
      Bool.false_eq_true, if_false, if_true, pyEqStr]
    cases hpt : pt (nm ++ " anyOf " ++ toString i)
        (Json.obj [("type", Json.str "object"), ("properties", p)])
        (sid ++ "_anyOf_" ++ toString i) st with
    | error e => simp [hpt, Except.map, okBind, errBind]
    | ok st1 =>
      simp only [hpt, okBind]
      cases hl : anyOfLoop pt nm sid (i + 1) rest
          (addEdge sid (sid ++ "_anyOf_" ++ toString i)
            ("anyOf[" ++ toString i ++ "]") st1) with
      | error e => simp [hl, Except.map, okBind, errBind]
      | ok pr => obtain ⟨ts, st2⟩ := pr; simp [hl, Except.map, okBind, errBind]
  · intro pt nm sid i alt kvs rest t st halt href htype hne
    subst halt
    simp only [anyOfLoop, okBind, pyIn, href, htype, hne, Option.isSome, pyGetItem,
      Bool.false_eq_true, if_false, if_true]
    cases hl : anyOfLoop pt nm sid (i + 1) rest st with
    | error e => simp [hl, Except.map, okBind, errBind]
    | ok pr => obtain ⟨ts, st2⟩ := pr; simp [hl, Except.map, okBind, errBind]
  · intro pt nm sid i alt kvs rest st halt href htype hprops
    subst halt
    simp only [anyOfLoop, okBind, pyIn, href, htype, hprops, Option.isSome, pyGetItem,
      pyEqStr, Bool.false_eq_true, if_false, if_true]
    cases hl : anyOfLoop pt nm sid (i + 1) rest st with
    | error e => simp [hl, Except.map, okBind, errBind]
    | ok pr => obtain ⟨ts, st2⟩ := pr; simp [hl, Except.map, okBind, errBind]
  · intro pt nm sid i alt kvs rest st halt href htype
    subst halt
    simp only [anyOfLoop, okBind, pyIn, href, htype, Option.isSome,
      Bool.false_eq_true, if_false, if_true]
    cases hl : anyOfLoop pt nm sid (i + 1) rest st with
    | error e => simp [hl, Except.map, okBind, errBind]
    | ok pr => obtain ⟨ts, st2⟩ := pr; simp [hl, Except.map, okBind, errBind]

/-- Witness for C6: each alternative kind at a concrete input, with
`processType 1` as the threaded recursive processor. -/
theorem c6_witness :
    anyOfLoop (processType 1) "A" "schema_A" 0
        [Json.obj [("$ref", Json.str "#/components/schemas/X")]] initState =
      (anyOfLoop (processType 1) "A" "schema_A" 1 []
          (addEdge "schema_A" "schema_X" "anyOf[0]" initState)).map
        (fun pr => (Json.str "X" :: pr.1, pr.2)) ∧
    anyOfLoop (processType 1) "A" "schema_A" 0
        [Json.obj [("type", Json.str "object"),
          ("properties", Json.obj [("q", Json.obj [("type", Json.str "string")])])]]
        initState =
      (processType 1 "A anyOf 0"
          (Json.obj [("type", Json.str "object"),
            ("properties", Json.obj [("q", Json.obj [("type", Json.str "string")])])])
          "schema_A_anyOf_0" initState) >>= (fun st1 =>
        (anyOfLoop (processType 1) "A" "schema_A" 1 []
            (addEdge "schema_A" "schema_A_anyOf_0" "anyOf[0]" st1)).map
          (fun pr => (Json.str "object" :: pr.1, pr.2))) ∧
    anyOfLoop (processType 1) "A" "schema_A" 0
        [Json.obj [("type", Json.str "string")]] initState =
      (anyOfLoop (processType 1) "A" "schema_A" 1 [] initState).map
        (fun pr => (Json.str "string" :: pr.1, pr.2)) ∧
    anyOfLoop (processType 1) "A" "schema_A" 0
        [Json.obj [("type", Json.str "object")]] initState =
      (anyOfLoop (processType 1) "A" "schema_A" 1 [] initState).map
        (fun pr => (Json.str "object" :: pr.1, pr.2)) ∧
    anyOfLoop (processType 1) "A" "schema_A" 0
        [Json.obj [("description", Json.str "d")]] initState =
      (anyOfLoop (processType 1) "A" "schema_A" 1 [] initState).map
        (fun pr => (Json.str "unknown" :: pr.1, pr.2)) :=
  ⟨(c6_anyof_alternatives.1 (processType 1) "A" "schema_A" 0 _ _ []
      "#/components/schemas/X" initState (by rfl) (by rfl)).trans (by rfl),
   c6_anyof_alternatives.2.1 (processType 1) "A" "schema_A" 0 _ _ []
      (Json.obj [("q", Json.obj [("type", Json.str "string")])]) initState
      (by rfl) (by rfl) (by rfl) (by rfl),
   c6_anyof_alternatives.2.2.1 (processType 1) "A" "schema_A" 0 _ _ []
      (Json.str "string") initState (by rfl) (by rfl) (by rfl) (by rfl),
   c6_anyof_alternatives.2.2.2.1 (processType 1) "A" "schema_A" 0 _ _ [] initState
      (by rfl) (by rfl) (by rfl) (by rfl),
   c6_anyof_alternatives.2.2.2.2.1 (processType 1) "A" "schema_A" 0 _ _ [] initState
      (by rfl) (by rfl) (by rfl)⟩

/-- C10: when an inline object-with-properties is discovered during traversal
and recursively processed, only its `type` and `properties` fields matter:
the recursive call receives the freshly built
`{type: object, properties: <p>}` node, so any other fields the inline object
carries (its own `additionalProperties`, `enum`, ...) are silently discarded
and contribute no nodes, edges, or label content.  Stated as output
invariance at each of the three discovery sites — an object property
(`_properties_as_html_table` line 124-130), an `anyOf` alternative
(`_process_type` lines 203-208), and typed-object array items
(`_process_type` lines 275-280): two inline values agreeing on the absence of
`$ref`/`anyOf`, on `type: object`, and on their `properties` value produce
identical translation output however their remaining fields differ. -/
theorem c10_inline_object_strip :
    (∀ (pt : ProcessFn) (parentId p : String) (kvs kvs' : List (String × Json))
       (pv : Json) (rest : List (String × Json)) (st : GState),
       Json.lookup "$ref" kvs = none → Json.lookup "$ref" kvs' = none →
       Json.lookup "anyOf" kvs = none → Json.lookup "anyOf" kvs' = none →
       Json.lookup "type" kvs = some (Json.str "object") →
       Json.lookup "type" kvs' = some (Json.str "object") →
       Json.lookup "properties" kvs = some pv →
       Json.lookup "properties" kvs' = some pv →
       propsRows pt parentId ((p, Json.obj kvs) :: rest) st =
         propsRows pt parentId ((p, Json.obj kvs') :: rest) st) ∧
    (∀ (pt : ProcessFn) (nm sid : String) (i : Nat) (kvs kvs' : List (String × Json))
       (pv : Json) (rest : List Json) (st : GState),
       Json.lookup "$ref" kvs = none → Json.lookup "$ref" kvs' = none →
       Json.lookup "type" kvs = some (Json.str "object") →
       Json.lookup "type" kvs' = some (Json.str "object") →
       Json.lookup "properties" kvs = some pv →
       Json.lookup "properties" kvs' = some pv →
       anyOfLoop pt nm sid i (Json.obj kvs :: rest) st =
         anyOfLoop pt nm sid i (Json.obj kvs' :: rest) st) ∧
    (∀ (fuel : Nat) (nm id : String) (kvs kvs' : List (String × Json))
       (pv : Json) (st : GState),
       Json.lookup "$ref" kvs = none → Json.lookup "$ref" kvs' = none →
       Json.lookup "anyOf" kvs = none → Json.lookup "anyOf" kvs' = none →
       Json.lookup "type" kvs = some (Json.str "object") →
       Json.lookup "type" kvs' = some (Json.str "object") →
       Json.lookup "properties" kvs = some pv →
       Json.lookup "properties" kvs' = some pv →
       processType (fuel + 1) nm
           (Json.obj [("type", Json.str "array"), ("items", Json.obj kvs)]) id st =
         processType (fuel + 1) nm
           (Json.obj [("type", Json.str "array"), ("items", Json.obj kvs')]) id st) := by
  refine ⟨?_, ?_, ?_⟩
  · intro pt parentId p kvs kvs' pv rest st hr hr' ha ha' ht ht' hp hp'
    simp [propsRows, okBind, getPropertyTypeLabel, portCond, propEdges,
      pyIn, pyGet, pyGetItem, hr, hr', ha, ha', ht, ht', hp, hp',
      Option.isSome, Option.getD, pyEqStr, pyStr]
  · intro pt nm sid i kvs kvs' pv rest st hr hr' ht ht' hp hp'
    simp [anyOfLoop, okBind, pyIn, pyGetItem, hr, hr', ht, ht', hp, hp',
      Option.isSome, pyEqStr]
  · intro fuel nm id kvs kvs' pv st hr hr' ha ha' ht ht' hp hp'
    simp only [processType]
    delta processTypeGo
    by_cases hmem : id ∈ st.visited
    · rw [if_pos hmem, if_pos hmem]
    · rw [if_neg hmem, if_neg hmem]
      simp [okBind, pyIn, pyGet, pyGetItem, Json.lookup, hr, hr', ha, ha',
        ht, ht', hp, hp', Option.isSome, Option.getD, pyEqStr, pyStr]

/-- Witness for C10: an inline object carrying extra `enum` and
`additionalProperties` fields behaves exactly like the stripped
`{type, properties}` version at all three sites. -/
theorem c10_witness :
    propsRows (processType 1) "schema_P"
        [("q", Json.obj [("type", Json.str "object"),
          ("properties", Json.obj [("z", Json.obj [("type", Json.str "string")])]),
          ("enum", Json.arr [Json.num 1]),
          ("additionalProperties", Json.obj [("type", Json.str "string")])])]
        initState =
      propsRows (processType 1) "schema_P"
        [("q", Json.obj [("type", Json.str "object"),
          ("properties", Json.obj [("z", Json.obj [("type", Json.str "string")])])])]
        initState ∧
    anyOfLoop (processType 1) "A" "schema_A" 0
        [Json.obj [("type", Json.str "object"),
          ("properties", Json.obj [("z", Json.obj [("type", Json.str "string")])]),
          ("enum", Json.arr [Json.num 1])]]
        initState =
      anyOfLoop (processType 1) "A" "schema_A" 0
        [Json.obj [("type", Json.str "object"),
          ("properties", Json.obj [("z", Json.obj [("type", Json.str "string")])])]]
        initState ∧
    processType 2 "Arr"
        (Json.obj [("type", Json.str "array"),
          ("items", Json.obj [("type", Json.str "object"),
            ("properties", Json.obj [("z", Json.obj [("type", Json.str "string")])]),
            ("enum", Json.arr [Json.num 1])])])
        "schema_Arr" initState =
      processType 2 "Arr"
        (Json.obj [("type", Json.str "array"),
          ("items", Json.obj [("type", Json.str "object"),
            ("properties", Json.obj [("z", Json.obj [("type", Json.str "string")])])])])
        "schema_Arr" initState :=
  ⟨c10_inline_object_strip.1 (processType 1) "schema_P" "q" _ _
      (Json.obj [("z", Json.obj [("type", Json.str "string")])]) [] initState
      (by rfl) (by rfl) (by rfl) (by rfl) (by rfl) (by rfl) (by rfl) (by rfl),
   c10_inline_object_strip.2.1 (processType 1) "A" "schema_A" 0 _ _
      (Json.obj [("z", Json.obj [("type", Json.str "string")])]) [] initState
      (by rfl) (by rfl) (by rfl) (by rfl) (by rfl) (by rfl),
   c10_inline_object_strip.2.2 1 "Arr" "schema_Arr" _ _
      (Json.obj [("z", Json.obj [("type", Json.str "string")])]) initState
      (by rfl) (by rfl) (by rfl) (by rfl) (by rfl) (by rfl) (by rfl) (by rfl)⟩

mutual

/-- Well-typedness of a schema node as the code consumes it: a mapping whose
recognized fields carry values of the expected runtime type (`$ref` a string,
`anyOf` a list of well-typed nodes, `type` a string, `properties` a mapping
of well-typed nodes, `items` a well-typed node, `additionalProperties`
well-typed when it is a mapping, `enum` a list); unrecognized fields are
unconstrained. -/
def wfNode : Json → Bool
  | .obj kvs => wfFields kvs
  | _ => false

def wfFields : List (String × Json) → Bool
  | [] => true
  | (k, v) :: rest => wfField k v && wfFields rest

def wfField : String → Json → Bool
  | "$ref", v => v.isStr
  | "anyOf", v =>
    (match v with
     | .arr alts => wfList alts
     | _ => false)
  | "type", v => v.isStr
  | "properties", v =>
    (match v with
     | .obj pl => wfProps pl
     | _ => false)
  | "items", v => wfNode v
  | "additionalProperties", v => !v.isObj || wfNode v
  | "enum", v => v.isArr
  | _, _ => true

def wfList : List Json → Bool
  | [] => true
  | x :: xs => wfNode x && wfList xs

def wfProps : List (String × Json) → Bool
  | [] => true
  | (_, v) :: rest => wfNode v && wfProps rest

end

mutual

/-- Nesting depth of a parsed value (scalars have depth 1). -/
def Json.depth : Json → Nat
  | .arr xs => 1 + depthList xs
  | .obj kvs => 1 + depthFields kvs
  | _ => 1

def depthList : List Json → Nat
  | [] => 0
  | x :: xs => Nat.max x.depth (depthList xs)

def depthFields : List (String × Json) → Nat
  | [] => 0
  | (_, v) :: kvs => Nat.max v.depth (depthFields kvs)

end

theorem wfFields_lookup : ∀ {kvs : List (String × Json)} {k : String} {v : Json},
    wfFields kvs = true → Json.lookup k kvs = some v → wfField k v = true := by
  intro kvs
  induction kvs with
  | nil => intro k v _ hl; simp [Json.lookup] at hl
  | cons kv rest ih =>
    intro k v hwf hl
    obtain ⟨k', v'⟩ := kv
    simp only [wfFields, Bool.and_eq_true] at hwf
    simp only [Json.lookup] at hl
    split at hl
    · cases hl
      subst_eqs
      exact hwf.1
    · exact ih hwf.2 hl

theorem wfProps_mem : ∀ {pl : List (String × Json)} {p : String} {v : Json},
    wfProps pl = true → (p, v) ∈ pl → wfNode v = true := by
  intro pl
  induction pl with
  | nil => intro p v _ hm; simp at hm
  | cons kv rest ih =>
    intro p v hwf hm
    obtain ⟨k', v'⟩ := kv
    simp only [wfProps, Bool.and_eq_true] at hwf
    rcases List.mem_cons.mp hm with h | h
    · cases h
      exact hwf.1
    · exact ih hwf.2 h

theorem wfList_mem : ∀ {alts : List Json} {a : Json},
    wfList alts = true → a ∈ alts → wfNode a = true := by
  intro alts
  induction alts with
  | nil => intro a _ hm; simp at hm
  | cons x rest ih =>
    intro a hwf hm
    simp only [wfList, Bool.and_eq_true] at hwf
    rcases List.mem_cons.mp hm with h | h
    · subst h; exact hwf.1
    · exact ih hwf.2 h

theorem depthFields_lookup : ∀ {kvs : List (String × Json)} {k : String} {v : Json},
    Json.lookup k kvs = some v → v.depth ≤ depthFields kvs := by
  intro kvs
  induction kvs with
  | nil => intro k v hl; simp [Json.lookup] at hl
  | cons kv rest ih =>
    intro k v hl
    obtain ⟨k', v'⟩ := kv
    simp only [Json.lookup] at hl
    simp only [depthFields]
    split at hl
    · cases hl
      exact Nat.le_max_left _ _
    · exact le_trans (ih hl) (Nat.le_max_right _ _)

theorem depthFields_mem : ∀ {kvs : List (String × Json)} {p : String} {v : Json},
    (p, v) ∈ kvs → v.depth ≤ depthFields kvs := by
  intro kvs
  induction kvs with
  | nil => intro p v hm; simp at hm
  | cons kv rest ih =>
    intro p v hm
    obtain ⟨k', v'⟩ := kv
    simp only [depthFields]
    rcases List.mem_cons.mp hm with h | h
    · cases h
      exact Nat.le_max_left _ _
    · exact le_trans (ih h) (Nat.le_max_right _ _)

theorem depthList_mem : ∀ {xs : List Json} {a : Json},
    a ∈ xs → a.depth ≤ depthList xs := by
  intro xs
  induction xs with
  | nil => intro a hm; simp at hm
  | cons x rest ih =>
    intro a hm
    simp only [depthList]
    rcases List.mem_cons.mp hm with h | h
    · subst h
      exact Nat.le_max_left _ _
    · exact le_trans (ih h) (Nat.le_max_right _ _)

theorem depth_pos : ∀ (x : Json), 1 ≤ x.depth := by
  intro x
  cases x <;> simp [Json.depth]

theorem asStrList_map : ∀ ss : List String, asStrList (ss.map Json.str) = .ok ss := by
  intro ss
  induction ss with
  | nil => rfl
  | cons s rest ih => simp [asStrList, ih, Except.map]

theorem anyOfTypeNamesTotal : ∀ (alts : List Json), wfList alts = true →
    ∃ ss : List String, anyOfTypeNames alts = .ok (ss.map Json.str) := by
  intro alts
  induction alts with
  | nil => intro _; exact ⟨[], rfl⟩
  | cons alt rest ih =>
    intro hwf
    simp only [wfList, Bool.and_eq_true] at hwf
    obtain ⟨ss, hss⟩ := ih hwf.2
    cases alt with
    | obj kvs =>
      cases hr : Json.lookup "$ref" kvs with
      | some v =>
        have hf := wfFields_lookup (by simpa [wfNode] using hwf.1) hr
        cases v with
        | str s =>
          exact ⟨lastSegment s :: ss, by
            simp [anyOfTypeNames, pyIn, pyGetItem, pySplitLast, hr, hss, okBind]⟩
        | null => simp [wfField, Json.isStr] at hf
        | bool b => simp [wfField, Json.isStr] at hf
        | num n => simp [wfField, Json.isStr] at hf
        | arr xs => simp [wfField, Json.isStr] at hf
        | obj o => simp [wfField, Json.isStr] at hf
      | none =>
        cases ht : Json.lookup "type" kvs with
        | some v =>
          have hf := wfFields_lookup (by simpa [wfNode] using hwf.1) ht
          cases v with
          | str s =>
            exact ⟨s :: ss, by
              simp [anyOfTypeNames, pyIn, pyGetItem, hr, ht, hss, okBind]⟩
          | null => simp [wfField, Json.isStr] at hf
          | bool b => simp [wfField, Json.isStr] at hf
          | num n => simp [wfField, Json.isStr] at hf
          | arr xs => simp [wfField, Json.isStr] at hf
          | obj o => simp [wfField, Json.isStr] at hf
        | none =>
          exact ⟨"unknown" :: ss, by
            simp [anyOfTypeNames, pyIn, pyGetItem, hr, ht, hss, okBind]⟩
    | null => simp [wfNode] at hwf
    | bool b => simp [wfNode] at hwf
    | num n => simp [wfNode] at hwf
    | str s => simp [wfNode] at hwf
    | arr xs => simp [wfNode] at hwf

theorem isStr_elim : ∀ {v : Json}, v.isStr = true → ∃ s, v = Json.str s := by
  intro v h
  cases v <;> simp [Json.isStr] at h ⊢

theorem isArr_elim : ∀ {v : Json}, v.isArr = true → ∃ xs, v = Json.arr xs := by
  intro v h
  cases v <;> simp [Json.isArr] at h ⊢

theorem isObj_elim : ∀ {v : Json}, v.isObj = true → ∃ kvs, v = Json.obj kvs := by
  intro v h
  cases v <;> simp [Json.isObj] at h ⊢

theorem wfAnyOf_elim : ∀ {v : Json}, wfField "anyOf" v = true →
    ∃ alts, v = Json.arr alts ∧ wfList alts = true := by
  intro v h
  cases v <;> simp [wfField] at h ⊢ <;> exact h

theorem wfPropsField_elim : ∀ {v : Json}, wfField "properties" v = true →
    ∃ pl, v = Json.obj pl ∧ wfProps pl = true := by
  intro v h
  cases v <;> simp [wfField] at h ⊢ <;> exact h

theorem wfNode_elim : ∀ {v : Json}, wfNode v = true →
    ∃ kvs, v = Json.obj kvs ∧ wfFields kvs = true := by
  intro v h
  cases v <;> simp [wfNode] at h ⊢ <;> exact h

theorem portCondTotal : ∀ (kvs : List (String × Json)),
    ∃ b, portCond (Json.obj kvs) = .ok b := by
  intro kvs
  simp only [portCond, pyIn, pyGet, okBind]
  split_ifs <;> exact ⟨_, rfl⟩

theorem gptlTotal : ∀ (pd : Json), wfNode pd = true →
    ∃ s, getPropertyTypeLabel pd = .ok s := by
  intro pd hwf
  obtain ⟨kvs, rfl, hkvs⟩ := wfNode_elim hwf
  cases hr : Json.lookup "$ref" kvs with
  | some v =>
    obtain ⟨s, rfl⟩ := isStr_elim (by simpa [wfField] using wfFields_lookup hkvs hr)
    exact ⟨"reference to " ++ lastSegment s, by
      simp [getPropertyTypeLabel, pyIn, pyGetItem, pySplitLast, hr, okBind]⟩
  | none =>
    cases ha : Json.lookup "anyOf" kvs with
    | some v =>
      obtain ⟨alts, rfl, halts⟩ := wfAnyOf_elim (wfFields_lookup hkvs ha)
      obtain ⟨ss, hss⟩ := anyOfTypeNamesTotal alts halts
      exact ⟨"anyOf: " ++ joinSep ", " ss, by
        simp [getPropertyTypeLabel, pyIn, pyGetItem, pyIter, hr, ha, hss,
          pyJoin, asStrList_map, okBind, Except.map]⟩
    | none =>
      cases ht : Json.lookup "type" kvs with
      | some v =>
        obtain ⟨t, rfl⟩ := isStr_elim (by simpa [wfField] using wfFields_lookup hkvs ht)
        by_cases hta : t = "array"
        · subst hta
          cases hi : Json.lookup "items" kvs with
          | some it =>
            have hit : wfNode it = true := by
              simpa [wfField] using wfFields_lookup hkvs hi
            obtain ⟨ikvs, rfl, hikvs⟩ := wfNode_elim hit
            cases hir : Json.lookup "$ref" ikvs with
            | some v =>
              obtain ⟨s, rfl⟩ := isStr_elim
                (by simpa [wfField] using wfFields_lookup hikvs hir)
              exact ⟨"array of " ++ lastSegment s, by
                simp [getPropertyTypeLabel, pyIn, pyGetItem, pySplitLast, pyEqStr,
                  hr, ha, ht, hi, hir, okBind]⟩
            | none =>
              cases hia : Json.lookup "anyOf" ikvs with
              | some v =>
                obtain ⟨alts, rfl, halts⟩ := wfAnyOf_elim (wfFields_lookup hikvs hia)
                obtain ⟨ss, hss⟩ := anyOfTypeNamesTotal alts halts
                exact ⟨"array of anyOf: " ++ joinSep ", " ss, by
                  simp [getPropertyTypeLabel, pyIn, pyGetItem, pyIter, pyEqStr,
                    hr, ha, ht, hi, hir, hia, hss, pyJoin, asStrList_map, okBind,
                    Except.map]⟩
              | none =>
                cases hity : Json.lookup "type" ikvs with
                | some v =>
                  exact ⟨"array of " ++ pyStr v, by
                    simp [getPropertyTypeLabel, pyIn, pyGetItem, pyEqStr,
                      hr, ha, ht, hi, hir, hia, hity, okBind]⟩
                | none =>
                  exact ⟨"array", by
                    simp [getPropertyTypeLabel, pyIn, pyGetItem, pyEqStr,
                      hr, ha, ht, hi, hir, hia, hity, okBind]⟩
          | none =>
            exact ⟨"array", by
              simp [getPropertyTypeLabel, pyIn, pyGetItem, pyEqStr, hr, ha, ht, hi,
                okBind]⟩
        · have hq : pyEqStr (Json.str t) "array" = false := by simp [pyEqStr, hta]
          exact ⟨t, by
            simp [getPropertyTypeLabel, pyIn, pyGetItem, pyStr, hr, ha, ht, hq,
              Bool.false_eq_true, if_false, okBind]⟩
      | none =>
        exact ⟨"unknown", by simp [getPropertyTypeLabel, pyIn, hr, ha, ht, okBind]⟩

theorem wrapper_wf : ∀ {pl : List (String × Json)}, wfProps pl = true →
    wfNode (Json.obj [("type", Json.str "object"),
      ("properties", Json.obj pl)]) = true := by
  intro pl h
  simp [wfNode, wfFields, wfField, Json.isStr, h]

theorem wrapper_depth_le : ∀ {kvs : List (String × Json)} {pl : List (String × Json)},
    Json.lookup "properties" kvs = some (Json.obj pl) →
    (Json.obj [("type", Json.str "object"),
      ("properties", Json.obj pl)]).depth ≤ (Json.obj kvs).depth := by
  intro kvs pl h
  have hle := depthFields_lookup h
  simp only [Json.depth, depthFields] at hle ⊢
  have h1 : Nat.max (1 + depthFields pl) 0 = 1 + depthFields pl :=
    Nat.max_eq_left (Nat.zero_le _)
  have h2 : Nat.max 1 (Nat.max (1 + depthFields pl) 0) = 1 + depthFields pl := by
    rw [h1]
    exact Nat.max_eq_right (by omega)
  rw [h2]
  omega

theorem propAnyOfLoopTotal {pt : ProcessFn} {n : Nat}
    (hpt : ∀ nm s i st, wfNode s = true → s.depth ≤ n →
      ∃ st', pt nm s i st = .ok st')
    (pn po pa : String) :
    ∀ (alts : List Json) (i : Nat) (st : GState),
      (∀ a ∈ alts, wfNode a = true ∧ a.depth ≤ n) →
      ∃ st', propAnyOfLoop pt pn po pa i alts st = .ok st' := by
  intro alts
  induction alts with
  | nil => intro i st _; exact ⟨st, rfl⟩
  | cons alt rest ih =>
    intro i st hwf
    obtain ⟨ha, hd⟩ := hwf alt (List.mem_cons_self _ _)
    have hrest : ∀ a ∈ rest, wfNode a = true ∧ a.depth ≤ n :=
      fun a hm => hwf a (List.mem_cons_of_mem _ hm)
    obtain ⟨kvs, rfl, hkvs⟩ := wfNode_elim ha
    cases hr : Json.lookup "$ref" kvs with
    | some v =>
      obtain ⟨s, rfl⟩ := isStr_elim (by simpa [wfField] using wfFields_lookup hkvs hr)
      obtain ⟨st', hst'⟩ := ih (i + 1)
        (addEdge (pa ++ ":" ++ po) ("schema_" ++ lastSegment s)
          (pn ++ " (anyOf[" ++ toString i ++ "])") st) hrest
      exact ⟨st', by
        simp [propAnyOfLoop, pyIn, pyGetItem, pySplitLast, hr, okBind, hst']⟩
    | none =>
      cases ht : Json.lookup "type" kvs with
      | some v =>
        obtain ⟨t, rfl⟩ := isStr_elim (by simpa [wfField] using wfFields_lookup hkvs ht)
        by_cases hto : t = "object"
        · subst hto
          cases hp : Json.lookup "properties" kvs with
          | some pv =>
            obtain ⟨pl, rfl, hpl⟩ :=
              wfPropsField_elim (wfFields_lookup hkvs hp)
            obtain ⟨st1, hst1⟩ := hpt (pn ++ " anyOf " ++ toString i)
              (Json.obj [("type", Json.str "object"), ("properties", Json.obj pl)])
              (pa ++ "_" ++ pn ++ "_anyOf_" ++ toString i) st
              (wrapper_wf hpl) (le_trans (wrapper_depth_le hp) hd)
            obtain ⟨st', hst'⟩ := ih (i + 1)
              (addEdge (pa ++ ":" ++ po) (pa ++ "_" ++ pn ++ "_anyOf_" ++ toString i)
                (pn ++ " (anyOf[" ++ toString i ++ "])") st1) hrest
            exact ⟨st', by
              simp [propAnyOfLoop, pyIn, pyGetItem, pyEqStr, hr, ht, hp, hst1, hst',
                okBind]⟩
          | none =>
            obtain ⟨st', hst'⟩ := ih (i + 1) st hrest
            exact ⟨st', by
              simp [propAnyOfLoop, pyIn, pyGetItem, pyEqStr, hr, ht, hp, hst',
                okBind]⟩
        · have hq : pyEqStr (Json.str t) "object" = false := by simp [pyEqStr, hto]
          obtain ⟨st', hst'⟩ := ih (i + 1) st hrest
          exact ⟨st', by
            simp [propAnyOfLoop, pyIn, pyGetItem, hr, ht, hq, Bool.false_eq_true,
              if_false, hst', okBind]⟩
      | none =>
        obtain ⟨st', hst'⟩ := ih (i + 1) st hrest
        exact ⟨st', by
          simp [propAnyOfLoop, pyIn, pyGetItem, hr, ht, hst', okBind]⟩

theorem propArrayAnyOfLoopTotal {pt : ProcessFn} {n : Nat}
    (hpt : ∀ nm s i st, wfNode s = true → s.depth ≤ n →
      ∃ st', pt nm s i st = .ok st')
    (pn po pa : String) :
    ∀ (alts : List Json) (i : Nat) (st : GState),
      (∀ a ∈ alts, wfNode a = true ∧ a.depth ≤ n) →
      ∃ st', propArrayAnyOfLoop pt pn po pa i alts st = .ok st' := by
  intro alts
  induction alts with
  | nil => intro i st _; exact ⟨st, rfl⟩
  | cons alt rest ih =>
    intro i st hwf
    obtain ⟨ha, hd⟩ := hwf alt (List.mem_cons_self _ _)
    have hrest : ∀ a ∈ rest, wfNode a = true ∧ a.depth ≤ n :=
      fun a hm => hwf a (List.mem_cons_of_mem _ hm)
    obtain ⟨kvs, rfl, hkvs⟩ := wfNode_elim ha
    cases hr : Json.lookup "$ref" kvs with
    | some v =>
      obtain ⟨s, rfl⟩ := isStr_elim (by simpa [wfField] using wfFields_lookup hkvs hr)
      obtain ⟨st', hst'⟩ := ih (i + 1)
        (addEdge (pa ++ ":" ++ po) ("schema_" ++ lastSegment s)
          (pn ++ " (array anyOf[" ++ toString i ++ "])") st) hrest
      exact ⟨st', by
        simp [propArrayAnyOfLoop, pyIn, pyGetItem, pySplitLast, hr, okBind, hst']⟩
    | none =>
      cases ht : Json.lookup "type" kvs with
      | some v =>
        obtain ⟨t, rfl⟩ := isStr_elim (by simpa [wfField] using wfFields_lookup hkvs ht)
        by_cases hto : t = "object"
        · subst hto
          cases hp : Json.lookup "properties" kvs with
          | some pv =>
            obtain ⟨pl, rfl, hpl⟩ :=
              wfPropsField_elim (wfFields_lookup hkvs hp)
            obtain ⟨st1, hst1⟩ := hpt (pn ++ " array anyOf " ++ toString i)
              (Json.obj [("type", Json.str "object"), ("properties", Json.obj pl)])
              (pa ++ "_" ++ pn ++ "_array_anyOf_" ++ toString i) st
              (wrapper_wf hpl) (le_trans (wrapper_depth_le hp) hd)
            obtain ⟨st', hst'⟩ := ih (i + 1)
              (addEdge (pa ++ ":" ++ po)
                (pa ++ "_" ++ pn ++ "_array_anyOf_" ++ toString i)
                (pn ++ " (array anyOf[" ++ toString i ++ "])") st1) hrest
            exact ⟨st', by
              simp [propArrayAnyOfLoop, pyIn, pyGetItem, pyEqStr, hr, ht, hp, hst1,
                hst', okBind]⟩
          | none =>
            obtain ⟨st', hst'⟩ := ih (i + 1) st hrest
            exact ⟨st', by
              simp [propArrayAnyOfLoop, pyIn, pyGetItem, pyEqStr, hr, ht, hp, hst',
                okBind]⟩
        · have hq : pyEqStr (Json.str t) "object" = false := by simp [pyEqStr, hto]
          obtain ⟨st', hst'⟩ := ih (i + 1) st hrest
          exact ⟨st', by
            simp [propArrayAnyOfLoop, pyIn, pyGetItem, hr, ht, hq, Bool.false_eq_true,
              if_false, hst', okBind]⟩
      | none =>
        obtain ⟨st', hst'⟩ := ih (i + 1) st hrest
        exact ⟨st', by
          simp [propArrayAnyOfLoop, pyIn, pyGetItem, hr, ht, hst', okBind]⟩

theorem anyOfLoopTotal {pt : ProcessFn} {n : Nat}
    (hpt : ∀ nm s i st, wfNode s = true → s.depth ≤ n →
      ∃ st', pt nm s i st = .ok st')
    (nm sid : String) :
    ∀ (alts : List Json) (i : Nat) (st : GState),
      (∀ a ∈ alts, wfNode a = true ∧ a.depth ≤ n) →
      ∃ (ss : List String) (st' : GState),
        anyOfLoop pt nm sid i alts st = .ok (ss.map Json.str, st') := by
  intro alts
  induction alts with
  | nil => intro i st _; exact ⟨[], st, rfl⟩
  | cons alt rest ih =>
    intro i st hwf
    obtain ⟨ha, hd⟩ := hwf alt (List.mem_cons_self _ _)
    have hrest : ∀ a ∈ rest, wfNode a = true ∧ a.depth ≤ n :=
      fun a hm => hwf a (List.mem_cons_of_mem _ hm)
    obtain ⟨kvs, rfl, hkvs⟩ := wfNode_elim ha
    cases hr : Json.lookup "$ref" kvs with
    | some v =>
      obtain ⟨s, rfl⟩ := isStr_elim (by simpa [wfField] using wfFields_lookup hkvs hr)
      obtain ⟨ss, st', hst'⟩ := ih (i + 1)
        (addEdge sid ("schema_" ++ lastSegment s)
          ("anyOf[" ++ toString i ++ "]") st) hrest
      exact ⟨lastSegment s :: ss, st', by
        simp [anyOfLoop, pyIn, pyGetItem, pySplitLast, hr, okBind, hst']⟩
    | none =>
      cases ht : Json.lookup "type" kvs with
      | some v =>
        obtain ⟨t, rfl⟩ := isStr_elim (by simpa [wfField] using wfFields_lookup hkvs ht)
        by_cases hto : t = "object"
        · subst hto
          cases hp : Json.lookup "properties" kvs with
          | some pv =>
            obtain ⟨pl, rfl, hpl⟩ :=
              wfPropsField_elim (wfFields_lookup hkvs hp)
            obtain ⟨st1, hst1⟩ := hpt (nm ++ " anyOf " ++ toString i)
              (Json.obj [("type", Json.str "object"), ("properties", Json.obj pl)])
              (sid ++ "_anyOf_" ++ toString i) st
              (wrapper_wf hpl) (le_trans (wrapper_depth_le hp) hd)
            obtain ⟨ss, st', hst'⟩ := ih (i + 1)
              (addEdge sid (sid ++ "_anyOf_" ++ toString i)
                ("anyOf[" ++ toString i ++ "]") st1) hrest
            exact ⟨"object" :: ss, st', by
              simp [anyOfLoop, pyIn, pyGetItem, pyEqStr, hr, ht, hp, hst1, hst',
                okBind]⟩
          | none =>
            obtain ⟨ss, st', hst'⟩ := ih (i + 1) st hrest
            exact ⟨"object" :: ss, st', by
              simp [anyOfLoop, pyIn, pyGetItem, pyEqStr, hr, ht, hp, hst', okBind]⟩
        · have hq : pyEqStr (Json.str t) "object" = false := by simp [pyEqStr, hto]
          obtain ⟨ss, st', hst'⟩ := ih (i + 1) st hrest
          exact ⟨t :: ss, st', by
            simp [anyOfLoop, pyIn, pyGetItem, hr, ht, hq, Bool.false_eq_true,
              if_false, hst', okBind]⟩
      | none =>
        obtain ⟨ss, st', hst'⟩ := ih (i + 1) st hrest
        exact ⟨"unknown" :: ss, st', by
          simp [anyOfLoop, pyIn, pyGetItem, hr, ht, hst', okBind]⟩

theorem itemsAnyOfLoopTotal {pt : ProcessFn} {n : Nat}
    (hpt : ∀ nm s i st, wfNode s = true → s.depth ≤ n →
      ∃ st', pt nm s i st = .ok st')
    (nm sid : String) :
    ∀ (alts : List Json) (i : Nat) (st : GState),
      (∀ a ∈ alts, wfNode a = true ∧ a.depth ≤ n) →
      ∃ (ss : List String) (st' : GState),
        itemsAnyOfLoop pt nm sid i alts st = .ok (ss.map Json.str, st') := by
  intro alts
  induction alts with
  | nil => intro i st _; exact ⟨[], st, rfl⟩
  | cons alt rest ih =>
    intro i st hwf
    obtain ⟨ha, hd⟩ := hwf alt (List.mem_cons_self _ _)
    have hrest : ∀ a ∈ rest, wfNode a = true ∧ a.depth ≤ n :=
      fun a hm => hwf a (List.mem_cons_of_mem _ hm)
    obtain ⟨kvs, rfl, hkvs⟩ := wfNode_elim ha
    cases hr : Json.lookup "$ref" kvs with
    | some v =>
      obtain ⟨s, rfl⟩ := isStr_elim (by simpa [wfField] using wfFields_lookup hkvs hr)
      obtain ⟨ss, st', hst'⟩ := ih (i + 1)
        (addEdge sid ("schema_" ++ lastSegment s)
          ("items anyOf[" ++ toString i ++ "]") st) hrest
      exact ⟨lastSegment s :: ss, st', by
        simp [itemsAnyOfLoop, pyIn, pyGetItem, pySplitLast, hr, okBind, hst']⟩
    | none =>
      cases ht : Json.lookup "type" kvs with
      | some v =>
        obtain ⟨t, rfl⟩ := isStr_elim (by simpa [wfField] using wfFields_lookup hkvs ht)
        by_cases hto : t = "object"
        · subst hto
          cases hp : Json.lookup "properties" kvs with
          | some pv =>
            obtain ⟨pl, rfl, hpl⟩ :=
              wfPropsField_elim (wfFields_lookup hkvs hp)
            obtain ⟨st1, hst1⟩ := hpt (nm ++ " items anyOf " ++ toString i)
              (Json.obj [("type", Json.str "object"), ("properties", Json.obj pl)])
              (sid ++ "_items_anyOf_" ++ toString i) st
              (wrapper_wf hpl) (le_trans (wrapper_depth_le hp) hd)
            obtain ⟨ss, st', hst'⟩ := ih (i + 1)
              (addEdge sid (sid ++ "_items_anyOf_" ++ toString i)
                ("items anyOf[" ++ toString i ++ "]") st1) hrest
            exact ⟨"object" :: ss, st', by
              simp [itemsAnyOfLoop, pyIn, pyGetItem, pyEqStr, hr, ht, hp, hst1, hst',
                okBind]⟩
          | none =>
            obtain ⟨ss, st', hst'⟩ := ih (i + 1) st hrest
            exact ⟨"object" :: ss, st', by
              simp [itemsAnyOfLoop, pyIn, pyGetItem, pyEqStr, hr, ht, hp, hst',
                okBind]⟩
        · have hq : pyEqStr (Json.str t) "object" = false := by simp [pyEqStr, hto]
          obtain ⟨ss, st', hst'⟩ := ih (i + 1) st hrest
          exact ⟨t :: ss, st', by
            simp [itemsAnyOfLoop, pyIn, pyGetItem, hr, ht, hq, Bool.false_eq_true,
              if_false, hst', okBind]⟩
      | none =>
        obtain ⟨ss, st', hst'⟩ := ih (i + 1) st hrest
        exact ⟨"unknown" :: ss, st', by
          simp [itemsAnyOfLoop, pyIn, pyGetItem, hr, ht, hst', okBind]⟩

theorem alts_bound : ∀ {kvs : List (String × Json)} {k : String} {alts : List Json},
    Json.lookup k kvs = some (Json.arr alts) →
    ∀ a ∈ alts, a.depth + 2 ≤ (Json.obj kvs).depth := by
  intro kvs k alts hl a hm
  have h1 := depthFields_lookup hl
  have h2 := depthList_mem hm
  simp only [Json.depth] at h1 ⊢
  omega

theorem items_bound : ∀ {kvs : List (String × Json)} {it : Json},
    Json.lookup "items" kvs = some it → it.depth + 1 ≤ (Json.obj kvs).depth := by
  intro kvs it hl
  have h1 := depthFields_lookup hl
  simp only [Json.depth]
  omega

theorem propEdgesTotal {pt : ProcessFn} {n : Nat}
    (hpt : ∀ nm s i st, wfNode s = true → s.depth ≤ n →
      ∃ st', pt nm s i st = .ok st')
    (pn po pa : String) :
    ∀ (pd : Json) (st : GState), wfNode pd = true → pd.depth ≤ n →
      ∃ st', propEdges pt pn po pa pd st = .ok st' := by
  intro pd st hwf hd
  obtain ⟨kvs, rfl, hkvs⟩ := wfNode_elim hwf
  cases hr : Json.lookup "$ref" kvs with
  | some v =>
    obtain ⟨s, rfl⟩ := isStr_elim (by simpa [wfField] using wfFields_lookup hkvs hr)
    exact ⟨addEdge (pa ++ ":" ++ po) ("schema_" ++ lastSegment s) pn st,
      by simp [propEdges, pyIn, pyGetItem, pySplitLast, hr, okBind]⟩
  | none =>
  cases ha : Json.lookup "anyOf" kvs with
  | some v =>
    obtain ⟨alts, rfl, halts⟩ := wfAnyOf_elim (wfFields_lookup hkvs ha)
    obtain ⟨st', hst'⟩ := propAnyOfLoopTotal hpt pn po pa alts 0 st
      (fun a hm => ⟨wfList_mem halts hm, by have := alts_bound ha a hm; omega⟩)
    exact ⟨st', by simp [propEdges, pyIn, pyGetItem, pyIter, hr, ha, hst', okBind]⟩
  | none =>
  cases hty : Json.lookup "type" kvs with
  | none =>
    exact ⟨st, by simp [propEdges, pyIn, pyGet, hr, ha, hty, pyEqStr, okBind]⟩
  | some tv =>
  obtain ⟨t, rfl⟩ := isStr_elim (by simpa [wfField] using wfFields_lookup hkvs hty)
  by_cases hta : t = "array"
  · subst hta
    cases hit : Json.lookup "items" kvs with
    | none =>
      exact ⟨st, by simp [propEdges, pyIn, pyGet, hr, ha, hty, hit, pyEqStr, okBind]⟩
    | some its =>
    have hits : wfNode its = true := by
      simpa [wfField] using wfFields_lookup hkvs hit
    have hitd : its.depth + 1 ≤ (Json.obj kvs).depth := items_bound hit
    obtain ⟨ikvs, rfl, hikvs⟩ := wfNode_elim hits
    cases hir : Json.lookup "$ref" ikvs with
    | some v =>
      obtain ⟨s, rfl⟩ := isStr_elim (by simpa [wfField] using wfFields_lookup hikvs hir)
      exact ⟨addEdge (pa ++ ":" ++ po) ("schema_" ++ lastSegment s)
          (pn ++ " (array)") st, by
        simp [propEdges, pyIn, pyGet, pyGetItem, pySplitLast, hr, ha, hty, hit, hir,
          pyEqStr, okBind]⟩
    | none =>
    cases hia : Json.lookup "anyOf" ikvs with
    | some v =>
      obtain ⟨alts, rfl, halts⟩ := wfAnyOf_elim (wfFields_lookup hikvs hia)
      obtain ⟨st', hst'⟩ := propArrayAnyOfLoopTotal hpt pn po pa alts 0 st
        (fun a hm => ⟨wfList_mem halts hm, by
          have h1 := alts_bound hia a hm
          omega⟩)
      exact ⟨st', by
        simp [propEdges, pyIn, pyGet, pyGetItem, pyIter, hr, ha, hty, hit, hir, hia,
          pyEqStr, hst', okBind]⟩
    | none =>
    cases hibt : Json.lookup "type" ikvs with
    | none =>
      exact ⟨st, by
        simp [propEdges, pyIn, pyGet, pyGetItem, hr, ha, hty, hit, hir, hia, hibt,
          pyEqStr, okBind]⟩
    | some itv =>
    obtain ⟨tt, rfl⟩ := isStr_elim (by simpa [wfField] using wfFields_lookup hikvs hibt)
    by_cases htto : tt = "object"
    · subst htto
      cases hip : Json.lookup "properties" ikvs with
      | none =>
        exact ⟨st, by
          simp [propEdges, pyIn, pyGet, pyGetItem, hr, ha, hty, hit, hir, hia, hibt,
            hip, pyEqStr, okBind]⟩
      | some pv =>
        obtain ⟨pl, rfl, hpl⟩ := wfPropsField_elim (wfFields_lookup hikvs hip)
        obtain ⟨st1, hst1⟩ := hpt (pn ++ " items")
          (Json.obj [("type", Json.str "object"), ("properties", Json.obj pl)])
          (pa ++ "_" ++ pn ++ "_items") st (wrapper_wf hpl)
          (by have := wrapper_depth_le hip; omega)
        exact ⟨addEdge (pa ++ ":" ++ po) (pa ++ "_" ++ pn ++ "_items")
            (pn ++ " (array)") st1, by
          simp [propEdges, pyIn, pyGet, pyGetItem, hr, ha, hty, hit, hir, hia, hibt,
            hip, pyEqStr, hst1, okBind]⟩
    · have hq : pyEqStr (Json.str tt) "object" = false := by simp [pyEqStr, htto]
      exact ⟨st, by
        simp [propEdges, pyIn, pyGet, pyGetItem, hr, ha, hty, hit, hir, hia, hibt,
          pyEqStr, hq, htto, Bool.false_eq_true, if_false, okBind]⟩
  · by_cases hto : t = "object"
    · subst hto
      cases hp : Json.lookup "properties" kvs with
      | none =>
        exact ⟨st, by simp [propEdges, pyIn, pyGet, hr, ha, hty, hp, pyEqStr, okBind]⟩
      | some pv =>
        obtain ⟨pl, rfl, hpl⟩ := wfPropsField_elim (wfFields_lookup hkvs hp)
        obtain ⟨st1, hst1⟩ := hpt pn
          (Json.obj [("type", Json.str "object"), ("properties", Json.obj pl)])
          (pa ++ "_" ++ pn) st (wrapper_wf hpl)
          (le_trans (wrapper_depth_le hp) hd)
        exact ⟨addEdge (pa ++ ":" ++ po) (pa ++ "_" ++ pn) pn st1, by
          simp [propEdges, pyIn, pyGet, pyGetItem, hr, ha, hty, hp, pyEqStr, hst1,
            okBind]⟩
    · have hq1 : pyEqStr (Json.str t) "array" = false := by simp [pyEqStr, hta]
      have hq2 : pyEqStr (Json.str t) "object" = false := by simp [pyEqStr, hto]
      exact ⟨st, by
        simp [propEdges, pyIn, pyGet, hr, ha, hty, hq1, hq2, hta, hto,
          Bool.false_eq_true, if_false, okBind]⟩

theorem propsRowsTotal {pt : ProcessFn} {n : Nat}
    (hpt : ∀ nm s i st, wfNode s = true → s.depth ≤ n →
      ∃ st', pt nm s i st = .ok st')
    (pa : String) :
    ∀ (props : List (String × Json)) (st : GState),
      (∀ kv ∈ props, wfNode kv.2 = true ∧ kv.2.depth ≤ n) →
      ∃ pr, propsRows pt pa props st = .ok pr := by
  intro props
  induction props with
  | nil => intro st _; exact ⟨("", st), rfl⟩
  | cons kv rest ih =>
    intro st hwf
    obtain ⟨p, pd⟩ := kv
    have hpd : wfNode pd = true := (hwf (p, pd) (List.mem_cons_self _ _)).1
    have hpdd : pd.depth ≤ n := (hwf (p, pd) (List.mem_cons_self _ _)).2
    have hrest : ∀ kv ∈ rest, wfNode kv.2 = true ∧ kv.2.depth ≤ n :=
      fun kv hm => hwf kv (List.mem_cons_of_mem _ hm)
    obtain ⟨s, hs⟩ := gptlTotal pd hpd
    obtain ⟨kvs, hkvs, hkf⟩ := wfNode_elim hpd
    subst hkvs
    obtain ⟨b, hb⟩ := portCondTotal kvs
    obtain ⟨st1, hst1⟩ := propEdgesTotal hpt p ("port_" ++ p) pa (Json.obj kvs) st
      hpd hpdd
    obtain ⟨pr, hpr⟩ := ih st1 hrest
    refine ⟨((if b = true then
        "<TR><TD>" ++ p ++ "</TD><TD PORT=\"" ++ ("port_" ++ p) ++ "\">" ++ s
          ++ "</TD></TR>"
      else
        "<TR><TD>" ++ p ++ "</TD><TD>" ++ s ++ "</TD></TR>") ++ pr.1, pr.2), ?_⟩
    simp [propsRows, hs, hb, hst1, hpr, okBind]

theorem propsTableTotal {pt : ProcessFn} {n : Nat}
    (hpt : ∀ nm s i st, wfNode s = true → s.depth ≤ n →
      ∃ st', pt nm s i st = .ok st')
    (nm pa : String) :
    ∀ (pl : List (String × Json)) (st : GState),
      wfProps pl = true → (∀ kv ∈ pl, kv.2.depth ≤ n) →
      ∃ pr, propsTable pt nm (Json.obj pl) pa st = .ok pr := by
  intro pl st hwf hdep
  by_cases hne : pyTruthy (Json.obj pl) = true
  · obtain ⟨pr, hpr⟩ := propsRowsTotal hpt pa pl st
      (fun kv hm => by
        obtain ⟨a, b⟩ := kv
        exact ⟨wfProps_mem hwf hm, hdep _ hm⟩)
    exact ⟨(tableHeader nm ++ pr.1 ++ "</TABLE>", pr.2), by
      simp [propsTable, hne, pyItems, hpr, okBind]⟩
  · exact ⟨(noPropsTable, st), by simp [propsTable, hne]⟩

set_option maxHeartbeats 2000000 in
theorem processTypeTotal :
    ∀ (fuel : Nat) (nm : String) (schema : Json) (id : String) (st : GState),
      wfNode schema = true → schema.depth ≤ fuel →
      ∃ st', processType fuel nm schema id st = .ok st' ∧
        (id ∉ st.visited → st.nodes.length < st'.nodes.length) := by
  intro fuel
  induction fuel with
  | zero =>
    intro nm schema id st hwf hd
    have := depth_pos schema
    omega
  | succ n ih =>
    have hpts : ∀ nm s i st, wfNode s = true → s.depth ≤ n →
        ∃ st', processType n nm s i st = .ok st' := by
      intro nm s i st hw hd
      obtain ⟨st', h, _⟩ := ih nm s i st hw hd
      exact ⟨st', h⟩
    have hpte : ∀ nm s i st st', processType n nm s i st = .ok st' → GExt st st' :=
      fun nm s i st st' h => (processType_ext n nm s i st st' h).1
    intro nm schema id st hwf hd
    by_cases hmem : id ∈ st.visited
    · refine ⟨st, ?_, fun h => absurd hmem h⟩
      simp only [processType]
      delta processTypeGo
      rw [if_pos hmem]
    · obtain ⟨kvs, rfl, hkvs⟩ := wfNode_elim hwf
      cases hr : Json.lookup "$ref" kvs with
      | some v =>
        obtain ⟨s, rfl⟩ := isStr_elim (by simpa [wfField] using wfFields_lookup hkvs hr)
        refine ⟨addEdge id ("schema_" ++ lastSegment s) "references"
          (addNode id (nodeLabel nm "reference") none (markVisited id st)), ?_, ?_⟩
        · simp only [processType]
          delta processTypeGo
          rw [if_neg hmem]
          simp [pyIn, pyGetItem, pySplitLast, hr, okBind]
        · intro _
          simp [addEdge, addNode, markVisited]
      | none =>
      cases ha : Json.lookup "anyOf" kvs with
      | some v =>
        obtain ⟨alts, rfl, halts⟩ := wfAnyOf_elim (wfFields_lookup hkvs ha)
        have haltb : ∀ a ∈ alts, wfNode a = true ∧ a.depth ≤ n := by
          intro a hm
          refine ⟨wfList_mem halts hm, ?_⟩
          have := alts_bound ha a hm
          omega
        obtain ⟨ss, st2, hloop⟩ :=
          anyOfLoopTotal hpts nm id alts 0 (markVisited id st) haltb
        refine ⟨addNode id (nodeLabel nm ("anyOf: " ++ joinSep ", " ss)) none st2,
          ?_, ?_⟩
        · simp only [processType]
          delta processTypeGo
          rw [if_neg hmem]
          simp [pyIn, pyGetItem, pyIter, hr, ha, hloop, pyJoin, asStrList_map,
            okBind, Except.map]
        · intro _
          have hext := anyOfLoop_ext hpte nm id 0 alts (markVisited id st)
            ⟨ss.map Json.str, st2⟩ hloop
          have hle := hext.2.1.length_le
          simp only [markVisited] at hle
          simp [addNode]
          omega
      | none =>
      have hobjCase :
          (Json.lookup "type" kvs = none ∨
            Json.lookup "type" kvs = some (Json.str "object")) →
          ∃ st', processType (n + 1) nm (Json.obj kvs) id st = .ok st' ∧
            (id ∉ st.visited → st.nodes.length < st'.nodes.length) := by
        intro hsty
        have hg : (Json.lookup "type" kvs).getD (Json.str "object") = Json.str "object" := by
          cases hsty with
          | inl h => simp [h]
          | inr h => simp [h]
        have hplWf : ∀ pl, Json.lookup "properties" kvs = some (Json.obj pl) →
            wfProps pl = true ∧ ∀ kv ∈ pl, (kv.2 : Json).depth ≤ n := by
          intro pl hp
          obtain ⟨pl', heq, hwfpl⟩ := wfPropsField_elim (wfFields_lookup hkvs hp)
          cases heq
          refine ⟨hwfpl, ?_⟩
          intro kv hm
          have h1 := depthFields_lookup hp
          have h2 : kv.2.depth ≤ depthFields pl := by
            obtain ⟨a, b⟩ := kv
            exact depthFields_mem hm
          simp only [Json.depth] at h1 hd
          omega
        -- obtain the table for the actual properties value
        have hptab : ∃ pl, ((Json.lookup "properties" kvs).getD (Json.obj [])) =
            Json.obj pl ∧ wfProps pl = true ∧ ∀ kv ∈ pl, (kv.2 : Json).depth ≤ n := by
          cases hp : Json.lookup "properties" kvs with
          | none => exact ⟨[], by simp, by simp [wfProps], by simp⟩
          | some pv =>
            obtain ⟨pl, heq, hwfpl⟩ := wfPropsField_elim (wfFields_lookup hkvs hp)
            subst heq
            obtain ⟨_, hdep⟩ := hplWf pl hp
            exact ⟨pl, by simp, hwfpl, hdep⟩
        obtain ⟨pl, hpl, hwfpl, hdeppl⟩ := hptab
        obtain ⟨pr, htab⟩ :=
          propsTableTotal hpts nm id pl (markVisited id st) hwfpl hdeppl
        have hnlen : (markVisited id st).nodes.length ≤ pr.2.nodes.length := by
          have := (propsTable_ext hpte nm (Json.obj pl) id (markVisited id st) pr htab).2.1.length_le
          exact this
        have hnodes : st.nodes.length <
            (addNode id ("<" ++ pr.1 ++ ">") none pr.2).nodes.length := by
          simp only [markVisited] at hnlen
          simp [addNode]
          omega
        cases hap : Json.lookup "additionalProperties" kvs with
        | none =>
          refine ⟨addNode id ("<" ++ pr.1 ++ ">") none pr.2, ?_, fun _ => hnodes⟩
          simp only [processType]
          delta processTypeGo
          rw [if_neg hmem]
          simp [pyIn, pyGet, hr, ha, hg, hpl, pyEqStr, hap, htab, okBind]
        | some ap =>
          have hapwf : wfField "additionalProperties" ap = true :=
            wfFields_lookup hkvs hap
          cases hao : ap.isObj with
          | false =>
            refine ⟨addNode id ("<" ++ pr.1 ++ ">") none pr.2, ?_, fun _ => hnodes⟩
            simp only [processType]
            delta processTypeGo
            rw [if_neg hmem]
            simp [pyIn, pyGet, pyGetItem, hr, ha, hg, hpl, pyEqStr, hap, htab, hao,
              Bool.false_eq_true, if_false, okBind]
          | true =>
            obtain ⟨akvs, rfl⟩ := isObj_elim hao
            have hakvs : wfFields akvs = true := by
              simpa [wfField, Json.isObj, wfNode] using hapwf
            cases har : Json.lookup "$ref" akvs with
            | some v =>
              obtain ⟨s, rfl⟩ := isStr_elim
                (by simpa [wfField] using wfFields_lookup hakvs har)
              refine ⟨addEdge id ("schema_" ++ lastSegment s) "additionalProperties"
                (addNode id ("<" ++ pr.1 ++ ">") none pr.2), ?_, ?_⟩
              · simp only [processType]
                delta processTypeGo
                rw [if_neg hmem]
                simp [pyIn, pyGet, pyGetItem, pySplitLast, hr, ha, hg, hpl, pyEqStr,
                  hap, htab, har, Json.isObj, okBind]
              · intro _
                simpa [addEdge] using hnodes
            | none =>
              cases hat : Json.lookup "type" akvs with
              | some atv =>
                obtain ⟨att, rfl⟩ := isStr_elim
                  (by simpa [wfField] using wfFields_lookup hakvs hat)
                by_cases hatto : att = "object"
                · subst hatto
                  cases hapr : Json.lookup "properties" akvs with
                  | some apv =>
                    have hapd : (Json.obj akvs).depth ≤ n := by
                      have hq := depthFields_lookup hap
                      simp only [Json.depth] at hq hd ⊢
                      omega
                    obtain ⟨st3, hst3⟩ := hpts "additionalProperties" (Json.obj akvs)
                      (id ++ "_additionalProps")
                      (addNode id ("<" ++ pr.1 ++ ">") none pr.2)
                      (by simpa [wfNode] using hakvs) hapd
                    refine ⟨addEdge id (id ++ "_additionalProps") "additionalProperties"
                      st3, ?_, ?_⟩
                    · simp only [processType]
                      delta processTypeGo
                      rw [if_neg hmem]
                      simp [pyIn, pyGet, pyGetItem, hr, ha, hg, hpl, pyEqStr, hap,
                        htab, har, hat, hapr, Json.isObj, hst3, okBind]
                    · intro _
                      have h1 := (hpte _ _ _ _ _ hst3).2.1.length_le
                      have h2 : pr.2.nodes.length + 1 ≤ st3.nodes.length := by
                        simpa [addNode] using h1
                      have h3 : st.nodes.length ≤ pr.2.nodes.length := by
                        simpa [markVisited] using hnlen
                      have h4 : (addEdge id (id ++ "_additionalProps")
                          "additionalProperties" st3).nodes.length =
                          st3.nodes.length := by
                        simp [addEdge]
                      omega
                  | none =>
                    refine ⟨addNode id ("<" ++ pr.1 ++ ">") none pr.2, ?_,
                      fun _ => hnodes⟩
                    simp only [processType]
                    delta processTypeGo
                    rw [if_neg hmem]
                    simp [pyIn, pyGet, pyGetItem, hr, ha, hg, hpl, pyEqStr, hap,
                      htab, har, hat, hapr, Json.isObj, okBind]
                · have hq : pyEqStr (Json.str att) "object" = false := by
                    simp [pyEqStr, hatto]
                  refine ⟨addNode id ("<" ++ pr.1 ++ ">") none pr.2, ?_,
                    fun _ => hnodes⟩
                  simp only [processType]
                  delta processTypeGo
                  rw [if_neg hmem]
                  simp [pyIn, pyGet, pyGetItem, hr, ha, hg, hpl, pyEqStr, hap, htab,
                    har, hat, hq, hatto, Json.isObj, Bool.false_eq_true, if_false,
                    okBind]
              | none =>
                refine ⟨addNode id ("<" ++ pr.1 ++ ">") none pr.2, ?_,
                  fun _ => hnodes⟩
                simp only [processType]
                delta processTypeGo
                rw [if_neg hmem]
                simp [pyIn, pyGet, pyGetItem, hr, ha, hg, hpl, pyEqStr, hap, htab,
                  har, hat, Json.isObj, okBind]
      cases hty : Json.lookup "type" kvs with
      | none => exact hobjCase (Or.inl hty)
      | some tv =>
        obtain ⟨t, rfl⟩ := isStr_elim (by simpa [wfField] using wfFields_lookup hkvs hty)
        by_cases hto : t = "object"
        · subst hto
          exact hobjCase (Or.inr hty)
        · by_cases hta : t = "array"
          · subst hta
            cases hit : Json.lookup "items" kvs with
            | none =>
              refine ⟨addNode id (nodeLabel nm "array") none (markVisited id st),
                ?_, ?_⟩
              · simp only [processType]
                delta processTypeGo
                rw [if_neg hmem]
                simp [pyIn, pyGet, hr, ha, hty, hit, pyEqStr, okBind]
              · intro _
                simp [addNode, markVisited]
            | some its =>
              have hits : wfNode its = true := by
                simpa [wfField] using wfFields_lookup hkvs hit
              have hitd : its.depth ≤ n := by
                have hq := items_bound hit
                omega
              obtain ⟨ikvs, rfl, hikvs⟩ := wfNode_elim hits
              cases hir : Json.lookup "$ref" ikvs with
              | some v =>
                obtain ⟨s, rfl⟩ := isStr_elim
                  (by simpa [wfField] using wfFields_lookup hikvs hir)
                refine ⟨addEdge id ("schema_" ++ lastSegment s) "items"
                  (addNode id (nodeLabel nm ("array of " ++ lastSegment s)) none
                    (markVisited id st)), ?_, ?_⟩
                · simp only [processType]
                  delta processTypeGo
                  rw [if_neg hmem]
                  simp [pyIn, pyGet, pyGetItem, pySplitLast, hr, ha, hty, hit, hir,
                    pyEqStr, okBind]
                · intro _
                  simp [addEdge, addNode, markVisited]
              | none =>
              cases hia : Json.lookup "anyOf" ikvs with
              | some v =>
                obtain ⟨alts, rfl, halts⟩ := wfAnyOf_elim (wfFields_lookup hikvs hia)
                have haltb : ∀ a ∈ alts, wfNode a = true ∧ a.depth ≤ n := by
                  intro a hm
                  refine ⟨wfList_mem halts hm, ?_⟩
                  have := alts_bound hia a hm
                  omega
                obtain ⟨ss, st2, hloop⟩ :=
                  itemsAnyOfLoopTotal hpts nm id alts 0 (markVisited id st) haltb
                refine ⟨addNode id
                  (nodeLabel nm ("array of anyOf: " ++ joinSep ", " ss)) none st2,
                  ?_, ?_⟩
                · simp only [processType]
                  delta processTypeGo
                  rw [if_neg hmem]
                  simp [pyIn, pyGet, pyGetItem, pyIter, hr, ha, hty, hit, hir, hia,
                    pyEqStr, hloop, pyJoin, asStrList_map, okBind, Except.map]
                · intro _
                  have hext := itemsAnyOfLoop_ext hpte nm id 0 alts
                    (markVisited id st) ⟨ss.map Json.str, st2⟩ hloop
                  have hle := hext.2.1.length_le
                  simp only [markVisited] at hle
                  simp [addNode]
                  omega
              | none =>
              cases hibt : Json.lookup "type" ikvs with
              | none =>
                refine ⟨addNode id (nodeLabel nm "array") none (markVisited id st),
                  ?_, ?_⟩
                · simp only [processType]
                  delta processTypeGo
                  rw [if_neg hmem]
                  simp [pyIn, pyGet, pyGetItem, hr, ha, hty, hit, hir, hia, hibt,
                    pyEqStr, okBind]
                · intro _
                  simp [addNode, markVisited]
              | some itv =>
                obtain ⟨tt, rfl⟩ := isStr_elim
                  (by simpa [wfField] using wfFields_lookup hikvs hibt)
                by_cases htto : tt = "object"
                · subst htto
                  cases hip : Json.lookup "properties" ikvs with
                  | some pv =>
                    obtain ⟨pl2, rfl, hpl2⟩ :=
                      wfPropsField_elim (wfFields_lookup hikvs hip)
                    obtain ⟨st3, hst3⟩ := hpts (nm ++ " items")
                      (Json.obj [("type", Json.str "object"),
                        ("properties", Json.obj pl2)])
                      (id ++ "_items")
                      (addNode id (nodeLabel nm ("array of " ++ pyStr (Json.str "object")))
                        none (markVisited id st))
                      (wrapper_wf hpl2)
                      (le_trans (wrapper_depth_le hip) hitd)
                    refine ⟨addEdge id (id ++ "_items") "items" st3, ?_, ?_⟩
                    · simp only [processType]
                      delta processTypeGo
                      rw [if_neg hmem]
                      simp [pyIn, pyGet, pyGetItem, hr, ha, hty, hit, hir, hia,
                        hibt, hip, pyEqStr, hst3, okBind]
                    · intro _
                      have h1 := (hpte _ _ _ _ _ hst3).2.1.length_le
                      have h2 : st.nodes.length + 1 ≤ st3.nodes.length := by
                        simpa [addNode, markVisited] using h1
                      have h3 : (addEdge id (id ++ "_items") "items"
                          st3).nodes.length = st3.nodes.length := by
                        simp [addEdge]
                      omega
                  | none =>
                    refine ⟨addNode id (nodeLabel nm ("array of object")) none
                      (markVisited id st), ?_, ?_⟩
                    · simp only [processType]
                      delta processTypeGo
                      rw [if_neg hmem]
                      simp [pyIn, pyGet, pyGetItem, hr, ha, hty, hit, hir, hia,
                        hibt, hip, pyEqStr, pyStr, okBind]
                    · intro _
                      simp [addNode, markVisited]
                · have hq : pyEqStr (Json.str tt) "object" = false := by
                    simp [pyEqStr, htto]
                  refine ⟨addNode id (nodeLabel nm ("array of " ++ tt)) none
                    (markVisited id st), ?_, ?_⟩
                  · simp only [processType]
                    delta processTypeGo
                    rw [if_neg hmem]
                    simp [pyIn, pyGet, pyGetItem, hr, ha, hty, hit, hir, hia, hibt,
                      pyEqStr, pyStr, hq, htto, Bool.false_eq_true, if_false,
                      okBind]
                  · intro _
                    simp [addNode, markVisited]
          · have hq1 : pyEqStr (Json.str t) "object" = false := by
              simp [pyEqStr, hto]
            have hq2 : pyEqStr (Json.str t) "array" = false := by
              simp [pyEqStr, hta]
            cases henum : Json.lookup "enum" kvs with
            | none =>
              refine ⟨addNode id (nodeLabel nm t) none (markVisited id st), ?_, ?_⟩
              · simp only [processType]
                delta processTypeGo
                rw [if_neg hmem]
                simp [pyIn, pyGet, hr, ha, hty, henum, hq1, hq2, hto, hta,
                  Bool.false_eq_true, if_false, pyStr, okBind]
              · intro _
                simp [addNode, markVisited]
            | some e =>
              obtain ⟨vals, rfl⟩ := isArr_elim
                (by simpa [wfField] using wfFields_lookup hkvs henum)
              by_cases hle : vals.length ≤ 5
              · have hgt : ¬ (5 < vals.length) := by omega
                refine ⟨addNode id
                  (nodeLabel nm (t ++ "<BR/>enum: "
                    ++ joinSep ", " ((vals.take 5).map pyStr)))
                  (some (pyStr (Json.arr vals)))
                  (addNode id (nodeLabel nm t) none (markVisited id st)), ?_, ?_⟩
                · simp only [processType]
                  delta processTypeGo
                  rw [if_neg hmem]
                  simp [pyIn, pyGet, pyGetItem, pyLen, pySlice5, pyIter, hr, ha,
                    hty, henum, hq1, hq2, hto, hta, hle, hgt, Bool.false_eq_true,
                    if_false, pyStr, okBind]
                · intro _
                  simp [addNode, markVisited]
              · refine ⟨addNode id (nodeLabel nm t) none (markVisited id st),
                  ?_, ?_⟩
                · simp only [processType]
                  delta processTypeGo
                  rw [if_neg hmem]
                  simp [pyIn, pyGet, pyGetItem, pyLen, hr, ha, hty, henum, hq1,
                    hq2, hto, hta, hle, Bool.false_eq_true, if_false, pyStr,
                    okBind]
                · intro _
                  simp [addNode, markVisited]

/-- C8 counterexample: the core is not total over malformed input.  A schema
whose `$ref` field holds a number makes `_process_type` raise — Python
evaluates `schema['$ref'].split('/')` and an `int` has no `.split`
(`AttributeError`) — rather than degrade to a default. -/
theorem c8_counterexample :
    processType 1 "B" (Json.obj [("$ref", Json.num 1)]) "schema_B" initState =
      .error "AttributeError" := by rfl

/-- C8 (amended): the recursive processor raises no exception on schema nodes
whose recognized fields carry values of the expected runtime type (`wfNode`)
and whose nesting depth stays within the remaining recursion budget, and on
such inputs it always produces node output for a not-yet-visited identifier;
malformed field values (such as the numeric `$ref` of the counterexample)
raise, and nesting beyond the budget raises `RecursionError`. -/
theorem c8_amended_total_on_wellformed :
    ∀ (fuel : Nat) (nm : String) (schema : Json) (id : String) (st : GState),
      wfNode schema = true → schema.depth ≤ fuel →
      ∃ st', processType fuel nm schema id st = .ok st' ∧
        (id ∉ st.visited → st.nodes.length < st'.nodes.length) :=
  processTypeTotal

/-- Witness for C8 (amended): a well-typed object schema with a reference
property, an `anyOf` property and an enum primitive property processes
successfully and emits node output. -/
theorem c8_witness :
    ∃ st', processType 10 "W8"
      (Json.obj [("type", Json.str "object"),
        ("properties", Json.obj
          [("a", Json.obj [("$ref", Json.str "#/components/schemas/A")]),
           ("b", Json.obj [("anyOf", Json.arr
              [Json.obj [("type", Json.str "string")],
               Json.obj [("$ref", Json.str "#/components/schemas/B")]])]),
           ("c", Json.obj [("type", Json.str "integer"),
              ("enum", Json.arr [Json.num 1, Json.num 2])])]),
        ("additionalProperties", Json.obj [("$ref", Json.str "#/components/schemas/C")])])
      "schema_W8" initState = .ok st' ∧
      ("schema_W8" ∉ initState.visited →
        initState.nodes.length < st'.nodes.length) :=
  c8_amended_total_on_wellformed 10 "W8" _ "schema_W8" initState
    (by simp [wfNode, wfFields, wfField, wfList, wfProps, Json.isStr, Json.isArr, Json.isObj])
    (by simp [Json.depth, depthList, depthFields] <;> omega)
